import Mathlib

/-!
# Verification of the v8_valueserializer value/heap model, deserializer,
# serializer and printer analysis

This file is a shallow embedding, in Lean 4, of the parts of the
`v8_valueserializer` Rust crate that the specification claims talk about:

* the data model (`src/value.rs`): `Value`, `StringValue`, `HeapValue`,
  `PropertyKey`, `Heap`, `HeapBuilder`, `HeapReference`, `RegExpFlags`,
  `Date`, and the structural-equality routine `value_eq`;
* the deserializer (`src/de.rs`): `ValueDeserializer::read` with all of its
  helper functions, the `Input` cursor, and `ParseError`;
* the serializer (`src/ser.rs`): the byte-emitting helpers relevant to
  string serialization (`write_varint`, `bytes_needed_for_varint`,
  `write_string`);
* the printer's dependency-analysis pass and a handful of its decision
  functions (`src/display.rs`): `visit`, `HeapObjectInfo::inlineable`,
  `is_ready_to_render`, `array_buffer_view_to_render_array_buffer_in`, and
  the `ViewKind`-selection loop of `display_heap_value`.

Machine integers are modelled as `Nat`/`Int` with explicit wrapping where
the Rust code can wrap.  `f64` values appear in two guises, matching how the
source uses them: as raw 64-bit little-endian patterns (`Nat < 2^64`) where
the code only moves bytes around, and as a semantic type `F64`
(NaN / infinities / finite rationals with a distinguished negative zero)
where the code does arithmetic (`Date::new`).  Every place where the Rust
code would panic (a failed `assert!`, an out-of-bounds index, an
`unreachable!`) is modelled explicitly: such functions return `Option`
results (`none` = panic) or surface a dedicated `ParseErrorKind.panicked`.
The embedded recursive functions take an explicit fuel argument so that they
are structurally recursive; fuel exhaustion surfaces as
`ParseErrorKind.outOfFuel`, which is unreachable for the fuel budgets the
top-level entry points pass (the Rust recursion is bounded by the input
size and the recursion-depth limit).
-/

namespace V8

/-! ## Semantic model of IEEE-754 binary64 for `Date`

`src/value.rs` does real floating-point arithmetic only in `Date::new` /
`double_to_integer`.  All the operations used there (`is_nan`, `>=`, `<=`,
`== 0.0`, `is_finite`, `floor`, `ceil`, `x + 0.0`) are exact on binary64:
`floor`/`ceil` of a finite double is exactly representable, and `x + 0.0`
differs from `x` only at `x = -0.0` (where it yields `+0.0`).  We therefore
model an `f64` as NaN, a signed infinity, or a finite rational together
with a flag distinguishing `-0.0` from `+0.0` (the flag is only meaningful
at zero).  This is a superset of the binary64 finite values, which is
harmless: every theorem below is stated over the superset. -/

inductive F64 where
  | nan : F64
  | inf (negative : Bool) : F64
  | finite (val : ℚ) (negZero : Bool) : F64
deriving DecidableEq

namespace F64

/-- IEEE-754 `x <= y`: false whenever either side is NaN, `-0.0 = +0.0`,
infinities ordered around all finite values. -/
def le : F64 → F64 → Bool
  | nan, _ => false
  | _, nan => false
  | inf true, _ => true
  | _, inf false => true
  | inf false, _ => false
  | finite _ _, inf true => false
  | finite a _, finite b _ => a ≤ b

/-- IEEE-754 `x >= y` (the mirror image of `le`; NaN still compares false). -/
def ge (x y : F64) : Bool := le y x

/-- `f64::is_nan`. -/
def isNan : F64 → Bool
  | nan => true
  | _ => false

/-- IEEE-754 `x == 0.0` (true for both `+0.0` and `-0.0`). -/
def eqZero : F64 → Bool
  | finite q _ => q = 0
  | _ => false

/-- `f64::is_finite`. -/
def isFinite : F64 → Bool
  | finite _ _ => true
  | _ => false

end F64

/-- Truncation toward zero on rationals: `⌊q⌋` for positive `q`, `⌈q⌉`
otherwise, mirroring `if x > 0.0 { x.floor() } else { x.ceil() }` in
`double_to_integer` (`src/value.rs`). -/
def ratTruncToward (q : ℚ) : ℚ := if 0 < q then (⌊q⌋ : ℚ) else (⌈q⌉ : ℚ)

/-- `double_to_integer` from `src/value.rs`:

* `if x.is_nan() || x == 0.0 { return x; }` — note that this early return
  passes `-0.0` through unchanged, because `-0.0 == 0.0` holds in IEEE;
* `if !x.is_finite() { return x; }`;
* otherwise `floor`/`ceil` toward zero followed by `x + 0.0`.  The final
  `+ 0.0` maps a `-0.0` produced by `ceil` (inputs in `(-1, 0)`) to `+0.0`
  and is the identity elsewhere, so the result's negative-zero flag is
  always `false` on this path. -/
def double_to_integer (x : F64) : F64 :=
  if x.isNan || x.eqZero then x
  else if !x.isFinite then x
  else match x with
    | .finite q _ => .finite (ratTruncToward q) false
    | _ => x

/-- `MAX_TIME_IN_MS = 864_000_000 * 10_000_000` from `Date::new`
(`src/value.rs`); the product `8.64e15` is an integer below `2^53` and hence
exactly representable in binary64. -/
def MAX_TIME_IN_MS : ℚ := 864000000 * 10000000

/-- `Date::new` from `src/value.rs`, returning the `time_since_epoch` field
of the constructed `Date`.  The range test happens on the raw input with
IEEE `>=`/`<=` (so NaN and infinities fail it), and in-range values go
through `double_to_integer`. -/
def Date.new (t : F64) : F64 :=
  if t.ge (.finite (-MAX_TIME_IN_MS) false) && t.le (.finite MAX_TIME_IN_MS false) then
    double_to_integer t
  else
    F64.nan

/-- `Date` equality from `impl PartialEq for Date` (`src/value.rs`): both
NaN, or IEEE `==` on the times (under which `-0.0 == +0.0`). -/
def dateEq : F64 → F64 → Bool
  | .nan, .nan => true
  | .finite a _, .finite b _ => a = b
  | _, _ => false

/-! ## Raw binary64 bit patterns

Everywhere else the source moves `f64` values around without arithmetic
(`read_double` / `write_double` copy 8 little-endian bytes; `value_eq` needs
only `is_nan` and IEEE `==`).  There we keep the raw 64-bit pattern as a
`Nat` below `2^64`. -/

/-- The exponent field (bits 52..62) of a binary64 pattern. -/
def f64Exponent (bits : Nat) : Nat := bits / 2 ^ 52 % 2 ^ 11

/-- The mantissa field (bits 0..51) of a binary64 pattern. -/
def f64Mantissa (bits : Nat) : Nat := bits % 2 ^ 52

/-- The sign bit of a binary64 pattern. -/
def f64SignBit (bits : Nat) : Bool := bits / 2 ^ 63 % 2 = 1

/-- `f64::is_nan` on a bit pattern: exponent all ones with a non-zero
mantissa. -/
def f64BitsIsNan (bits : Nat) : Bool :=
  f64Exponent bits = 0x7FF && f64Mantissa bits ≠ 0

/-- A binary64 pattern representing `+0.0` or `-0.0`. -/
def f64BitsIsZero (bits : Nat) : Bool :=
  f64Exponent bits = 0 && f64Mantissa bits = 0

/-- IEEE-754 `==` on bit patterns: false if either side is NaN, true iff
both denote the same real number — which, for non-NaN patterns, means equal
patterns or both zeros. -/
def f64BitsEq (a b : Nat) : Bool :=
  !f64BitsIsNan a && !f64BitsIsNan b && (a = b || (f64BitsIsZero a && f64BitsIsZero b))

/-- Decode a binary64 bit pattern into the semantic `F64` model (used by
`read_date`, which feeds the freshly read double into `Date::new`). -/
def decodeF64 (bits : Nat) : F64 :=
  let sign := f64SignBit bits
  let exponent := f64Exponent bits
  let mantissa := f64Mantissa bits
  if exponent = 0x7FF then
    if mantissa = 0 then F64.inf sign else F64.nan
  else
    let magnitude : ℚ :=
      if exponent = 0 then
        (mantissa : ℚ) / 2 ^ 52 * (2 ^ 1022)⁻¹
      else
        (1 + (mantissa : ℚ) / 2 ^ 52) * 2 ^ exponent / 2 ^ 1023
    if sign then
      if magnitude = 0 then F64.finite 0 true else F64.finite (-magnitude) false
    else
      F64.finite magnitude false

/-! ## The data model (`src/value.rs`) -/

/-- `HeapReference`: a non-owning (heap identity, index) pair.  The Rust
`heap_id` is drawn at random when a `HeapBuilder` is created and is only
ever used in assertions guarding cross-heap misuse; the embedding carries it
but fixes the builder's draw to `0`. -/
structure HeapReference where
  heapId : Nat
  index : Nat
deriving DecidableEq

/-- `StringValue`: the three physical string encodings.  `wtf8` and
`oneByte` carry byte values (`< 256`), `twoByte` carries 16-bit code units
(`< 2^16`); the constructors store the payloads exactly as the Rust
structs do (the cached `is_utf8` / `is_ascii` flags of the Rust structs are
derived data and are recomputed where needed). -/
inductive StringValue where
  | wtf8 (bytes : List Nat)
  | oneByte (bytes : List Nat)
  | twoByte (units : List Nat)
deriving DecidableEq

/-- `ArrayBufferViewKind` from `src/value.rs`. -/
inductive ViewKind where
  | int8Array
  | uint8Array
  | uint8ClampedArray
  | int16Array
  | uint16Array
  | int32Array
  | uint32Array
  | float32Array
  | float64Array
  | bigInt64Array
  | bigUint64Array
  | dataView
deriving DecidableEq

/-- `ArrayBufferViewKind::byte_width`. -/
def ViewKind.byteWidth : ViewKind → Nat
  | .int8Array => 1
  | .uint8Array => 1
  | .uint8ClampedArray => 1
  | .int16Array => 2
  | .uint16Array => 2
  | .int32Array => 4
  | .uint32Array => 4
  | .float32Array => 4
  | .float64Array => 8
  | .bigInt64Array => 8
  | .bigUint64Array => 8
  | .dataView => 1

/-- `ErrorName` from `src/value.rs`. -/
inductive ErrorName where
  | error
  | evalError
  | rangeError
  | referenceError
  | syntaxError
  | typeError
  | uriError
deriving DecidableEq

/-- The `RegExpFlags` bit-set (`src/value.rs`): nine defined bits. -/
def RegExpFlags.GLOBAL : Nat := 1 <<< 0
def RegExpFlags.IGNORE_CASE : Nat := 1 <<< 1
def RegExpFlags.MULTILINE : Nat := 1 <<< 2
def RegExpFlags.STICKY : Nat := 1 <<< 3
def RegExpFlags.UNICODE : Nat := 1 <<< 4
def RegExpFlags.DOT_ALL : Nat := 1 <<< 5
def RegExpFlags.LINEAR : Nat := 1 <<< 6
def RegExpFlags.HAS_INDICES : Nat := 1 <<< 7
def RegExpFlags.UNICODE_SETS : Nat := 1 <<< 8

/-- The union of all defined `RegExpFlags` bits. -/
def RegExpFlags.allBits : Nat := 0x1FF

/-- `RegExpFlags::from_bits` (from the `bitflags` expansion): succeeds iff
no bit outside the defined set is present. -/
def RegExpFlags.fromBits (bits : Nat) : Option Nat :=
  if bits &&& RegExpFlags.allBits = bits then some bits else none

/-- `Value` from `src/value.rs`.  `i32` is an `Int` in `[-2^31, 2^31)`,
`u32` a `Nat` below `2^32`, `double` a raw binary64 bit pattern and
`bigint` an unbounded `Int` (num-bigint has no negative zero, and neither
has `Int`). -/
inductive Value where
  | undefined
  | null
  | bool (b : Bool)
  | i32 (n : Int)
  | u32 (n : Nat)
  | double (bits : Nat)
  | bigint (z : Int)
  | string (s : StringValue)
  | heapReference (r : HeapReference)
deriving DecidableEq

/-- `PropertyKey` from `src/value.rs`. -/
inductive PropertyKey where
  | i32 (n : Int)
  | u32 (n : Nat)
  | double (bits : Nat)
  | string (s : StringValue)
deriving DecidableEq

/-- `HeapValue` from `src/value.rs`.  An `ArrayBuffer` is its byte
contents (`data`, values `< 256`) plus the optional `max_byte_length`; a
`Date` carries the semantic `F64` produced by `Date::new`; a `RegExp`
stores its flags as the raw `u32` bit-set. -/
inductive HeapValue where
  | booleanObject (b : Bool)
  | numberObject (bits : Nat)
  | bigIntObject (z : Int)
  | stringObject (s : StringValue)
  | regExp (pattern : StringValue) (flags : Nat)
  | date (time : F64)
  | object (properties : List (PropertyKey × Value))
  | sparseArray (length : Nat) (properties : List (PropertyKey × Value))
  | denseArray (elements : List (Option Value)) (properties : List (PropertyKey × Value))
  | map (entries : List (Value × Value))
  | set (values : List Value)
  | arrayBuffer (data : List Nat) (maxByteLength : Option Nat)
  | arrayBufferView (kind : ViewKind) (buffer : HeapReference) (byteOffset : Nat)
      (length : Nat) (isLengthTracking : Bool) (isBackedByRab : Bool)
  | error (name : ErrorName) (message : Option StringValue)
      (stack : Option StringValue) (cause : Option Value)
deriving DecidableEq

/-- `Heap`: the frozen arena produced by `HeapBuilder::build`. -/
structure Heap where
  heapId : Nat
  values : List HeapValue
deriving DecidableEq

/-- `HeapReference::open` (`src/value.rs`): asserts the identity tag
matches and indexes the arena.  `none` models the panic (failed assert or
out-of-bounds index). -/
def HeapReference.open (r : HeapReference) (heap : Heap) : Option HeapValue :=
  if r.heapId = heap.heapId then heap.values.get? r.index else none

/-- `HeapBuilder`: reserved (`none`) or populated (`some`) slots. -/
structure HeapBuilder where
  heapId : Nat
  values : List (Option HeapValue)

/-- `HeapBuilder::default()`; the Rust code draws `heap_id` from a thread
RNG, the model fixes the draw to `0` (the identity tag only feeds
assertions). -/
def HeapBuilder.new : HeapBuilder := { heapId := 0, values := [] }

/-- `HeapBuilder::reserve`. -/
def HeapBuilder.reserve (b : HeapBuilder) : HeapReference × HeapBuilder :=
  (⟨b.heapId, b.values.length⟩, { b with values := b.values ++ [none] })

/-- `HeapBuilder::insert_reserved`: panics (`none`) when the identity tag
mismatches, the index is out of bounds, or the slot is already populated. -/
def HeapBuilder.insertReserved (b : HeapBuilder) (r : HeapReference) (v : HeapValue) :
    Option HeapBuilder :=
  if r.heapId = b.heapId then
    match b.values.get? r.index with
    | some none => some { b with values := b.values.set r.index (some v) }
    | _ => none
  else none

/-- `HeapBuilder::insert` = reserve + insert_reserved; this composition
never panics, so it is total. -/
def HeapBuilder.insert (b : HeapBuilder) (v : HeapValue) : HeapReference × HeapBuilder :=
  (⟨b.heapId, b.values.length⟩, { b with values := b.values ++ [some v] })

/-- `HeapBuilder::try_open`: asserts the identity tag and indexes the slot
vector (outer `none` models the panic), returning the populated value if
the slot is filled (inner `Option`). -/
def HeapBuilder.tryOpen (b : HeapBuilder) (r : HeapReference) : Option (Option HeapValue) :=
  if r.heapId = b.heapId then b.values.get? r.index else none

/-- `HeapBuilder::reference_by_id`. -/
def HeapBuilder.referenceById (b : HeapBuilder) (id : Nat) : Option HeapReference :=
  if b.values.length ≤ id then none else some ⟨b.heapId, id⟩

/-- `HeapBuilder::build`: freezes the arena, failing with the index of the
first reserved-but-unfilled slot. -/
def HeapBuilder.build (b : HeapBuilder) : Except Nat Heap :=
  let rec go : List (Option HeapValue) → Nat → Except Nat (List HeapValue)
    | [], _ => .ok []
    | none :: _, i => .error i
    | some v :: rest, i => do
        let tail ← go rest (i + 1)
        .ok (v :: tail)
  match go b.values 0 with
  | .error i => .error i
  | .ok vs => .ok { heapId := b.heapId, values := vs }

/-! ## Tag constants (`src/tags.rs`)

`SerializationTag` byte values; the names keep the Rust variants'
spelling with a `tag` prefix. -/

def tagVersion : Nat := 0xFF
def tagPadding : Nat := 0x00
def tagVerifyObjectCount : Nat := 0x3F
def tagTheHole : Nat := 0x2D
def tagUndefined : Nat := 0x5F
def tagNull : Nat := 0x30
def tagTrue : Nat := 0x54
def tagFalse : Nat := 0x46
def tagInt32 : Nat := 0x49
def tagUint32 : Nat := 0x55
def tagDouble : Nat := 0x4E
def tagBigInt : Nat := 0x5A
def tagUtf8String : Nat := 0x53
def tagOneByteString : Nat := 0x22
def tagTwoByteString : Nat := 0x63
def tagObjectReference : Nat := 0x5E
def tagBeginJsObject : Nat := 0x6F
def tagEndJsObject : Nat := 0x7B
def tagBeginSparseJsArray : Nat := 0x61
def tagEndSparseJsArray : Nat := 0x40
def tagBeginDenseJsArray : Nat := 0x41
def tagEndDenseJsArray : Nat := 0x24
def tagDate : Nat := 0x44
def tagTrueObject : Nat := 0x79
def tagFalseObject : Nat := 0x78
def tagNumberObject : Nat := 0x6E
def tagBigIntObject : Nat := 0x7A
def tagStringObject : Nat := 0x73
def tagRegExp : Nat := 0x52
def tagBeginJsMap : Nat := 0x3B
def tagEndJsMap : Nat := 0x3A
def tagBeginJsSet : Nat := 0x27
def tagEndJsSet : Nat := 0x2C
def tagArrayBuffer : Nat := 0x42
def tagResizableArrayBuffer : Nat := 0x7E
def tagArrayBufferTransfer : Nat := 0x74
def tagArrayBufferView : Nat := 0x56
def tagSharedArrayBuffer : Nat := 0x75
def tagSharedObject : Nat := 0x70
def tagWasmModuleTransfer : Nat := 0x77
def tagHostObject : Nat := 0x5C
def tagWasmMemoryTransfer : Nat := 0x6D
def tagError : Nat := 0x72

/-- `ArrayBufferViewTag` byte values (`src/tags.rs`). -/
def viewTagInt8Array : Nat := 0x62
def viewTagUint8Array : Nat := 0x42
def viewTagUint8ClampedArray : Nat := 0x43
def viewTagInt16Array : Nat := 0x77
def viewTagUint16Array : Nat := 0x57
def viewTagInt32Array : Nat := 0x64
def viewTagUint32Array : Nat := 0x44
def viewTagFloat32Array : Nat := 0x66
def viewTagFloat64Array : Nat := 0x46
def viewTagBigInt64Array : Nat := 0x71
def viewTagBigUint64Array : Nat := 0x51
def viewTagDataView : Nat := 0x3F

/-- `ErrorTag` byte values.  The live `ErrorTag` enum is not present in
`src/tags.rs` (only a commented-out draft of it is); the byte values here
are taken from that draft, which matches the V8 source the file cites. -/
def errorTagEvalErrorPrototype : Nat := 0x45
def errorTagRangeErrorPrototype : Nat := 0x52
def errorTagReferenceErrorPrototype : Nat := 0x46
def errorTagSyntaxErrorPrototype : Nat := 0x53
def errorTagTypeErrorPrototype : Nat := 0x54
def errorTagUriErrorPrototype : Nat := 0x55
def errorTagMessage : Nat := 0x6D
def errorTagCause : Nat := 0x63
def errorTagStack : Nat := 0x73
def errorTagEnd : Nat := 0x2E

/-! ## The deserializer (`src/de.rs`) -/

/-- `ParseErrorKind` from `src/de.rs`, plus two embedding artifacts:
`panicked` marks a place where the Rust code would panic (failed assert,
out-of-bounds index), and `outOfFuel` marks exhaustion of the structural
fuel of the embedding (unreachable for the budgets the entry points use,
since the Rust recursion is bounded by the input length and the recursion
depth limit). -/
inductive ParseErrorKind where
  | unexpectedEof
  | expectedMinimumBytes (expected got : Nat)
  | expectedTag (expected got : Nat)
  | invalidWireFormatVersion (version : Nat)
  | unexpectedTag (t : Nat)
  | unexpectedErrorTag (t : Nat)
  | invalidLengthTwoByteString
  | invalidObjectReference (id : Nat)
  | invalidArrayElementsLength (expected actual : Nat)
  | invalidPropertyCount (expected actual : Nat)
  | invalidEntryCount (expected actual : Nat)
  | invalidPropertyKey (v : Value)
  | heapBuildError (index : Nat)
  | invalidResizableArrayBufferMaxLength (byteLength maxByteLength : Nat)
  | expectedEof
  | invalidArrayBufferViewOffset (byteOffset bufferByteLength : Nat)
  | invalidArrayBufferViewLength (byteLength byteOffset bufferByteLength : Nat)
  | invalidArrayBufferViewTag (t : Nat)
  | unalignedArrayBufferViewOffset (byteOffset elementSize : Nat)
  | unalignedArrayBufferViewLength (byteLength elementSize : Nat)
  | sharedArrayBufferNotSupported
  | missingTransferredArrayBuffer (id : Nat)
  | wasmModuleTransferNotSupported
  | hostObjectNotSupported
  | sharedObjectNotSupported
  | tooDeeplyNested
  | invalidRegExpFlags (bits : Nat)
  | panicked
  | outOfFuel
deriving DecidableEq

/-- `ParseError`: a kind together with the byte position it was detected
at. -/
structure ParseError where
  position : Nat
  kind : ParseErrorKind
deriving DecidableEq

/-- The `Input` cursor from `src/de.rs`: the full byte slice plus the
current position. -/
structure Input where
  bytes : List Nat
  pos : Nat
deriving DecidableEq

/-- `Input::err_current`: an error at the position currently being read. -/
def Input.errCurrent (input : Input) (kind : ParseErrorKind) : ParseError :=
  ⟨input.pos, kind⟩

/-- `Input::err`: an error at the position most recently read from. -/
def Input.err (input : Input) (kind : ParseErrorKind) : ParseError :=
  ⟨input.pos - 1, kind⟩

/-- `Input::expect_eof`.  The comparison is transcribed literally from the
source: `if self.bytes.len() < self.position`.  Since the position never
exceeds the byte count, this condition never holds (see
`expect_eof_never_fails` below). -/
def Input.expectEof (input : Input) : Except ParseError Unit :=
  if input.bytes.length < input.pos then
    .error (input.errCurrent .expectedEof)
  else
    .ok ()

/-- `Input::ensure_minimum_available`. -/
def Input.ensureMinimumAvailable (input : Input) (n : Nat) : Except ParseError Unit :=
  let available := input.bytes.length - input.pos
  if available < n then
    .error (input.errCurrent (.expectedMinimumBytes n available))
  else
    .ok ()

/-- The loop body of `Input::skip_padding`, made structural on a fuel that
the wrapper instantiates so that it cannot run out (each step moves the
position forward within the byte slice). -/
def skipPaddingFuel : Nat → Input → Input
  | 0, input => input
  | fuel + 1, input =>
      if input.bytes.get? input.pos = some tagPadding then
        skipPaddingFuel fuel ⟨input.bytes, input.pos + 1⟩
      else
        input

/-- `Input::skip_padding`: advance the position over `Padding` bytes. -/
def Input.skipPadding (input : Input) : Input :=
  skipPaddingFuel (input.bytes.length + 1 - input.pos) input

/-- `Input::read_byte`. -/
def Input.readByte (input : Input) : Except ParseError (Nat × Input) :=
  match input.bytes.get? input.pos with
  | some b => .ok (b, ⟨input.bytes, input.pos + 1⟩)
  | none => .error (input.errCurrent .unexpectedEof)

/-- `Input::read_bytes`. -/
def Input.readBytes (input : Input) (len : Nat) : Except ParseError (List Nat × Input) :=
  if input.pos + len ≤ input.bytes.length then
    .ok ((input.bytes.drop input.pos).take len, ⟨input.bytes, input.pos + len⟩)
  else
    .error (input.errCurrent .unexpectedEof)

/-- `Input::expect_tag`. -/
def Input.expectTag (input : Input) (tag : Nat) : Except ParseError Input := do
  let input := input.skipPadding
  let (byte, input) ← input.readByte
  if byte ≠ tag then
    .error (input.err (.expectedTag tag byte))
  else
    .ok input

/-- `Input::maybe_read_tag`.  Note that the padding skipped by the initial
`skip_padding` stays consumed even when the tag does not match, exactly as
in the source. -/
def Input.maybeReadTag (input : Input) (tag : Nat) : Bool × Input :=
  let input := input.skipPadding
  match input.bytes.get? input.pos with
  | some b =>
      if b = tag then (true, ⟨input.bytes, input.pos + 1⟩) else (false, input)
  | none => (false, input)

/-- The loop of `Input::read_varint` for `u32`: little-endian base-128, at
most `size_of::<u32>() + 1 = 5` bytes; the accumulated value lives in a
`u32`, so bits shifted beyond position 31 are discarded.  The fuel is `5`
at entry and cannot run out before the `i > 4` break fires. -/
def readVarintLoop : Nat → Nat → Nat → Input → Except ParseError (Nat × Input)
  | 0, value, _, input => .ok (value, input)
  | fuel + 1, value, i, input => do
      let (byte, input) ← input.readByte
      let value := (value ||| ((byte &&& 0x7F) <<< (i * 7))) % 2 ^ 32
      let i := i + 1
      if byte &&& 0x80 = 0 || 4 < i then
        .ok (value, input)
      else
        readVarintLoop fuel value i input

/-- `Input::read_varint` (for `u32`). -/
def Input.readVarint (input : Input) : Except ParseError (Nat × Input) :=
  readVarintLoop 5 0 0 input

/-- The loop of `Input::read_varint_u8`: as `read_varint` but accumulating
in a `u8` and capped at `size_of::<u8>() + 1 = 2` bytes. -/
def readVarintU8Loop : Nat → Nat → Nat → Input → Except ParseError (Nat × Input)
  | 0, value, _, input => .ok (value, input)
  | fuel + 1, value, i, input => do
      let (byte, input) ← input.readByte
      let value := (value ||| ((byte &&& 0x7F) <<< (i * 7))) % 2 ^ 8
      let i := i + 1
      if byte &&& 0x80 = 0 || 1 < i then
        .ok (value, input)
      else
        readVarintU8Loop fuel value i input

/-- `Input::read_varint_u8`. -/
def Input.readVarintU8 (input : Input) : Except ParseError (Nat × Input) :=
  readVarintU8Loop 2 0 0 input

/-- Interpret a `u32` bit pattern as an `i32` (two's complement). -/
def toInt32 (n : Nat) : Int :=
  if n < 2 ^ 31 then (n : Int) else (n : Int) - 2 ^ 32

/-- `Input::read_zigzag`: `(unsigned >> 1) as i32 ^ -((unsigned & 1) as i32)`.
The mask below is the `u32` bit pattern of `-((unsigned & 1) as i32)` and
the xor is performed on the 32-bit patterns, as in the source. -/
def Input.readZigzag (input : Input) : Except ParseError (Int × Input) := do
  let (u, input) ← input.readVarint
  let mask := if u &&& 1 = 1 then 0xFFFFFFFF else 0
  .ok (toInt32 ((u >>> 1) ^^^ mask), input)

/-- Assemble little-endian bytes into a `Nat`. -/
def leBytesToNat (bs : List Nat) : Nat := bs.foldr (fun b acc => b + 256 * acc) 0

/-- `Input::read_double`: 8 raw little-endian bytes, kept as the binary64
bit pattern. -/
def Input.readDouble (input : Input) : Except ParseError (Nat × Input) := do
  let (bs, input) ← input.readBytes 8
  .ok (leBytesToNat bs, input)

/-- `read_bigint` (`src/de.rs`): a varint bitfield with the sign in bit 0
and the byte length in bits 1..30, followed by that many little-endian
magnitude bytes.  `BigInt::from_bytes_le(Minus, [0])` is `0`, which `Int`
negation reproduces. -/
def readBigint (input : Input) : Except ParseError (Int × Input) := do
  let (bitfield, input) ← input.readVarint
  let signMinus := bitfield &&& 1 = 1
  let byteLength := (bitfield &&& 0x7FFFFFFE) >>> 1
  let (bytes, input) ← input.readBytes byteLength
  let magnitude := leBytesToNat bytes
  .ok (if signMinus then -(magnitude : Int) else (magnitude : Int), input)

/-- `read_utf8_string`: a length varint followed by raw (unvalidated)
bytes, stored as a `Wtf8` string. -/
def readUtf8String (input : Input) : Except ParseError (List Nat × Input) := do
  let (byteLength, input) ← input.readVarint
  input.readBytes byteLength

/-- `read_one_byte_string`: a length varint followed by Latin-1 bytes. -/
def readOneByteString (input : Input) : Except ParseError (List Nat × Input) := do
  let (byteLength, input) ← input.readVarint
  input.readBytes byteLength

/-- Reinterpret pairs of bytes as little-endian `u16` code units (host
byte order in the source; the wire format is explicitly little-endian). -/
def bytesToU16LE : List Nat → List Nat
  | b0 :: b1 :: rest => (b0 + 256 * b1) :: bytesToU16LE rest
  | _ => []

/-- `read_two_byte_string`: an even length varint followed by the raw
payload, copied into `u16` code units. -/
def readTwoByteString (input : Input) : Except ParseError (List Nat × Input) := do
  let (byteLength, input) ← input.readVarint
  if byteLength % 2 ≠ 0 then
    .error (input.err .invalidLengthTwoByteString)
  else do
    let (bytes, input) ← input.readBytes byteLength
    .ok (bytesToU16LE bytes, input)

/-- `read_object_reference`: a varint index resolved through
`HeapBuilder::reference_by_id`. -/
def readObjectReference (input : Input) (heap : HeapBuilder) :
    Except ParseError (HeapReference × Input) := do
  let (index, input) ← input.readVarint
  match heap.referenceById index with
  | some r => .ok (r, input)
  | none => .error (input.err (.invalidObjectReference index))

/-- `read_date`: a raw double fed through `Date::new`. -/
def readDate (input : Input) : Except ParseError (F64 × Input) := do
  let (bits, input) ← input.readDouble
  .ok (Date.new (decodeF64 bits), input)

/-- `read_js_array_buffer` (`src/de.rs`): byte length, optional
`max_byte_length` (which must not be below the byte length), then the raw
bytes. -/
def readJsArrayBuffer (input : Input) (isResizable : Bool) :
    Except ParseError ((List Nat × Option Nat) × Input) := do
  let (byteLength, input) ← input.readVarint
  let (maxByteLength, input) ←
    if isResizable then do
      let (maxValue, input) ← input.readVarint
      if maxValue < byteLength then
        .error (input.err (.invalidResizableArrayBufferMaxLength byteLength maxValue))
      else
        (.ok (some maxValue, input) : Except ParseError (Option Nat × Input))
    else
      .ok (none, input)
  let (bytes, input) ← input.readBytes byteLength
  .ok ((bytes, maxByteLength), input)

/-- `read_js_array_buffer_view` (`src/de.rs`): subtag, byte offset, byte
length and flags varints; bounds checks against the backing buffer; kind
dispatch with the element size; alignment checks; the stored length is the
byte length divided by the element size.  Flag bit 0 is
`is_length_tracking` and bit 1 is `is_backed_by_rab` — read from the wire
with no consistency check against the backing buffer's resizability. -/
def readJsArrayBufferView (input : Input) (bufferByteLength : Nat)
    (buffer : HeapReference) : Except ParseError (HeapValue × Input) := do
  let (tag, input) ← input.readVarintU8
  let (byteOffset, input) ← input.readVarint
  let (byteLength, input) ← input.readVarint
  let (flags, input) ← input.readVarint
  if bufferByteLength < byteOffset then
    .error (input.err (.invalidArrayBufferViewOffset byteOffset bufferByteLength))
  else if bufferByteLength - byteOffset < byteLength then
    .error (input.err (.invalidArrayBufferViewLength byteLength byteOffset bufferByteLength))
  else
    let isLengthTracking := flags &&& 0b1 ≠ 0
    let isBackedByRab := flags &&& 0b10 ≠ 0
    let kindAndSize : Option (ViewKind × Nat) :=
      if tag = viewTagDataView then some (.dataView, 1)
      else if tag = viewTagInt8Array then some (.int8Array, 1)
      else if tag = viewTagUint8Array then some (.uint8Array, 1)
      else if tag = viewTagUint8ClampedArray then some (.uint8ClampedArray, 1)
      else if tag = viewTagInt16Array then some (.int16Array, 2)
      else if tag = viewTagUint16Array then some (.uint16Array, 2)
      else if tag = viewTagInt32Array then some (.int32Array, 4)
      else if tag = viewTagUint32Array then some (.uint32Array, 4)
      else if tag = viewTagFloat32Array then some (.float32Array, 4)
      else if tag = viewTagFloat64Array then some (.float64Array, 8)
      else if tag = viewTagBigInt64Array then some (.bigInt64Array, 8)
      else if tag = viewTagBigUint64Array then some (.bigUint64Array, 8)
      else none
    match kindAndSize with
    | none => .error (input.err (.invalidArrayBufferViewTag tag))
    | some (kind, elementSize) =>
        if byteOffset % elementSize ≠ 0 then
          .error (input.err (.unalignedArrayBufferViewOffset byteOffset elementSize))
        else if byteLength % elementSize ≠ 0 then
          .error (input.err (.unalignedArrayBufferViewLength byteLength elementSize))
        else
          .ok (.arrayBufferView kind buffer byteOffset (byteLength / elementSize)
                isLengthTracking isBackedByRab, input)

/-- Remove the first entry with the given key from an association list,
returning it (models `HashMap::remove`; the transfer map's keys are the
caller-chosen transfer ids). -/
def removeFirst : List (Nat × (List Nat × Option Nat)) → Nat →
    Option ((List Nat × Option Nat) × List (Nat × (List Nat × Option Nat)))
  | [], _ => none
  | (k, v) :: rest, key =>
      if k = key then some (v, rest)
      else match removeFirst rest key with
        | some (found, rest') => some (found, (k, v) :: rest')
        | none => none

/-- The deserializer state: the transfer map (id → array buffer) and the
recursion depth counter. -/
structure DeState where
  transferMap : List (Nat × (List Nat × Option Nat))
  recursionDepth : Nat
deriving DecidableEq

/-- `read_transferred_js_array_buffer`: consume the transfer-map entry for
the id read from the wire. -/
def readTransferredJsArrayBuffer (de : DeState) (input : Input) :
    Except ParseError ((List Nat × Option Nat) × DeState × Input) := do
  let (id, input) ← input.readVarint
  match removeFirst de.transferMap id with
  | some (ab, rest) => .ok (ab, { de with transferMap := rest }, input)
  | none => .error (input.err (.missingTransferredArrayBuffer id))

/-- `RECURSION_DEPTH_LIMIT` from `src/de.rs`. -/
def RECURSION_DEPTH_LIMIT : Nat := 256

mutual

/-- `read_object` (`src/de.rs`): the recursion-depth guard around
`read_object_internal`, followed by the ArrayBufferView "glue" rule — if
the value just read is a heap reference to an `ArrayBuffer` and an
`ArrayBufferView` tag follows, the view is read and becomes the value. -/
def readObject : Nat → DeState → Input → HeapBuilder →
    Except ParseError (Value × DeState × Input × HeapBuilder)
  | 0, _, input, _ => .error (input.errCurrent .outOfFuel)
  | fuel + 1, de, input, heap =>
      if RECURSION_DEPTH_LIMIT < de.recursionDepth then
        .error (input.err .tooDeeplyNested)
      else
        match readObjectInternal fuel { de with recursionDepth := de.recursionDepth + 1 } input heap with
        | .error e => .error e
        | .ok (value, de, input, heap) =>
            let de := { de with recursionDepth := de.recursionDepth - 1 }
            match value with
            | .heapReference reference =>
                match heap.tryOpen reference with
                | none => .error (input.errCurrent .panicked)
                | some (some (.arrayBuffer data _)) =>
                    let (isView, input) := input.maybeReadTag tagArrayBufferView
                    if isView then do
                      let bufferByteLength := data.length % 2 ^ 32
                      let (view, input) ← readJsArrayBufferView input bufferByteLength reference
                      let (reference, heap) := heap.insert view
                      .ok (.heapReference reference, de, input, heap)
                    else
                      .ok (value, de, input, heap)
                | some _ => .ok (value, de, input, heap)
            | _ => .ok (value, de, input, heap)

/-- `read_object_internal` (`src/de.rs`): skip padding, read the tag byte
and dispatch. -/
def readObjectInternal : Nat → DeState → Input → HeapBuilder →
    Except ParseError (Value × DeState × Input × HeapBuilder)
  | 0, _, input, _ => .error (input.errCurrent .outOfFuel)
  | fuel + 1, de, input, heap => do
      let input := input.skipPadding
      let (tag, input) ← input.readByte
      if tag = tagVerifyObjectCount then do
        let (_, input) ← input.readVarint
        readObject fuel de input heap
      else if tag = tagUndefined then
        .ok (.undefined, de, input, heap)
      else if tag = tagNull then
        .ok (.null, de, input, heap)
      else if tag = tagTrue then
        .ok (.bool true, de, input, heap)
      else if tag = tagFalse then
        .ok (.bool false, de, input, heap)
      else if tag = tagInt32 then do
        let (value, input) ← input.readZigzag
        .ok (.i32 value, de, input, heap)
      else if tag = tagUint32 then do
        let (value, input) ← input.readVarint
        .ok (.u32 value, de, input, heap)
      else if tag = tagDouble then do
        let (value, input) ← input.readDouble
        .ok (.double value, de, input, heap)
      else if tag = tagBigInt then do
        let (value, input) ← readBigint input
        .ok (.bigint value, de, input, heap)
      else if tag = tagUtf8String then do
        let (value, input) ← readUtf8String input
        .ok (.string (.wtf8 value), de, input, heap)
      else if tag = tagOneByteString then do
        let (value, input) ← readOneByteString input
        .ok (.string (.oneByte value), de, input, heap)
      else if tag = tagTwoByteString then do
        let (value, input) ← readTwoByteString input
        .ok (.string (.twoByte value), de, input, heap)
      else if tag = tagObjectReference then do
        let (reference, input) ← readObjectReference input heap
        .ok (.heapReference reference, de, input, heap)
      else if tag = tagBeginJsObject then do
        let (reference, heap) := heap.reserve
        let (object, de, input, heap) ← readJsObject fuel de input heap
        match heap.insertReserved reference object with
        | some heap => .ok (.heapReference reference, de, input, heap)
        | none => .error (input.errCurrent .panicked)
      else if tag = tagBeginSparseJsArray then do
        let (reference, heap) := heap.reserve
        let (array, de, input, heap) ← readSparseJsArray fuel de input heap
        match heap.insertReserved reference array with
        | some heap => .ok (.heapReference reference, de, input, heap)
        | none => .error (input.errCurrent .panicked)
      else if tag = tagBeginDenseJsArray then do
        let (reference, heap) := heap.reserve
        let (array, de, input, heap) ← readDenseJsArray fuel de input heap
        match heap.insertReserved reference array with
        | some heap => .ok (.heapReference reference, de, input, heap)
        | none => .error (input.errCurrent .panicked)
      else if tag = tagDate then do
        let (date, input) ← readDate input
        let (reference, heap) := heap.insert (.date date)
        .ok (.heapReference reference, de, input, heap)
      else if tag = tagTrueObject then
        let (reference, heap) := heap.insert (.booleanObject true)
        .ok (.heapReference reference, de, input, heap)
      else if tag = tagFalseObject then
        let (reference, heap) := heap.insert (.booleanObject false)
        .ok (.heapReference reference, de, input, heap)
      else if tag = tagNumberObject then do
        let (value, input) ← input.readDouble
        let (reference, heap) := heap.insert (.numberObject value)
        .ok (.heapReference reference, de, input, heap)
      else if tag = tagBigIntObject then do
        let (value, input) ← readBigint input
        let (reference, heap) := heap.insert (.bigIntObject value)
        .ok (.heapReference reference, de, input, heap)
      else if tag = tagStringObject then do
        let (value, de, input) ← readStringValue fuel de input
        let (reference, heap) := heap.insert (.stringObject value)
        .ok (.heapReference reference, de, input, heap)
      else if tag = tagRegExp then do
        let (regexp, de, input) ← readRegexp fuel de input
        let (reference, heap) := heap.insert (.regExp regexp.1 regexp.2)
        .ok (.heapReference reference, de, input, heap)
      else if tag = tagBeginJsMap then do
        let (reference, heap) := heap.reserve
        let (entries, de, input, heap) ← readJsMap fuel de input heap
        match heap.insertReserved reference entries with
        | some heap => .ok (.heapReference reference, de, input, heap)
        | none => .error (input.errCurrent .panicked)
      else if tag = tagBeginJsSet then do
        let (reference, heap) := heap.reserve
        let (values, de, input, heap) ← readJsSet fuel de input heap
        match heap.insertReserved reference values with
        | some heap => .ok (.heapReference reference, de, input, heap)
        | none => .error (input.errCurrent .panicked)
      else if tag = tagArrayBuffer then do
        let (ab, input) ← readJsArrayBuffer input false
        let (reference, heap) := heap.insert (.arrayBuffer ab.1 ab.2)
        .ok (.heapReference reference, de, input, heap)
      else if tag = tagResizableArrayBuffer then do
        let (ab, input) ← readJsArrayBuffer input true
        let (reference, heap) := heap.insert (.arrayBuffer ab.1 ab.2)
        .ok (.heapReference reference, de, input, heap)
      else if tag = tagArrayBufferTransfer then do
        let (ab, de, input) ← readTransferredJsArrayBuffer de input
        let (reference, heap) := heap.insert (.arrayBuffer ab.1 ab.2)
        .ok (.heapReference reference, de, input, heap)
      else if tag = tagSharedArrayBuffer then
        .error (input.err .sharedArrayBufferNotSupported)
      else if tag = tagError then do
        let (reference, heap) := heap.reserve
        let (error, de, input, heap) ← readJsError fuel de input heap .error none none none
        match heap.insertReserved reference error with
        | some heap => .ok (.heapReference reference, de, input, heap)
        | none => .error (input.errCurrent .panicked)
      else if tag = tagWasmModuleTransfer then
        .error (input.err .wasmModuleTransferNotSupported)
      else if tag = tagWasmMemoryTransfer then
        .error (input.err .sharedArrayBufferNotSupported)
      else if tag = tagHostObject then
        .error (input.err .hostObjectNotSupported)
      else if tag = tagSharedObject then
        .error (input.err .sharedObjectNotSupported)
      else
        .error (input.err (.unexpectedTag tag))

/-- `read_string_value` (`src/de.rs`): the string-only reader used by
`StringObject`, `RegExp` and error messages/stacks.  The depth counter is
checked at entry but only incremented around the `VerifyObjectCount`
retry. -/
def readStringValue : Nat → DeState → Input →
    Except ParseError (StringValue × DeState × Input)
  | 0, _, input => .error (input.errCurrent .outOfFuel)
  | fuel + 1, de, input =>
      if RECURSION_DEPTH_LIMIT < de.recursionDepth then
        .error (input.err .tooDeeplyNested)
      else do
        let input := input.skipPadding
        let (tag, input) ← input.readByte
        if tag = tagVerifyObjectCount then do
          let (_, input) ← input.readVarint
          match readStringValue fuel { de with recursionDepth := de.recursionDepth + 1 } input with
          | .ok (s, de, input) =>
              .ok (s, { de with recursionDepth := de.recursionDepth - 1 }, input)
          | .error e => .error e
        else if tag = tagUtf8String then do
          let (value, input) ← readUtf8String input
          .ok (.wtf8 value, de, input)
        else if tag = tagOneByteString then do
          let (value, input) ← readOneByteString input
          .ok (.oneByte value, de, input)
        else if tag = tagTwoByteString then do
          let (value, input) ← readTwoByteString input
          .ok (.twoByte value, de, input)
        else
          .error (input.err (.unexpectedTag tag))

/-- `read_regexp` (`src/de.rs`): the pattern string, then a flags varint
validated through `RegExpFlags::from_bits` followed by the explicit
`LINEAR` and `UNICODE ∧ UNICODE_SETS` rejections. -/
def readRegexp : Nat → DeState → Input →
    Except ParseError ((StringValue × Nat) × DeState × Input)
  | 0, _, input => .error (input.errCurrent .outOfFuel)
  | fuel + 1, de, input => do
      let (pattern, de, input) ← readStringValue fuel de input
      let (flags, input) ← input.readVarint
      match RegExpFlags.fromBits flags with
      | none => .error (input.err (.invalidRegExpFlags flags))
      | some flags =>
          if flags &&& RegExpFlags.LINEAR ≠ 0 then
            .error (input.err (.invalidRegExpFlags flags))
          else if flags &&& RegExpFlags.UNICODE ≠ 0 && flags &&& RegExpFlags.UNICODE_SETS ≠ 0 then
            .error (input.err (.invalidRegExpFlags flags))
          else
            .ok ((pattern, flags), de, input)

/-- The key/value loop of `read_js_object_properties` (`src/de.rs`): read
pairs until the end tag, rejecting non-primitive property keys. -/
def readJsObjectPropertiesLoop : Nat → DeState → Input → HeapBuilder → Nat →
    Except ParseError (List (PropertyKey × Value) × DeState × Input × HeapBuilder)
  | 0, _, input, _, _ => .error (input.errCurrent .outOfFuel)
  | fuel + 1, de, input, heap, endTag =>
      let (isEnd, input) := input.maybeReadTag endTag
      if isEnd then
        .ok ([], de, input, heap)
      else do
        let (keyValue, de, input, heap) ← readObject fuel de input heap
        let key ← match keyValue with
          | .i32 n => .ok (PropertyKey.i32 n)
          | .u32 n => .ok (PropertyKey.u32 n)
          | .double bits => .ok (PropertyKey.double bits)
          | .string s => .ok (PropertyKey.string s)
          | value => .error (input.err (.invalidPropertyKey value))
        let (value, de, input, heap) ← readObject fuel de input heap
        let (rest, de, input, heap) ← readJsObjectPropertiesLoop fuel de input heap endTag
        .ok ((key, value) :: rest, de, input, heap)

/-- `read_js_object_properties`: the loop above followed by the property
count varint, which must equal the number of pairs read. -/
def readJsObjectProperties : Nat → DeState → Input → HeapBuilder → Nat →
    Except ParseError (List (PropertyKey × Value) × DeState × Input × HeapBuilder)
  | 0, _, input, _, _ => .error (input.errCurrent .outOfFuel)
  | fuel + 1, de, input, heap, endTag => do
      let (properties, de, input, heap) ← readJsObjectPropertiesLoop fuel de input heap endTag
      let (propertyCount, input) ← input.readVarint
      if propertyCount ≠ properties.length % 2 ^ 32 then
        .error (input.err (.invalidPropertyCount propertyCount (properties.length % 2 ^ 32)))
      else
        .ok (properties, de, input, heap)

/-- `read_js_object`. -/
def readJsObject : Nat → DeState → Input → HeapBuilder →
    Except ParseError (HeapValue × DeState × Input × HeapBuilder)
  | 0, _, input, _ => .error (input.errCurrent .outOfFuel)
  | fuel + 1, de, input, heap => do
      let (properties, de, input, heap) ←
        readJsObjectProperties fuel de input heap tagEndJsObject
      .ok (.object properties, de, input, heap)

/-- `read_sparse_js_array`: length varint, properties, then a repeat of
the length for sanity. -/
def readSparseJsArray : Nat → DeState → Input → HeapBuilder →
    Except ParseError (HeapValue × DeState × Input × HeapBuilder)
  | 0, _, input, _ => .error (input.errCurrent .outOfFuel)
  | fuel + 1, de, input, heap => do
      let (length, input) ← input.readVarint
      let (properties, de, input, heap) ←
        readJsObjectProperties fuel de input heap tagEndSparseJsArray
      let (expectedLength, input) ← input.readVarint
      if expectedLength ≠ length then
        .error (input.err (.invalidArrayElementsLength expectedLength length))
      else
        .ok (.sparseArray length properties, de, input, heap)

/-- The element loop of `read_dense_js_array`: `length` slots, each either
`TheHole` or a full value. -/
def readDenseElementsLoop : Nat → Nat → DeState → Input → HeapBuilder →
    Except ParseError (List (Option Value) × DeState × Input × HeapBuilder)
  | 0, _, _, input, _ => .error (input.errCurrent .outOfFuel)
  | _ + 1, 0, de, input, heap => .ok ([], de, input, heap)
  | fuel + 1, count + 1, de, input, heap =>
      let (isHole, input) := input.maybeReadTag tagTheHole
      if isHole then do
        let (rest, de, input, heap) ← readDenseElementsLoop fuel count de input heap
        .ok (none :: rest, de, input, heap)
      else do
        let (value, de, input, heap) ← readObject fuel de input heap
        let (rest, de, input, heap) ← readDenseElementsLoop fuel count de input heap
        .ok (some value :: rest, de, input, heap)

/-- `read_dense_js_array`: length varint, `length` element slots,
properties, then a repeat of the length. -/
def readDenseJsArray : Nat → DeState → Input → HeapBuilder →
    Except ParseError (HeapValue × DeState × Input × HeapBuilder)
  | 0, _, input, _ => .error (input.errCurrent .outOfFuel)
  | fuel + 1, de, input, heap => do
      let (length, input) ← input.readVarint
      let _ ← input.ensureMinimumAvailable length
      let (elements, de, input, heap) ← readDenseElementsLoop fuel length de input heap
      let (properties, de, input, heap) ←
        readJsObjectProperties fuel de input heap tagEndDenseJsArray
      let (finalElementsLength, input) ← input.readVarint
      if finalElementsLength ≠ length then
        .error (input.err (.invalidArrayElementsLength finalElementsLength length))
      else
        .ok (.denseArray elements properties, de, input, heap)

/-- The entry loop of `read_js_map`. -/
def readJsMapLoop : Nat → DeState → Input → HeapBuilder →
    Except ParseError (List (Value × Value) × DeState × Input × HeapBuilder)
  | 0, _, input, _ => .error (input.errCurrent .outOfFuel)
  | fuel + 1, de, input, heap =>
      let (isEnd, input) := input.maybeReadTag tagEndJsMap
      if isEnd then
        .ok ([], de, input, heap)
      else do
        let (key, de, input, heap) ← readObject fuel de input heap
        let (value, de, input, heap) ← readObject fuel de input heap
        let (rest, de, input, heap) ← readJsMapLoop fuel de input heap
        .ok ((key, value) :: rest, de, input, heap)

/-- `read_js_map`: entries until the end tag, then a count that must equal
`entries.len() * 2` (as a `u32`). -/
def readJsMap : Nat → DeState → Input → HeapBuilder →
    Except ParseError (HeapValue × DeState × Input × HeapBuilder)
  | 0, _, input, _ => .error (input.errCurrent .outOfFuel)
  | fuel + 1, de, input, heap => do
      let (entries, de, input, heap) ← readJsMapLoop fuel de input heap
      let (expectedLength, input) ← input.readVarint
      let actualLength := entries.length * 2 % 2 ^ 32
      if expectedLength ≠ actualLength then
        .error (input.err (.invalidEntryCount expectedLength actualLength))
      else
        .ok (.map entries, de, input, heap)

/-- The value loop of `read_js_set`. -/
def readJsSetLoop : Nat → DeState → Input → HeapBuilder →
    Except ParseError (List Value × DeState × Input × HeapBuilder)
  | 0, _, input, _ => .error (input.errCurrent .outOfFuel)
  | fuel + 1, de, input, heap =>
      let (isEnd, input) := input.maybeReadTag tagEndJsSet
      if isEnd then
        .ok ([], de, input, heap)
      else do
        let (value, de, input, heap) ← readObject fuel de input heap
        let (rest, de, input, heap) ← readJsSetLoop fuel de input heap
        .ok (value :: rest, de, input, heap)

/-- `read_js_set`: values until the end tag, then a count that must equal
`values.len()` (as a `u32`). -/
def readJsSet : Nat → DeState → Input → HeapBuilder →
    Except ParseError (HeapValue × DeState × Input × HeapBuilder)
  | 0, _, input, _ => .error (input.errCurrent .outOfFuel)
  | fuel + 1, de, input, heap => do
      let (values, de, input, heap) ← readJsSetLoop fuel de input heap
      let (expectedLength, input) ← input.readVarint
      if expectedLength ≠ values.length % 2 ^ 32 then
        .error (input.err (.invalidEntryCount expectedLength (values.length % 2 ^ 32)))
      else
        .ok (.set values, de, input, heap)

/-- The subtag loop of `read_js_error` (`src/de.rs`): prototype subtags
set the name; `Message`/`Stack` read a string; `Cause` reads a full value;
`End` terminates; anything else is `UnexpectedErrorTag`. -/
def readJsError : Nat → DeState → Input → HeapBuilder → ErrorName →
    Option StringValue → Option StringValue → Option Value →
    Except ParseError (HeapValue × DeState × Input × HeapBuilder)
  | 0, _, input, _, _, _, _, _ => .error (input.errCurrent .outOfFuel)
  | fuel + 1, de, input, heap, name, message, stack, cause => do
      let (tag, input) ← input.readVarintU8
      if tag = errorTagEvalErrorPrototype then
        readJsError fuel de input heap .evalError message stack cause
      else if tag = errorTagRangeErrorPrototype then
        readJsError fuel de input heap .rangeError message stack cause
      else if tag = errorTagReferenceErrorPrototype then
        readJsError fuel de input heap .referenceError message stack cause
      else if tag = errorTagSyntaxErrorPrototype then
        readJsError fuel de input heap .syntaxError message stack cause
      else if tag = errorTagTypeErrorPrototype then
        readJsError fuel de input heap .typeError message stack cause
      else if tag = errorTagUriErrorPrototype then
        readJsError fuel de input heap .uriError message stack cause
      else if tag = errorTagMessage then do
        let (str, de, input) ← readStringValue fuel de input
        readJsError fuel de input heap name (some str) stack cause
      else if tag = errorTagStack then do
        let (str, de, input) ← readStringValue fuel de input
        readJsError fuel de input heap name message (some str) cause
      else if tag = errorTagCause then do
        let (obj, de, input, heap) ← readObject fuel de input heap
        readJsError fuel de input heap name message stack (some obj)
      else if tag = errorTagEnd then
        .ok (.error name message stack cause, de, input, heap)
      else
        .error (input.err (.unexpectedErrorTag tag))

end

/-- `ValueDeserializer::read` (`src/de.rs`): version header, the top-level
value, the (ineffective) trailing-bytes check, then the heap freeze.  The
`transferMap` parameter carries the entries registered through
`transfer_array_buffer` before the call.  The fuel `4 * |bytes| + 16`
dominates every call chain the input can produce, since each nested call
or loop iteration first consumes input (see the concrete evaluations
below — none of them touches `outOfFuel`). -/
def ValueDeserializer.read (transferMap : List (Nat × (List Nat × Option Nat)))
    (bytes : List Nat) : Except ParseError (Value × Heap) := do
  let input : Input := ⟨bytes, 0⟩
  let input ← input.expectTag tagVersion
  let (version, input) ← input.readVarint
  if version < 14 || 15 < version then
    .error (input.err (.invalidWireFormatVersion version))
  else do
    let de : DeState := ⟨transferMap, 0⟩
    let (value, _, input, heapBuilder) ←
      readObject (4 * bytes.length + 16) de input HeapBuilder.new
    let _ ← input.expectEof
    match heapBuilder.build with
    | .error i => .error (input.errCurrent (.heapBuildError i))
    | .ok heap => .ok (value, heap)

/-! ## The serializer (`src/ser.rs`): byte-emitting helpers

Only the pieces the claims need are embedded: `write_varint`,
`bytes_needed_for_varint` and `write_string`.  The serializer's `data`
vector is a byte list; pushes are modelled as appends. -/

/-- `SerializationError` from `src/ser.rs`. -/
inductive SerializationError where
  | recursionDepthLimitExceeded
  | danglingHeapReference
  | stringTooLong
  | bigIntTooLarge
  | tooManyObjectProperties
  | arrayTooLong
  | mapTooLarge
  | setTooLarge
deriving DecidableEq

/-- The serializer state (`ValueSerializer`): output bytes, the
`HeapReference → u32` id map, and the recursion depth. -/
structure SerState where
  data : List Nat
  idMap : List (HeapReference × Nat)
  recursionDepth : Nat
deriving DecidableEq

/-- The loop of `ValueSerializer::write_varint`: emit 7 bits at a time,
least significant first, with the continuation bit on every byte but the
last.  Structural fuel `5` covers every `u32` (at most four iterations of
the `while` plus the final push). -/
def writeVarintFuel : Nat → Nat → List Nat → List Nat
  | 0, _, acc => acc
  | fuel + 1, value, acc =>
      if 0x80 ≤ value then
        writeVarintFuel fuel (value >>> 7) (acc ++ [(value &&& 0x7F) ||| 0x80])
      else
        acc ++ [value]

/-- The bytes `write_varint` emits for a `u32` value. -/
def varintBytes (value : Nat) : List Nat := writeVarintFuel 5 value []

/-- `ValueSerializer::write_varint`. -/
def SerState.writeVarint (st : SerState) (value : Nat) : SerState :=
  { st with data := st.data ++ varintBytes value }

/-- `ValueSerializer::write_tag`. -/
def SerState.writeTag (st : SerState) (tag : Nat) : SerState :=
  { st with data := st.data ++ [tag] }

/-- The loop of `bytes_needed_for_varint` (`src/ser.rs`): starting from 1,
one more byte per 7-bit shift while the value is at least `0x80`. -/
def bytesNeededForVarintFuel : Nat → Nat → Nat → Nat
  | 0, _, acc => acc
  | fuel + 1, value, acc =>
      if 0x80 ≤ value then bytesNeededForVarintFuel fuel (value >>> 7) (acc + 1)
      else acc

/-- `bytes_needed_for_varint` (`src/ser.rs`). -/
def bytes_needed_for_varint (value : Nat) : Nat :=
  bytesNeededForVarintFuel 5 value 1

/-- Modelled from the spec: `TwoByteString::as_u8_bytes` is called by
`write_string` (`src/ser.rs`) but its definition is not among the provided
sources.  Per spec §3.2 a TwoByte string is a sequence of 16-bit code
units, and per §4.1/§9 payloads are little-endian on the wire (host order,
non-portable like V8), so the byte view emits each unit's low byte
followed by its high byte. -/
def TwoByteString.asU8Bytes : List Nat → List Nat
  | [] => []
  | u :: rest => u % 256 :: u / 256 % 256 :: TwoByteString.asU8Bytes rest

/-- `ValueSerializer::write_string` (`src/ser.rs`).  For the `TwoByte`
case: the byte view's length is checked against `u32`, then one `Padding`
byte is emitted iff `(data.len() + 1 + bytes_needed_for_varint(length)) & 1
== 1`, then the tag, the length varint and the payload. -/
def SerState.writeString (st : SerState) (s : StringValue) :
    Except SerializationError SerState :=
  match s with
  | .wtf8 bytes =>
      let st := st.writeTag tagUtf8String
      if bytes.length < 2 ^ 32 then
        .ok { (st.writeVarint bytes.length) with
              data := (st.writeVarint bytes.length).data ++ bytes }
      else
        .error .stringTooLong
  | .oneByte bytes =>
      let st := st.writeTag tagOneByteString
      if bytes.length < 2 ^ 32 then
        .ok { (st.writeVarint bytes.length) with
              data := (st.writeVarint bytes.length).data ++ bytes }
      else
        .error .stringTooLong
  | .twoByte units =>
      let bytes := TwoByteString.asU8Bytes units
      if bytes.length < 2 ^ 32 then
        let st :=
          if (st.data.length + 1 + bytes_needed_for_varint bytes.length) &&& 0x1 = 1 then
            st.writeTag tagPadding
          else
            st
        let st := st.writeTag tagTwoByteString
        let st := st.writeVarint bytes.length
        .ok { st with data := st.data ++ bytes }
      else
        .error .stringTooLong

/-! ## The serializer, continued: `write_value` and `finish` (`src/ser.rs`) -/

/-- Interpret an `i32` as its `u32` two's-complement bit pattern. -/
def toUInt32 (v : Int) : Nat := (v % 2 ^ 32).toNat

/-- `ValueSerializer::write_zigzag`: `((value << 1) ^ (value >> 31)) as u32`,
computed on bit patterns (the arithmetic right shift of an `i32` is all
ones exactly when the value is negative). -/
def zigzagEncode (v : Int) : Nat :=
  ((toUInt32 v <<< 1) % 2 ^ 32) ^^^ (if v < 0 then 0xFFFFFFFF else 0)

def SerState.writeZigzag (st : SerState) (v : Int) : SerState :=
  st.writeVarint (zigzagEncode v)

/-- `f64::to_le_bytes` on a binary64 bit pattern. -/
def natToLeBytes8 (bits : Nat) : List Nat :=
  [bits % 256, bits / 256 % 256, bits / 256 ^ 2 % 256, bits / 256 ^ 3 % 256,
   bits / 256 ^ 4 % 256, bits / 256 ^ 5 % 256, bits / 256 ^ 6 % 256,
   bits / 256 ^ 7 % 256]

/-- `ValueSerializer::write_double`. -/
def SerState.writeDouble (st : SerState) (bits : Nat) : SerState :=
  { st with data := st.data ++ natToLeBytes8 bits }

/-- `ValueSerializer::write_smi`. -/
def SerState.writeSmi (st : SerState) (v : Int) : SerState :=
  (st.writeTag tagInt32).writeZigzag v

/-- `ValueSerializer::write_u32`. -/
def SerState.writeU32 (st : SerState) (v : Nat) : SerState :=
  (st.writeTag tagUint32).writeVarint v

/-- `ValueSerializer::write_number`. -/
def SerState.writeNumber (st : SerState) (bits : Nat) : SerState :=
  (st.writeTag tagDouble).writeDouble bits

/-- Little-endian minimal byte representation of a positive natural; the
fuel argument only needs to be at least the byte count, and `n` itself
always is. -/
def natToLeBytesAux : Nat → Nat → List Nat
  | 0, _ => []
  | fuel + 1, n => if n = 0 then [] else n % 256 :: natToLeBytesAux fuel (n / 256)

/-- Modelled from the spec: `BigInt::to_bytes_le` of the `num_bigint`
dependency (not part of this repository).  It returns the sign and the
minimal little-endian magnitude bytes; zero yields no sign and the single
byte `0`. -/
def intToLeBytes (z : Int) : Bool × List Nat :=
  if z = 0 then (false, [0])
  else (decide (z < 0), natToLeBytesAux z.natAbs z.natAbs)

/-- `ValueSerializer::write_bigint_contents`: sign bit and byte length
packed in a varint bitfield, then the magnitude bytes.  The length must
fit in a `u32` and be at most `0x7fff_ffff`. -/
def SerState.writeBigintContents (st : SerState) (z : Int) :
    Except SerializationError SerState :=
  let p := intToLeBytes z
  let bitfield : Nat := if p.1 then 1 else 0
  if p.2.length < 2 ^ 32 then
    if 0x7FFFFFFF < p.2.length then .error .bigIntTooLarge
    else
      let bitfield := bitfield ||| (p.2.length <<< 1)
      let st := st.writeVarint bitfield
      .ok { st with data := st.data ++ p.2 }
  else .error .bigIntTooLarge

/-- `ValueSerializer::write_bigint`. -/
def SerState.writeBigint (st : SerState) (z : Int) :
    Except SerializationError SerState :=
  (st.writeTag tagBigInt).writeBigintContents z

/-- `ValueSerializer::write_date` needs the binary64 bit pattern of the
semantic `F64` a `Date` carries in this model (the Rust struct stores the
raw `f64` itself).  This is the encoding inverse of `decodeF64`; NaN
encodes as the canonical quiet NaN, so Rust NaN payload bits are not
preserved (no theorem depends on a date's payload bits). -/
def encodeF64 : F64 → Nat
  | .nan => 0x7FF8000000000000
  | .inf false => 0x7FF0000000000000
  | .inf true => 0xFFF0000000000000
  | .finite q nz =>
      if q = 0 then (if nz then 2 ^ 63 else 0)
      else
        let s : Nat := if q < 0 then 2 ^ 63 else 0
        let a : ℚ := |q|
        let t0 : Int := (Nat.log2 q.num.natAbs : Int) - (Nat.log2 q.den : Int)
        let t : Int := if (2 : ℚ) ^ t0 ≤ a then t0 else t0 - 1
        if -1022 ≤ t then
          let m : Int := ⌊a * 2 ^ (52 - t)⌋
          s + ((t + 1023).toNat % 2 ^ 11) * 2 ^ 52 + (m.toNat - 2 ^ 52)
        else
          s + ⌊a * 2 ^ (1074 : Int)⌋.toNat % 2 ^ 52

/-- `ValueSerializer::write_array_buffer`: resizable buffers carry their
`max_byte_length`; `byte_length()` is the data length cast to `u32`. -/
def SerState.writeArrayBuffer (st : SerState) (data : List Nat)
    (maxByteLength : Option Nat) : SerState :=
  match maxByteLength with
  | some maxByteLength =>
      let st := (st.writeTag tagResizableArrayBuffer).writeVarint (data.length % 2 ^ 32)
      let st := st.writeVarint maxByteLength
      { st with data := st.data ++ data }
  | none =>
      let st := (st.writeTag tagArrayBuffer).writeVarint (data.length % 2 ^ 32)
      { st with data := st.data ++ data }

/-- The `ArrayBufferViewTag` byte for an `ArrayBufferViewKind`. -/
def ViewKind.viewTag : ViewKind → Nat
  | .int8Array => viewTagInt8Array
  | .uint8Array => viewTagUint8Array
  | .uint8ClampedArray => viewTagUint8ClampedArray
  | .int16Array => viewTagInt16Array
  | .uint16Array => viewTagUint16Array
  | .int32Array => viewTagInt32Array
  | .uint32Array => viewTagUint32Array
  | .float32Array => viewTagFloat32Array
  | .float64Array => viewTagFloat64Array
  | .bigInt64Array => viewTagBigInt64Array
  | .bigUint64Array => viewTagBigUint64Array
  | .dataView => viewTagDataView

/-- `ValueSerializer::write_array_buffer_view`: subtag, byte offset, byte
length (`length * byte_width`, a wrapping `u32` product) and the
length-tracking / backed-by-rab flag bits. -/
def SerState.writeArrayBufferView (st : SerState) (kind : ViewKind)
    (byteOffset length : Nat) (isLengthTracking isBackedByRab : Bool) : SerState :=
  let st := st.writeTag tagArrayBufferView
  let st := st.writeVarint kind.viewTag
  let st := st.writeVarint byteOffset
  let st := st.writeVarint (length * kind.byteWidth % 2 ^ 32)
  let flags : Nat := (if isLengthTracking then 1 else 0) ||| (if isBackedByRab then 2 else 0)
  st.writeVarint flags

/-- The `ErrorTag` prototype byte for an `ErrorName` (`Error` itself has
none). -/
def ErrorName.protoTag : ErrorName → Option Nat
  | .error => none
  | .evalError => some errorTagEvalErrorPrototype
  | .rangeError => some errorTagRangeErrorPrototype
  | .referenceError => some errorTagReferenceErrorPrototype
  | .syntaxError => some errorTagSyntaxErrorPrototype
  | .typeError => some errorTagTypeErrorPrototype
  | .uriError => some errorTagUriErrorPrototype

/-- Modelled from the spec: `HeapReference::try_open(&self, heap)` is
called by `write_heap_reference` (`src/ser.rs`) but its definition is not
among the provided sources.  Per spec §4.4 / §5, a reference into another
arena or to a slot the heap does not have is dangling and yields `None`,
which the serializer reports as `DanglingHeapReference`. -/
def HeapReference.tryOpenIn (r : HeapReference) (heap : Heap) : Option HeapValue :=
  if r.heapId = heap.heapId then heap.values.get? r.index else none

/-- Failures of the embedded serializer: a real `SerializationError` or
the fuel artifact of the model. -/
inductive SerFail where
  | err (e : SerializationError)
  | outOfFuel
deriving DecidableEq

/-- Lift a helper result into the fuelled serializer's error type. -/
def liftSer {α : Type} : Except SerializationError α → Except SerFail α
  | .ok a => .ok a
  | .error e => .error (.err e)

/-- Look a reference up in the id map (`HashMap::entry` /
`contains_key`). -/
def SerState.idLookup (st : SerState) (r : HeapReference) : Option Nat :=
  (st.idMap.find? (fun p => decide (p.1 = r))).map (·.2)

/-- `RECURSION_DEPTH_LIMIT` from `src/ser.rs`. -/
def SER_RECURSION_DEPTH_LIMIT : Nat := 256

mutual

/-- `ValueSerializer::write_value` (`src/ser.rs`). -/
def writeValue : Nat → Heap → Value → SerState → Except SerFail SerState
  | 0, _, _, _ => .error .outOfFuel
  | fuel + 1, heap, value, st =>
      match value with
      | .undefined => .ok (st.writeTag tagUndefined)
      | .null => .ok (st.writeTag tagNull)
      | .bool true => .ok (st.writeTag tagTrue)
      | .bool false => .ok (st.writeTag tagFalse)
      | .i32 smi => .ok (st.writeSmi smi)
      | .u32 int => .ok (st.writeU32 int)
      | .double double => .ok (st.writeNumber double)
      | .bigint bigint => liftSer (st.writeBigint bigint)
      | .string str => liftSer (st.writeString str)
      | .heapReference reference => do
          let st := { st with recursionDepth := st.recursionDepth + 1 }
          let st ← writeHeapReference fuel heap reference st
          .ok { st with recursionDepth := st.recursionDepth - 1 }

/-- `ValueSerializer::write_heap_reference` (`src/ser.rs`): dangling
references fail; a first-encountered `ArrayBufferView` first emits its
backing buffer. -/
def writeHeapReference : Nat → Heap → HeapReference → SerState → Except SerFail SerState
  | 0, _, _, _ => .error .outOfFuel
  | fuel + 1, heap, reference, st =>
      match reference.tryOpenIn heap with
      | none => .error (.err .danglingHeapReference)
      | some value =>
          match value, st.idLookup reference with
          | .arrayBufferView kind buffer byteOffset length lt rab, none => do
              let st := { st with recursionDepth := st.recursionDepth + 1 }
              let st ← writeHeapReference fuel heap buffer st
              let st := { st with recursionDepth := st.recursionDepth - 1 }
              writeHeapValueInner fuel heap reference
                (.arrayBufferView kind buffer byteOffset length lt rab) st
          | _, _ => writeHeapValueInner fuel heap reference value st

/-- `ValueSerializer::write_heap_value_inner` (`src/ser.rs`): an already
assigned id becomes an `ObjectReference`; otherwise the next sequential id
is recorded, the depth cap checked, and the payload emitted. -/
def writeHeapValueInner : Nat → Heap → HeapReference → HeapValue → SerState →
    Except SerFail SerState
  | 0, _, _, _, _ => .error .outOfFuel
  | fuel + 1, heap, reference, value, st =>
      match st.idLookup reference with
      | some id => .ok ((st.writeTag tagObjectReference).writeVarint id)
      | none =>
          let st := { st with idMap := st.idMap ++ [(reference, st.idMap.length)] }
          if SER_RECURSION_DEPTH_LIMIT < st.recursionDepth then
            .error (.err .recursionDepthLimitExceeded)
          else
            match value with
            | .booleanObject true => .ok (st.writeTag tagTrueObject)
            | .booleanObject false => .ok (st.writeTag tagFalseObject)
            | .numberObject double => .ok ((st.writeTag tagNumberObject).writeDouble double)
            | .bigIntObject bigint =>
                liftSer ((st.writeTag tagBigIntObject).writeBigintContents bigint)
            | .stringObject str => liftSer ((st.writeTag tagStringObject).writeString str)
            | .regExp pattern flags => do
                let st ← liftSer ((st.writeTag tagRegExp).writeString pattern)
                .ok (st.writeVarint flags)
            | .date time => .ok ((st.writeTag tagDate).writeDouble (encodeF64 time))
            | .object properties => do
                let st := st.writeTag tagBeginJsObject
                writeObjectProperties fuel heap properties tagEndJsObject st
            | .sparseArray length properties => do
                let st := (st.writeTag tagBeginSparseJsArray).writeVarint length
                let st ← writeObjectProperties fuel heap properties tagEndSparseJsArray st
                .ok (st.writeVarint length)
            | .denseArray elements properties =>
                if elements.length < 2 ^ 32 then do
                  let st := (st.writeTag tagBeginDenseJsArray).writeVarint elements.length
                  let st ← writeDenseElements fuel heap elements st
                  let st ← writeObjectProperties fuel heap properties tagEndDenseJsArray st
                  .ok (st.writeVarint elements.length)
                else .error (.err .arrayTooLong)
            | .map entries =>
                if entries.length < 2 ^ 32 then
                  if 2 * entries.length < 2 ^ 32 then do
                    let st := st.writeTag tagBeginJsMap
                    let st ← writeMapEntries fuel heap entries st
                    .ok ((st.writeTag tagEndJsMap).writeVarint (2 * entries.length))
                  else .error (.err .mapTooLarge)
                else .error (.err .mapTooLarge)
            | .set values =>
                if values.length < 2 ^ 32 then do
                  let st := st.writeTag tagBeginJsSet
                  let st ← writeSetValues fuel heap values st
                  .ok ((st.writeTag tagEndJsSet).writeVarint values.length)
                else .error (.err .setTooLarge)
            | .arrayBuffer data maxByteLength => .ok (st.writeArrayBuffer data maxByteLength)
            | .arrayBufferView kind _buffer byteOffset length lt rab =>
                .ok (st.writeArrayBufferView kind byteOffset length lt rab)
            | .error name message stack cause => do
                let st := st.writeTag tagError
                let st := match name.protoTag with
                  | some t => st.writeVarint t
                  | none => st
                let st ← match message with
                  | some m => liftSer ((st.writeVarint errorTagMessage).writeString m)
                  | none => .ok st
                let st ← match cause with
                  | some c => writeValue fuel heap c (st.writeVarint errorTagCause)
                  | none => .ok st
                let st ← match stack with
                  | some s2 => liftSer ((st.writeVarint errorTagStack).writeString s2)
                  | none => .ok st
                .ok (st.writeVarint errorTagEnd)

/-- The key/value loop of `write_object_properties`. -/
def writePropsLoop : Nat → Heap → List (PropertyKey × Value) → SerState →
    Except SerFail SerState
  | 0, _, _, _ => .error .outOfFuel
  | _ + 1, _, [], st => .ok st
  | fuel + 1, heap, (key, value) :: rest, st => do
      let st ← match key with
        | .i32 smi => (.ok (st.writeSmi smi) : Except SerFail SerState)
        | .u32 num => .ok (st.writeU32 num)
        | .double double => .ok (st.writeNumber double)
        | .string str => liftSer (st.writeString str)
      let st ← writeValue fuel heap value st
      writePropsLoop fuel heap rest st

/-- `ValueSerializer::write_object_properties`: the count must fit in a
`u32`; keys and values, then the end tag and the count. -/
def writeObjectProperties : Nat → Heap → List (PropertyKey × Value) → Nat → SerState →
    Except SerFail SerState
  | 0, _, _, _, _ => .error .outOfFuel
  | fuel + 1, heap, properties, endTag, st =>
      if properties.length < 2 ^ 32 then do
        let st ← writePropsLoop fuel heap properties st
        .ok ((st.writeTag endTag).writeVarint properties.length)
      else .error (.err .tooManyObjectProperties)

/-- The element loop of `write_dense_array`: holes are `TheHole` tags. -/
def writeDenseElements : Nat → Heap → List (Option Value) → SerState →
    Except SerFail SerState
  | 0, _, _, _ => .error .outOfFuel
  | _ + 1, _, [], st => .ok st
  | fuel + 1, heap, element :: rest, st => do
      let st ← match element with
        | some value => writeValue fuel heap value st
        | none => (.ok (st.writeTag tagTheHole) : Except SerFail SerState)
      writeDenseElements fuel heap rest st

/-- The entry loop of `write_map`. -/
def writeMapEntries : Nat → Heap → List (Value × Value) → SerState →
    Except SerFail SerState
  | 0, _, _, _ => .error .outOfFuel
  | _ + 1, _, [], st => .ok st
  | fuel + 1, heap, (key, value) :: rest, st => do
      let st ← writeValue fuel heap key st
      let st ← writeValue fuel heap value st
      writeMapEntries fuel heap rest st

/-- The value loop of `write_set`. -/
def writeSetValues : Nat → Heap → List Value → SerState → Except SerFail SerState
  | 0, _, _, _ => .error .outOfFuel
  | _ + 1, _, [], st => .ok st
  | fuel + 1, heap, value :: rest, st => do
      let st ← writeValue fuel heap value st
      writeSetValues fuel heap rest st

end

/-- A coarse size bound used as fuel for the serializer: every mutual call
either consumes a list element counted here or descends past a node, and
revisits stop at one `ObjectReference`; the Rust recursion needs no fuel
at all, and any sufficiently large fuel yields its result. -/
def heapValueWeight : HeapValue → Nat
  | .object props => 2 + props.length
  | .sparseArray _ props => 3 + props.length
  | .denseArray elements props => 3 + elements.length + props.length
  | .map entries => 2 + 2 * entries.length
  | .set values => 2 + values.length
  | .error _ _ _ _ => 8
  | _ => 2

/-- Fuel that covers any run of the serializer on the given heap. -/
def serFuel (heap : Heap) : Nat :=
  4096 + 16 * ((heap.values.map heapValueWeight).foldr (· + ·) 0 + heap.values.length)

/-- `ValueSerializer::finish` (`src/ser.rs`): header, then the value. -/
def ValueSerializer.finish (heap : Heap) (value : Value) :
    Except SerFail (List Nat) :=
  let st : SerState := ⟨[], [], 0⟩
  let st := (st.writeTag tagVersion).writeVarint 15
  match writeValue (serFuel heap) heap value st with
  | .error e => .error e
  | .ok st => .ok st.data

/-- The well-formedness side conditions of the round-trip claim,
specialised to heap-free values: the Rust type invariants (an `i32` is a
signed 32-bit integer, a `u32` fits 32 bits, an `f64` pattern fits 64
bits, string payload cells are `u8` / `u16`), the serializer size limits
on string and BigInt lengths, and the deserializer's 30-bit BigInt byte
length field.  A `HeapReference` is not heap-free. -/
def PrimitiveWF : Value → Prop
  | .undefined => True
  | .null => True
  | .bool _ => True
  | .i32 n => -2 ^ 31 ≤ n ∧ n < 2 ^ 31
  | .u32 n => n < 2 ^ 32
  | .double bits => bits < 2 ^ 64
  | .bigint z => (intToLeBytes z).2.length < 2 ^ 30
  | .string (.wtf8 bs) => bs.length < 2 ^ 32 ∧ ∀ b ∈ bs, b < 256
  | .string (.oneByte bs) => bs.length < 2 ^ 32 ∧ ∀ b ∈ bs, b < 256
  | .string (.twoByte us) => 2 * us.length < 2 ^ 32 ∧ ∀ u ∈ us, u < 2 ^ 16
  | .heapReference _ => False

/-! ## `value_eq` (`src/value.rs`)

The structural co-traversal with its two shared visited sets.  The Rust
recursion is bounded by the visited sets; the embedding makes that bound an
explicit fuel (`none` = fuel ran out or a panic was reached), and any fuel
large enough for the two heaps yields the Rust result.

String equality (`impl PartialEq for StringValue`) compares the common
UTF-16 projection of the three encodings; property-key equality
(`impl PartialEq for PropertyKey`) compares decimal/string projections. -/

/-- Decode WTF-8 bytes into code points.  WTF-8 is UTF-8 plus surrogate
code points (`0xD800..0xDFFF` are allowed through the 3-byte form).  The
Rust code transmutes unvalidated bytes into `wtf8::Wtf8`, so byte
sequences that are not well-formed WTF-8 hit undefined behaviour upstream;
the model maps each offending byte to U+FFFD (no theorem below depends on
that corner). -/
def wtf8Decode : List Nat → List Nat
  | [] => []
  | b0 :: rest =>
      if b0 < 0x80 then b0 :: wtf8Decode rest
      else if 0xC2 ≤ b0 && b0 ≤ 0xDF then
        match rest with
        | b1 :: rest' =>
            if 0x80 ≤ b1 && b1 ≤ 0xBF then
              ((b0 - 0xC0) * 0x40 + (b1 - 0x80)) :: wtf8Decode rest'
            else 0xFFFD :: wtf8Decode (b1 :: rest')
        | [] => [0xFFFD]
      else if 0xE0 ≤ b0 && b0 ≤ 0xEF then
        match rest with
        | b1 :: b2 :: rest' =>
            if (if b0 = 0xE0 then 0xA0 ≤ b1 && b1 ≤ 0xBF else 0x80 ≤ b1 && b1 ≤ 0xBF) &&
                (0x80 ≤ b2 && b2 ≤ 0xBF) then
              ((b0 - 0xE0) * 0x1000 + (b1 - 0x80) * 0x40 + (b2 - 0x80)) :: wtf8Decode rest'
            else 0xFFFD :: wtf8Decode (b1 :: b2 :: rest')
        | _ => [0xFFFD]
      else if 0xF0 ≤ b0 && b0 ≤ 0xF4 then
        match rest with
        | b1 :: b2 :: b3 :: rest' =>
            if (if b0 = 0xF0 then 0x90 ≤ b1 && b1 ≤ 0xBF
                else if b0 = 0xF4 then 0x80 ≤ b1 && b1 ≤ 0x8F
                else 0x80 ≤ b1 && b1 ≤ 0xBF) &&
                (0x80 ≤ b2 && b2 ≤ 0xBF) && (0x80 ≤ b3 && b3 ≤ 0xBF) then
              ((b0 - 0xF0) * 0x40000 + (b1 - 0x80) * 0x1000 + (b2 - 0x80) * 0x40 + (b3 - 0x80)) ::
                wtf8Decode rest'
            else 0xFFFD :: wtf8Decode (b1 :: b2 :: b3 :: rest')
        | _ => [0xFFFD]
      else 0xFFFD :: wtf8Decode rest

/-- `wtf8::Wtf8::to_ill_formed_utf16` applied to decoded code points:
code points above `0xFFFF` become surrogate pairs, everything else (lone
surrogates included) becomes a single code unit. -/
def toIllFormedUtf16 : List Nat → List Nat
  | [] => []
  | cp :: rest =>
      if 0x10000 ≤ cp then
        (0xD800 + (cp - 0x10000) / 0x400) :: (0xDC00 + (cp - 0x10000) % 0x400) ::
          toIllFormedUtf16 rest
      else
        cp :: toIllFormedUtf16 rest

/-- The common UTF-16 projection used by `impl PartialEq for StringValue`:
WTF-8 strings are decoded to ill-formed UTF-16, Latin-1 bytes are single
code units, TwoByte strings are their code units. -/
def stringUtf16 : StringValue → List Nat
  | .wtf8 bytes => toIllFormedUtf16 (wtf8Decode bytes)
  | .oneByte bytes => bytes
  | .twoByte units => units

/-- `impl PartialEq for StringValue`. -/
def stringRustEq (a b : StringValue) : Bool := stringUtf16 a = stringUtf16 b

/-- Lossy conversion of a code-point sequence into Unicode scalar values:
surrogates become U+FFFD (models the `String`-producing, lossy `to_string`
boundary used by property keys; the exact U+FFFD granularity of invalid
byte sequences follows the std lossy converters, which no theorem below
depends on). -/
def scalarsOfCodePoints : List Nat → List Nat
  | [] => []
  | cp :: rest =>
      if 0xD800 ≤ cp && cp ≤ 0xDFFF then 0xFFFD :: scalarsOfCodePoints rest
      else cp :: scalarsOfCodePoints rest

/-- Lossy decoding of UTF-16 code units into scalar values
(`String::from_utf16_lossy`): well-formed pairs combine, lone surrogates
become U+FFFD. -/
def utf16LossyDecode : List Nat → List Nat
  | [] => []
  | u :: rest =>
      if 0xD800 ≤ u && u ≤ 0xDBFF then
        match rest with
        | u2 :: rest' =>
            if 0xDC00 ≤ u2 && u2 ≤ 0xDFFF then
              (0x10000 + (u - 0xD800) * 0x400 + (u2 - 0xDC00)) :: utf16LossyDecode rest'
            else 0xFFFD :: utf16LossyDecode (u2 :: rest')
        | [] => [0xFFFD]
      else if 0xDC00 ≤ u && u ≤ 0xDFFF then 0xFFFD :: utf16LossyDecode rest
      else u :: utf16LossyDecode rest

/-- `StringValue::to_string` as a scalar-value sequence: the lossy
`String` view of each encoding. -/
def stringLossyScalars : StringValue → List Nat
  | .wtf8 bytes => scalarsOfCodePoints (wtf8Decode bytes)
  | .oneByte bytes => bytes
  | .twoByte units => utf16LossyDecode units

/-- Decimal digits of a `Nat` (ASCII codes), as produced by Rust's
integer `Display`. -/
def natDecimal (n : Nat) : List Nat := (Nat.toDigits 10 n).map Char.toNat

/-- Decimal rendering of an `Int` (ASCII codes). -/
def intDecimal (z : Int) : List Nat :=
  if z < 0 then 0x2D :: natDecimal z.natAbs else natDecimal z.natAbs

/-- Rust's `Display` for `f64`, as a scalar-value sequence, modelled
exactly on the values a `PropertyKey::Double` can take in the claims'
scope: NaN, infinities, zeros and integers up to `2^53` (where the
shortest round-trip representation is the integer itself).  Other finite
doubles display via the shortest-round-trip algorithm of the Rust
standard library, which is outside the scope of this embedding; they map
to a distinguished non-numeric placeholder. -/
def f64RustDisplay (bits : Nat) : List Nat :=
  if f64BitsIsNan bits then [0x4E, 0x61, 0x4E]
  else if f64Exponent bits = 0x7FF then
    if f64SignBit bits then [0x2D, 0x69, 0x6E, 0x66] else [0x69, 0x6E, 0x66]
  else if f64BitsIsZero bits then
    if f64SignBit bits then [0x2D, 0x30] else [0x30]
  else
    match decodeF64 bits with
    | .finite q _ =>
        if q.den = 1 && q.num.natAbs ≤ 2 ^ 53 then intDecimal q.num
        else 0xFFFF0000 :: bits :: []
    | _ => []

/-- The decimal/string projection of `impl PartialEq for PropertyKey`. -/
def propertyKeyProjection : PropertyKey → List Nat
  | .i32 n => intDecimal n
  | .u32 n => natDecimal n
  | .double bits => f64RustDisplay bits
  | .string s => stringLossyScalars s

/-- `impl PartialEq for PropertyKey`: keys are equal iff their
decimal/string projections coincide (so `1` and the string `1` collide). -/
def propertyKeyEq (a b : PropertyKey) : Bool :=
  propertyKeyProjection a = propertyKeyProjection b

/-- `Option<StringValue>` equality (message/stack fields of `Error`). -/
def optStringEq : Option StringValue → Option StringValue → Bool
  | none, none => true
  | some a, some b => stringRustEq a b
  | _, _ => false

/-- The two visited sets of `value_eq` (`Rc<RefCell<HashSet>>` per side,
shared across the whole traversal of that side). -/
structure EqSt where
  lvisited : List HeapReference
  rvisited : List HeapReference
deriving DecidableEq

mutual

/-- `HeapEq for Value` (`src/value.rs`), with the two heaps and the shared
visited sets threaded through. -/
def valueEqV : Nat → Heap → Heap → Value → Value → EqSt → Option (Bool × EqSt)
  | 0, _, _, _, _, _ => none
  | fuel + 1, lh, rh, a, b, st =>
      match a, b with
      | .undefined, .undefined => some (true, st)
      | .null, .null => some (true, st)
      | .bool x, .bool y => some (decide (x = y), st)
      | .i32 x, .i32 y => some (decide (x = y), st)
      | .u32 x, .u32 y => some (decide (x = y), st)
      | .double x, .double y =>
          if f64BitsIsNan x && f64BitsIsNan y then some (true, st)
          else some (f64BitsEq x y, st)
      | .bigint x, .bigint y => some (decide (x = y), st)
      | .string x, .string y => some (stringRustEq x y, st)
      | .heapReference x, .heapReference y => heapRefEq fuel lh rh x y st
      | _, _ => some (false, st)

/-- `HeapEq for HeapReference` (`src/value.rs`): indices must match, then
each side is inserted into its visited set; a fresh pair recurses into the
heap values, a revisited pair is assumed equal (bisimulation).  `open`
panics (`none`) on a dangling or cross-heap reference. -/
def heapRefEq : Nat → Heap → Heap → HeapReference → HeapReference → EqSt →
    Option (Bool × EqSt)
  | 0, _, _, _, _, _ => none
  | fuel + 1, lh, rh, l, r, st =>
      if l.index ≠ r.index then some (false, st)
      else
        let lInserted := !(st.lvisited.contains l)
        let st := { st with lvisited := if lInserted then l :: st.lvisited else st.lvisited }
        let rInserted := !(st.rvisited.contains r)
        let st := { st with rvisited := if rInserted then r :: st.rvisited else st.rvisited }
        if lInserted ≠ rInserted then some (false, st)
        else if lInserted then
          match l.open lh, r.open rh with
          | some lv, some rv => heapValueEq fuel lh rh lv rv st
          | _, _ => none
        else some (true, st)

/-- `HeapEq for HeapValue` (`src/value.rs`). -/
def heapValueEq : Nat → Heap → Heap → HeapValue → HeapValue → EqSt →
    Option (Bool × EqSt)
  | 0, _, _, _, _, _ => none
  | fuel + 1, lh, rh, a, b, st =>
      match a, b with
      | .booleanObject x, .booleanObject y => some (decide (x = y), st)
      | .numberObject x, .numberObject y =>
          if f64BitsIsNan x && f64BitsIsNan y then some (true, st)
          else some (f64BitsEq x y, st)
      | .bigIntObject x, .bigIntObject y => some (decide (x = y), st)
      | .stringObject x, .stringObject y => some (stringRustEq x y, st)
      | .regExp px fx, .regExp py fy =>
          some (stringRustEq px py && decide (fx = fy), st)
      | .date x, .date y => some (dateEq x y, st)
      | .object px, .object py => propertiesEq fuel lh rh px py st
      | .sparseArray lx px, .sparseArray ly py =>
          if lx ≠ ly then some (false, st)
          else propertiesEq fuel lh rh px py st
      | .denseArray ex px, .denseArray ey py =>
          (match denseElementsEq fuel lh rh ex ey st with
           | none => none
           | some (false, st) => some (false, st)
           | some (true, st) => propertiesEq fuel lh rh px py st)
      | .map ex, .map ey => mapEntriesEq fuel lh rh ex ey st
      | .set vx, .set vy => setValuesEq fuel lh rh vx vy st
      | .arrayBuffer dx mx, .arrayBuffer dy my =>
          some (decide (dx = dy) && decide (mx = my), st)
      | .arrayBufferView kx bx ox lx ltx rabx, .arrayBufferView ky bY oy ly lty raby =>
          if kx ≠ ky then some (false, st)
          else
            (match heapRefEq fuel lh rh bx bY st with
             | none => none
             | some (false, st) => some (false, st)
             | some (true, st) =>
                 some (decide (ox = oy) && decide (lx = ly) &&
                       decide (ltx = lty) && decide (rabx = raby), st))
      | .error nx mx sx cx, .error ny my sy cy =>
          if nx ≠ ny then some (false, st)
          else if !(optStringEq mx my) then some (false, st)
          else if !(optStringEq sx sy) then some (false, st)
          else
            (match cx, cy with
             | none, none => some (true, st)
             | some cvx, some cvy => valueEqV fuel lh rh cvx cvy st
             | _, _ => some (false, st))
      | _, _ => some (false, st)

/-- `HeapEq for Vec<(PropertyKey, Value)>`: length, then lock-step key and
value comparison. -/
def propertiesEq : Nat → Heap → Heap → List (PropertyKey × Value) →
    List (PropertyKey × Value) → EqSt → Option (Bool × EqSt)
  | 0, _, _, _, _, _ => none
  | _ + 1, _, _, [], [], st => some (true, st)
  | fuel + 1, lh, rh, (kx, vx) :: restx, (ky, vy) :: resty, st =>
      if !(propertyKeyEq kx ky) then some (false, st)
      else
        (match valueEqV fuel lh rh vx vy st with
         | none => none
         | some (false, st) => some (false, st)
         | some (true, st) => propertiesEq fuel lh rh restx resty st)
  | _ + 1, _, _, _, _, st => some (false, st)

/-- The elements comparison of `HeapEq for DenseArray`. -/
def denseElementsEq : Nat → Heap → Heap → List (Option Value) →
    List (Option Value) → EqSt → Option (Bool × EqSt)
  | 0, _, _, _, _, _ => none
  | _ + 1, _, _, [], [], st => some (true, st)
  | fuel + 1, lh, rh, some vx :: restx, some vy :: resty, st =>
      (match valueEqV fuel lh rh vx vy st with
       | none => none
       | some (false, st) => some (false, st)
       | some (true, st) => denseElementsEq fuel lh rh restx resty st)
  | fuel + 1, lh, rh, none :: restx, none :: resty, st =>
      denseElementsEq fuel lh rh restx resty st
  | _ + 1, _, _, _, _, st => some (false, st)

/-- `HeapEq for Map`: length, then lock-step key and value comparison. -/
def mapEntriesEq : Nat → Heap → Heap → List (Value × Value) →
    List (Value × Value) → EqSt → Option (Bool × EqSt)
  | 0, _, _, _, _, _ => none
  | _ + 1, _, _, [], [], st => some (true, st)
  | fuel + 1, lh, rh, (kx, vx) :: restx, (ky, vy) :: resty, st =>
      (match valueEqV fuel lh rh kx ky st with
       | none => none
       | some (false, st) => some (false, st)
       | some (true, st) =>
           match valueEqV fuel lh rh vx vy st with
           | none => none
           | some (false, st) => some (false, st)
           | some (true, st) => mapEntriesEq fuel lh rh restx resty st)
  | _ + 1, _, _, _, _, st => some (false, st)

/-- `HeapEq for Set`: length, then lock-step comparison. -/
def setValuesEq : Nat → Heap → Heap → List Value → List Value → EqSt →
    Option (Bool × EqSt)
  | 0, _, _, _, _, _ => none
  | _ + 1, _, _, [], [], st => some (true, st)
  | fuel + 1, lh, rh, vx :: restx, vy :: resty, st =>
      (match valueEqV fuel lh rh vx vy st with
       | none => none
       | some (false, st) => some (false, st)
       | some (true, st) => setValuesEq fuel lh rh restx resty st)
  | _ + 1, _, _, _, _, st => some (false, st)

end

/-- `value_eq` (`src/value.rs`): the public entry point, starting from two
empty visited sets.  The Rust function needs no fuel — its recursion is
bounded by the visited sets; `none` is returned only when the given fuel
is too small (or a panic is reached), and any sufficiently large fuel
yields the Rust result. -/
def value_eq (fuel : Nat) (left : Value × Heap) (right : Value × Heap) : Option Bool :=
  (valueEqV fuel left.2 right.2 left.1 right.1 ⟨[], []⟩).map (·.1)

/-! ## The printer's dependency analysis and decision functions
(`src/display.rs`)

Pass 1 (`Displayer::display`'s inner `visit` and the `visit_and_record!`
macro) over arbitrary heaps, plus the decision helpers the claims talk
about: `HeapObjectInfo::inlineable`, `is_ready_to_render`,
`array_buffer_view_to_render_array_buffer_in`, the guard of the inline
branch in the `HeapValue::Map` arm of `display_heap_value`, and the
`ViewKind`-selection loop of the `HeapValue::ArrayBuffer` arm.  `none`
models a Rust panic (failed `unwrap`/`assert!`/indexing); the explicit
fuel of `visit` models its heap-bounded recursion. -/

/-- `HeapObjectInfo` from `src/display.rs`.  The Rust `HashSet` fields are
kept as duplicate-free lists; the code only ever inserts into them and
tests membership, so their iteration order is irrelevant. -/
structure HeapObjectInfo where
  dependencies : List HeapReference
  dependants : List HeapReference
  dependantsCount : Nat
  requiresBinding : Bool
deriving DecidableEq

/-- `HeapObjectInfo::default()`. -/
def HeapObjectInfo.init : HeapObjectInfo := ⟨[], [], 0, false⟩

/-- `HeapObjectInfo::inlineable`. -/
def HeapObjectInfo.inlineable (info : HeapObjectInfo) : Bool :=
  info.dependantsCount < 2 && !info.requiresBinding

/-- `DependencyInfo` from `src/display.rs`: the `HashMap` of per-object
info (kept as an association list keyed by reference), the first-seen
post-order, and the DFS stack. -/
structure DependencyInfo where
  objects : List (HeapReference × HeapObjectInfo)
  order : List HeapReference
  stack : List HeapReference
deriving DecidableEq

/-- Lookup in the `objects` map. -/
def objectsGet (objects : List (HeapReference × HeapObjectInfo))
    (r : HeapReference) : Option HeapObjectInfo :=
  (objects.find? (fun entry => entry.1 = r)).map (·.2)

/-- In-place update of an existing `objects` entry; `none` models the
panicking `unwrap` of `objects.get_mut(..)` when the key is absent. -/
def objectsModify (objects : List (HeapReference × HeapObjectInfo))
    (r : HeapReference) (f : HeapObjectInfo → HeapObjectInfo) :
    Option (List (HeapReference × HeapObjectInfo)) :=
  match objects with
  | [] => none
  | (k, info) :: rest =>
      if k = r then some ((k, f info) :: rest)
      else (objectsModify rest r f).map ((k, info) :: ·)

/-- `HashSet::insert` on the duplicate-free list model. -/
def refSetInsert (l : List HeapReference) (r : HeapReference) : List HeapReference :=
  if l.contains r then l else l ++ [r]

mutual

/-- The `visit` closure of `Displayer::display` (`src/display.rs`):
depth-first traversal recording, for every reachable heap reference, its
dependencies, dependants, dependant count, `requires_binding` flag and the
first-seen post-order.  A revisit that is still on the DFS stack is a
cycle: both the revisited reference and the current stack top are marked
as requiring a binding. -/
def visit : Nat → Heap → DependencyInfo → HeapReference → Option DependencyInfo
  | 0, _, _, _ => none
  | fuel + 1, heap, deps, referrer =>
      match objectsGet deps.objects referrer with
      | some _ =>
          if deps.stack.contains referrer then do
            let objects ← objectsModify deps.objects referrer
              (fun info => { info with requiresBinding := true })
            let deps := { deps with objects := objects }
            match deps.stack.getLast? with
            | some top => do
                let objects ← objectsModify deps.objects top
                  (fun info => { info with requiresBinding := true })
                some { deps with objects := objects }
            | none => some deps
          else
            some deps
      | none => do
          let deps := { deps with
            objects := deps.objects ++ [(referrer, HeapObjectInfo.init)],
            stack := deps.stack ++ [referrer] }
          let deps ←
            match referrer.open heap with
            | none => none
            | some heapValue =>
                match heapValue with
                | .booleanObject _ | .numberObject _ | .bigIntObject _
                | .stringObject _ | .regExp _ _ | .date _ => some deps
                | .object properties =>
                    visitValueList fuel heap deps referrer (properties.map (·.2))
                | .sparseArray _ properties => do
                    let deps ←
                      if !properties.isEmpty then do
                        let objects ← objectsModify deps.objects referrer
                          (fun info => { info with requiresBinding := true })
                        some { deps with objects := objects }
                      else
                        some deps
                    visitValueList fuel heap deps referrer (properties.map (·.2))
                | .denseArray elements properties => do
                    let deps ← visitValueList fuel heap deps referrer (elements.reduceOption)
                    let deps ←
                      if !properties.isEmpty then do
                        let objects ← objectsModify deps.objects referrer
                          (fun info => { info with requiresBinding := true })
                        some { deps with objects := objects }
                      else
                        some deps
                    visitValueList fuel heap deps referrer (properties.map (·.2))
                | .map entries =>
                    visitValueList fuel heap deps referrer
                      (entries.flatMap (fun kv => [kv.1, kv.2]))
                | .set values =>
                    visitValueList fuel heap deps referrer values
                | .arrayBuffer _ maxByteLength =>
                    if maxByteLength.isSome then do
                      let objects ← objectsModify deps.objects referrer
                        (fun info => { info with requiresBinding := true })
                      some { deps with objects := objects }
                    else
                      some deps
                | .arrayBufferView _ buffer _ _ _ _ =>
                    visitAndRecord fuel heap deps referrer buffer
                | .error _ _ _ cause => do
                    let deps ←
                      match cause with
                      | some (.heapReference referred) =>
                          visitAndRecord fuel heap deps referrer referred
                      | _ => some deps
                    let objects ← objectsModify deps.objects referrer
                      (fun info => { info with requiresBinding := true })
                    some { deps with objects := objects }
          some { deps with
            order := deps.order ++ [referrer],
            stack := deps.stack.dropLast }

/-- The `visit_and_record!` macro: record the dependency edge on the
referrer, visit the referred object, then record the dependant edge and
bump the dependant count on the referred object. -/
def visitAndRecord : Nat → Heap → DependencyInfo → HeapReference → HeapReference →
    Option DependencyInfo
  | 0, _, _, _, _ => none
  | fuel + 1, heap, deps, referrer, referred => do
      let objects ← objectsModify deps.objects referrer
        (fun info => { info with dependencies := refSetInsert info.dependencies referred })
      let deps ← visit fuel heap { deps with objects := objects } referred
      let objects ← objectsModify deps.objects referred
        (fun info => { info with
          dependants := refSetInsert info.dependants referrer,
          dependantsCount := info.dependantsCount + 1 })
      some { deps with objects := objects }

/-- Visit each heap reference appearing in a list of child values (the
per-kind `for` loops of `visit`). -/
def visitValueList : Nat → Heap → DependencyInfo → HeapReference → List Value →
    Option DependencyInfo
  | 0, _, _, _, _ => none
  | _ + 1, _, deps, _, [] => some deps
  | fuel + 1, heap, deps, referrer, value :: rest => do
      let deps ←
        match value with
        | .heapReference referred => visitAndRecord fuel heap deps referrer referred
        | _ => some deps
      visitValueList fuel heap deps referrer rest

end

/-- The pass-1 prologue of `Displayer::display`: run `visit` from the root
when it is a heap reference, then give the root an extra dependant (the
displayer itself). -/
def visitRoot (fuel : Nat) (heap : Heap) (value : Value) : Option DependencyInfo :=
  match value with
  | .heapReference reference => do
      let deps ← visit fuel heap ⟨[], [], []⟩ reference
      let objects ← objectsModify deps.objects reference
        (fun info => { info with dependantsCount := info.dependantsCount + 1 })
      some { deps with objects := objects }
  | _ => some ⟨[], [], []⟩

/-- `Displayer::array_buffer_view_to_render_array_buffer_in`
(`src/display.rs`): `None` for resizable buffers; otherwise scan `order`
for a dependant of the buffer that is an `ArrayBufferView` — asserting (!)
that such a view is neither backed by a resizable buffer nor
length-tracking — whose offset is 0 and whose byte span equals the whole
buffer.  The outer `none` models a panicking `unwrap`/`assert!`; `u32`
arithmetic wraps (release build). -/
def abvToRenderInLoop (heap : Heap) (objects : List (HeapReference × HeapObjectInfo))
    (info : HeapObjectInfo) (abByteLength : Nat) :
    List HeapReference → Option (Option (HeapReference × HeapObjectInfo × HeapValue))
  | [] => some none
  | r :: rest =>
      if info.dependants.contains r then
        match objectsGet objects r with
        | none => none
        | some rInfo =>
            match r.open heap with
            | none => none
            | some (.arrayBufferView kind buffer byteOffset length lt rab) =>
                if rab then none
                else if lt then none
                else if byteOffset = 0 && length * kind.byteWidth % 2 ^ 32 = abByteLength then
                  some (some (r, rInfo, .arrayBufferView kind buffer byteOffset length lt rab))
                else
                  abvToRenderInLoop heap objects info abByteLength rest
            | some _ => abvToRenderInLoop heap objects info abByteLength rest
      else
        abvToRenderInLoop heap objects info abByteLength rest

/-- `array_buffer_view_to_render_array_buffer_in`, entry point: the
buffer's data/max fields plus its dependency info. -/
def arrayBufferViewToRenderIn (heap : Heap)
    (objects : List (HeapReference × HeapObjectInfo)) (order : List HeapReference)
    (abData : List Nat) (abMax : Option Nat) (info : HeapObjectInfo) :
    Option (Option (HeapReference × HeapObjectInfo × HeapValue)) :=
  if abMax.isSome then some none
  else abvToRenderInLoop heap objects info (abData.length % 2 ^ 32) order

/-- `Displayer::is_ready_to_render` (`src/display.rs`).  `idents` is the
set of references already bound to a variable (only membership is
consulted). -/
def isReadyToRender (heap : Heap) (objects : List (HeapReference × HeapObjectInfo))
    (order : List HeapReference) (idents : List HeapReference) (value : Value) :
    Option Bool :=
  match value with
  | .heapReference reference =>
      match objectsGet objects reference with
      | none => none
      | some info =>
          if info.inlineable || idents.contains reference then some true
          else
            match reference.open heap with
            | none => none
            | some (.arrayBuffer data maxByteLength) =>
                (match arrayBufferViewToRenderIn heap objects order data maxByteLength info with
                 | none => none
                 | some (some (r, rInfo, _)) =>
                     some (rInfo.inlineable || idents.contains r)
                 | some none => some false)
            | some _ => some false
  | _ => some true

/-- The guard of the inline branch in the `HeapValue::Map` arm of
`display_heap_value` (`src/display.rs`):
`if self.is_ready_to_render(key) || self.is_ready_to_render(value)` —
an entry is rendered inline when EITHER side is ready, and deferred as a
`MapSet` follow-up task only when neither is. -/
def mapEntryRenderedInline (heap : Heap)
    (objects : List (HeapReference × HeapObjectInfo)) (order : List HeapReference)
    (idents : List HeapReference) (key value : Value) : Option Bool := do
  let keyReady ← isReadyToRender heap objects order idents key
  if keyReady then some true
  else isReadyToRender heap objects order idents value

/-- The `ViewKind`-selection loop of the `HeapValue::ArrayBuffer` arm of
`display_heap_value` (`src/display.rs`), transcribed with its variable
shadowing intact: the loop variable `reference` shadows the method's
`reference` parameter, so the test `view.buffer == *reference` compares a
view's buffer field against the view's own reference.  `kind` starts as
`Uint8Array` and the loop breaks at the first match. -/
def abRenderViewKindLoop (heap : Heap) : List HeapReference → Option ViewKind
  | [] => some .uint8Array
  | r :: rest =>
      match r.open heap with
      | none => none
      | some (.arrayBufferView kind buffer byteOffset _ _ _) =>
          if buffer = r && byteOffset % kind.byteWidth = 0 then some kind
          else abRenderViewKindLoop heap rest
      | some _ => abRenderViewKindLoop heap rest

/-- The kind chosen for rendering a standalone `ArrayBuffer` (and for
`ArrayBufferSet` follow-up tasks): the loop above over `self.order`. -/
def chooseKindCode (heap : Heap) (order : List HeapReference) : Option ViewKind :=
  abRenderViewKindLoop heap order

/-! ## Concrete wire documents and their parsed heaps, used as evidence
below -/

/-- A serialized map `m` with the single entry `(1, m)` — produced by
`const m = new Map(); m.set(1, m)` — as accepted by the deserializer:
version 15, `BeginJsMap`, key `Int32 1`, value `ObjectReference 0`,
`EndJsMap`, count 2. -/
def c7bytes : List Nat := [0xFF, 0x0F, 0x3B, 0x49, 0x02, 0x5E, 0x00, 0x3A, 0x02]

/-- The heap `c7bytes` parses to. -/
def c7heap : Heap := ⟨0, [.map [(.i32 1, .heapReference ⟨0, 0⟩)]]⟩

/-- A serialized empty non-resizable `ArrayBuffer` glued to an
`ArrayBufferView` whose flags word is `0b10` (`is_backed_by_rab`), which
the deserializer accepts without checking the flag against the buffer's
resizability. -/
def c9bytes : List Nat := [0xFF, 0x0F, 0x42, 0x00, 0x56, 0x42, 0x00, 0x00, 0x02]

/-- The heap `c9bytes` parses to: a non-resizable buffer and a view over
it with `is_backed_by_rab = true`. -/
def c9heap : Heap :=
  ⟨0, [.arrayBuffer [] none, .arrayBufferView .uint8Array ⟨0, 0⟩ 0 0 false true]⟩

/-- A serialized dense array `[v, b]` where `b` is a 16-byte non-zero
buffer and `v = new Float64Array(b, 8, 1)` an aligned view over its second
half. -/
def c8bytes : List Nat :=
  [0xFF, 0x0F, 0x41, 0x02,
   0x42, 0x10, 0x01, 0, 0, 0, 0, 0, 0, 0, 0, 0, 0, 0, 0, 0, 0, 0,
   0x56, 0x46, 0x08, 0x08, 0x00, 0x5E, 0x01, 0x24, 0x00, 0x02]

/-- The heap `c8bytes` parses to. -/
def c8heap : Heap :=
  ⟨0, [.denseArray [some (.heapReference ⟨0, 2⟩), some (.heapReference ⟨0, 1⟩)] [],
       .arrayBuffer [1, 0, 0, 0, 0, 0, 0, 0, 0, 0, 0, 0, 0, 0, 0, 0] none,
       .arrayBufferView .float64Array ⟨0, 1⟩ 8 1 false false]⟩

/-- Wire bytes realizing `k + 1` nested `read_object` calls with no heap
interaction: `k` layers of `VerifyObjectCount` (tag `0x3F`, count varint
`0x00`) around a final `Undefined` tag.  Reading layer `i` (0-based) enters
`read_object` at recursion depth `i`. -/
def qchain : Nat → List Nat
  | 0 => [tagUndefined]
  | k + 1 => tagVerifyObjectCount :: 0x00 :: qchain k

/-- A complete serialized input (version header plus `qchain (n - 1)`)
whose parse performs exactly `n` nested `read_object` calls for `n ≥ 1`:
its nesting depth in the sense of the spec is `n`. -/
def deepInput (n : Nat) : List Nat := 0xFF :: 0x0F :: qchain (n - 1)

/-! # Theorems -/

/-! ## Supporting lemmas -/

/-- `expect_eof` can never fail when the position is within the input,
which it always is: the comparison in the source is
`self.bytes.len() < self.position`, and every read advances the position
only while it is within bounds. -/
theorem expect_eof_ok_of_pos_le (input : Input) (h : input.pos ≤ input.bytes.length) :
    input.expectEof = .ok () := by
  unfold Input.expectEof
  rw [if_neg (by omega)]

theorem f64_ge_finite (q c : ℚ) (nz b : Bool) :
    F64.ge (F64.finite q nz) (F64.finite c b) = decide (c ≤ q) := rfl

theorem f64_le_finite (q c : ℚ) (nz b : Bool) :
    F64.le (F64.finite q nz) (F64.finite c b) = decide (q ≤ c) := rfl

/-- `Date::new` on a finite input: the range test reduces to the rational
comparison. -/
theorem date_new_finite (q : ℚ) (nz : Bool) :
    Date.new (F64.finite q nz) =
      if -MAX_TIME_IN_MS ≤ q ∧ q ≤ MAX_TIME_IN_MS then
        double_to_integer (F64.finite q nz)
      else F64.nan := by
  unfold Date.new
  rw [f64_ge_finite, f64_le_finite]
  by_cases h1 : -MAX_TIME_IN_MS ≤ q <;> by_cases h2 : q ≤ MAX_TIME_IN_MS <;>
    simp [h1, h2]

/-- The `x == 0.0` early return of `double_to_integer` passes both zeros
through unchanged. -/
theorem double_to_integer_finite_zero (nz : Bool) :
    double_to_integer (F64.finite 0 nz) = F64.finite 0 nz := by
  simp [double_to_integer, F64.isNan, F64.eqZero]

/-- `double_to_integer` on a finite non-zero input truncates toward zero
and clears the negative-zero flag. -/
theorem double_to_integer_finite_nonzero (q : ℚ) (nz : Bool) (hq : q ≠ 0) :
    double_to_integer (F64.finite q nz) = F64.finite (ratTruncToward q) false := by
  simp [double_to_integer, F64.isNan, F64.eqZero, F64.isFinite, hq]

/-- `ratTruncToward` is integer division truncated toward zero. -/
theorem ratTruncToward_eq_tdiv (q : ℚ) :
    ratTruncToward q = ((q.num.tdiv q.den : ℤ) : ℚ) := by
  unfold ratTruncToward
  rcases lt_trichotomy 0 q with h | h | h
  · rw [if_pos h]
    congr 1
    rw [Rat.floor_def,
      Int.tdiv_eq_ediv (by exact_mod_cast (Rat.num_pos.mpr h).le) (Int.natCast_nonneg _)]
  · rw [if_neg (by rw [← h]; exact lt_irrefl 0), ← h]
    norm_num
  · rw [if_neg (by exact fun hc => absurd (lt_trans hc h) (lt_irrefl 0))]
    congr 1
    have hneg : ⌈q⌉ = -⌊-q⌋ := by rw [← Int.ceil_neg, neg_neg]
    rw [hneg, Rat.floor_def, Rat.num_neg_eq_neg_num]
    have hden : (-q).den = q.den := rfl
    rw [hden]
    have hnn : (0 : ℤ) ≤ -q.num := by have := Rat.num_neg.mpr h; omega
    have htd : q.num.tdiv q.den = -((-q.num).tdiv q.den) := by rw [← Int.neg_tdiv, neg_neg]
    rw [htd, Int.tdiv_eq_ediv hnn (Int.natCast_nonneg _)]

theorem except_bind_ok {α β ε : Type _} (a : α) (f : α → Except ε β) :
    (Except.ok a : Except ε α) >>= f = f a := rfl

/-- `read_regexp` after a successful pattern parse and flags varint: the
result depends only on the flag bits. -/
theorem read_regexp_reduction (fuel : Nat) (de de' : DeState)
    (input input' input'' : Input) (pattern : StringValue) (f : Nat)
    (hs : readStringValue fuel de input = .ok (pattern, de', input'))
    (hv : input'.readVarint = .ok (f, input'')) :
    readRegexp (fuel + 1) de input =
      (match RegExpFlags.fromBits f with
       | none => .error (input''.err (.invalidRegExpFlags f))
       | some flags =>
          if flags &&& RegExpFlags.LINEAR ≠ 0 then
            .error (input''.err (.invalidRegExpFlags flags))
          else if flags &&& RegExpFlags.UNICODE ≠ 0 ∧ flags &&& RegExpFlags.UNICODE_SETS ≠ 0 then
            .error (input''.err (.invalidRegExpFlags flags))
          else
            .ok ((pattern, flags), de', input'')) := by
  simp only [readRegexp, hs, except_bind_ok, hv]
  rcases RegExpFlags.fromBits f with _ | flags
  · rfl
  · simp only [Bool.and_eq_true, decide_eq_true_eq]

/-! ## C2 — trailing bytes -/

/-- C2: the claim says `ValueDeserializer::read` rejects inputs with
unconsumed trailing bytes with `ParseErrorKind::ExpectedEof`.  It does
not: `expect_eof` tests `bytes.len() < position`, which never holds, so a
document with a trailing byte (here an extra `0x54`) parses exactly like
the same document without it.  This is the code-bug evidence: both parses
succeed and return the same value. -/
theorem read_ignores_trailing_bytes :
    ValueDeserializer.read [] [0xFF, 0x0F, 0x5F, 0x54] = .ok (.undefined, ⟨0, []⟩) ∧
    ValueDeserializer.read [] [0xFF, 0x0F, 0x5F] = .ok (.undefined, ⟨0, []⟩) :=
  ⟨rfl, rfl⟩

/-! ## C4 — RegExp flag validation -/

/-- C4: once a RegExp's pattern string and flags varint have been read,
the parse fails with `ParseErrorKind::InvalidRegExpFlags` iff the flags
word has a bit outside the nine defined flag bits, or contains `LINEAR`,
or contains both `UNICODE` and `UNICODE_SETS`; otherwise the RegExp is
accepted with exactly the decoded flags word. -/
theorem read_regexp_flag_validation (fuel : Nat) (de de' : DeState)
    (input input' input'' : Input) (pattern : StringValue) (f : Nat)
    (hs : readStringValue fuel de input = .ok (pattern, de', input'))
    (hv : input'.readVarint = .ok (f, input'')) :
    ((∃ p, readRegexp (fuel + 1) de input = .error ⟨p, .invalidRegExpFlags f⟩) ↔
      (f &&& RegExpFlags.allBits ≠ f ∨ f &&& RegExpFlags.LINEAR ≠ 0 ∨
        (f &&& RegExpFlags.UNICODE ≠ 0 ∧ f &&& RegExpFlags.UNICODE_SETS ≠ 0))) ∧
    (¬(f &&& RegExpFlags.allBits ≠ f ∨ f &&& RegExpFlags.LINEAR ≠ 0 ∨
        (f &&& RegExpFlags.UNICODE ≠ 0 ∧ f &&& RegExpFlags.UNICODE_SETS ≠ 0)) →
      readRegexp (fuel + 1) de input = .ok ((pattern, f), de', input'')) := by
  have hred := read_regexp_reduction fuel de de' input input' input'' pattern f hs hv
  by_cases hb : f &&& RegExpFlags.allBits = f
  · have hfb : RegExpFlags.fromBits f = some f := by simp [RegExpFlags.fromBits, hb]
    simp only [hfb] at hred
    by_cases h1 : f &&& RegExpFlags.LINEAR ≠ 0
    · rw [if_pos h1] at hred
      exact ⟨⟨fun _ => Or.inr (Or.inl h1), fun _ => ⟨input''.pos - 1, hred⟩⟩,
        fun hnot => absurd (Or.inr (Or.inl h1)) hnot⟩
    · rw [if_neg h1] at hred
      by_cases h2 : f &&& RegExpFlags.UNICODE ≠ 0 ∧ f &&& RegExpFlags.UNICODE_SETS ≠ 0
      · rw [if_pos h2] at hred
        exact ⟨⟨fun _ => Or.inr (Or.inr h2), fun _ => ⟨input''.pos - 1, hred⟩⟩,
          fun hnot => absurd (Or.inr (Or.inr h2)) hnot⟩
      · rw [if_neg h2] at hred
        refine ⟨⟨?_, ?_⟩, fun _ => hred⟩
        · rintro ⟨p, hp⟩
          rw [hred] at hp
          exact absurd hp (by simp)
        · rintro (hd | hd | hd)
          · exact absurd hb hd
          · exact absurd hd h1
          · exact absurd hd h2
  · have hfb : RegExpFlags.fromBits f = none := by simp [RegExpFlags.fromBits, hb]
    simp only [hfb] at hred
    exact ⟨⟨fun _ => Or.inl hb, fun _ => ⟨input''.pos - 1, hred⟩⟩,
      fun hnot => absurd (Or.inl hb) hnot⟩

/-- Witness for `read_regexp_flag_validation`: the pattern `"a"` (OneByte)
followed by the valid flags word `0x11` (`global | unicode`) is accepted
with exactly those flags. -/
theorem read_regexp_flag_validation_witness :
    readRegexp 2 ⟨[], 0⟩ ⟨[0x22, 0x01, 0x61, 0x11], 0⟩ =
      .ok ((.oneByte [0x61], 0x11), ⟨[], 0⟩, ⟨[0x22, 0x01, 0x61, 0x11], 4⟩) :=
  (read_regexp_flag_validation 1 ⟨[], 0⟩ ⟨[], 0⟩ ⟨[0x22, 0x01, 0x61, 0x11], 0⟩
    ⟨[0x22, 0x01, 0x61, 0x11], 3⟩ ⟨[0x22, 0x01, 0x61, 0x11], 4⟩ (.oneByte [0x61]) 0x11
    rfl rfl).2 (by decide)

/-! ## C5 — `Date::new` -/

/-- C5 counterexample: the claim says a negative-zero input to `Date::new`
is normalized to positive zero.  It is not: `double_to_integer` returns
early on `x == 0.0`, which `-0.0` satisfies, so the stored time for a
`-0.0` input is `-0.0` itself — a value distinct from `+0.0` (their bit
patterns differ; the serializer writes the raw pattern). -/
theorem date_new_negative_zero_unnormalized :
    Date.new (F64.finite 0 true) = F64.finite 0 true ∧
    F64.finite 0 true ≠ F64.finite 0 false := by
  refine ⟨?_, by simp⟩
  rw [date_new_finite, if_pos (by constructor <;> norm_num [MAX_TIME_IN_MS]),
    double_to_integer_finite_zero]

/-- C5 amended: for every `f64` input `t` to `Date::new`, a `t` outside
`[-864e13 ms, +864e13 ms]` (NaN and infinities included) stores NaN; a
finite in-range non-zero `t` stores `t` truncated toward zero (with a
`-0.0` produced by the truncation normalized to `+0.0`); but a zero input
— positive or negative — is stored unchanged, so a negative-zero input is
NOT normalized to positive zero.  The last conjunct identifies
`ratTruncToward` with integer division truncated toward zero. -/
theorem date_new_characterization :
    (Date.new F64.nan = F64.nan) ∧
    (∀ b, Date.new (F64.inf b) = F64.nan) ∧
    (∀ q nz, (q < -MAX_TIME_IN_MS ∨ MAX_TIME_IN_MS < q) →
        Date.new (F64.finite q nz) = F64.nan) ∧
    (∀ nz, Date.new (F64.finite 0 nz) = F64.finite 0 nz) ∧
    (∀ q nz, -MAX_TIME_IN_MS ≤ q → q ≤ MAX_TIME_IN_MS → q ≠ 0 →
        Date.new (F64.finite q nz) = F64.finite (ratTruncToward q) false) ∧
    (∀ q : ℚ, ratTruncToward q = ((q.num.tdiv q.den : ℤ) : ℚ)) := by
  refine ⟨rfl, ?_, ?_, ?_, ?_, ratTruncToward_eq_tdiv⟩
  · intro b; cases b <;> rfl
  · intro q nz h
    rw [date_new_finite, if_neg]
    rcases h with h | h
    · exact fun hc => absurd hc.1 (not_le.mpr h)
    · exact fun hc => absurd hc.2 (not_le.mpr h)
  · intro nz
    rw [date_new_finite, if_pos (by constructor <;> norm_num [MAX_TIME_IN_MS]),
      double_to_integer_finite_zero]
  · intro q nz h1 h2 hq
    rw [date_new_finite, if_pos ⟨h1, h2⟩, double_to_integer_finite_nonzero q nz hq]

/-- Witness for `date_new_characterization` at concrete inputs: `+∞`, an
out-of-range finite time, and `-2.5 ms` (which truncates to `-2`). -/
theorem date_new_characterization_witness :
    Date.new (F64.inf false) = F64.nan ∧
    Date.new (F64.finite (10 ^ 16) false) = F64.nan ∧
    Date.new (F64.finite (-5 / 2) false) = F64.finite (-2) false := by
  refine ⟨date_new_characterization.2.1 false,
    date_new_characterization.2.2.1 (10 ^ 16) false (Or.inr (by norm_num [MAX_TIME_IN_MS])),
    ?_⟩
  have h := date_new_characterization.2.2.2.2.1 (-5 / 2) false
    (by norm_num [MAX_TIME_IN_MS]) (by norm_num [MAX_TIME_IN_MS]) (by norm_num)
  rw [h]
  have hc : ⌈(-(5 / 2) : ℚ)⌉ = -2 := by
    rw [Int.ceil_eq_iff]
    norm_num
  norm_num [ratTruncToward, hc]

/-! ## C6 — TwoByte string padding -/

theorem bytesNeededFuel_acc (fuel v a : Nat) :
    bytesNeededForVarintFuel fuel v (a + 1) = bytesNeededForVarintFuel fuel v a + 1 := by
  induction fuel generalizing v a with
  | zero => rfl
  | succ f ih =>
      unfold bytesNeededForVarintFuel
      by_cases h : 0x80 ≤ v
      · rw [if_pos h, if_pos h, ih]
      · rw [if_neg h, if_neg h]

/-- `write_varint` emits exactly `bytes_needed_for_varint` bytes. -/
theorem writeVarintFuel_length : ∀ fuel v acc, 1 ≤ fuel → v < 2 ^ (7 * fuel) →
    (writeVarintFuel fuel v acc).length = acc.length + bytesNeededForVarintFuel fuel v 1 := by
  intro fuel
  induction fuel with
  | zero => intro v acc h; omega
  | succ f ih =>
      intro v acc _ hv
      unfold writeVarintFuel bytesNeededForVarintFuel
      by_cases h : 0x80 ≤ v
      · rw [if_pos h, if_pos h]
        have hf : 1 ≤ f := by
          by_contra hc
          have hf0 : f = 0 := by omega
          subst hf0
          norm_num at hv
          omega
        have hv' : v >>> 7 < 2 ^ (7 * f) := by
          rw [Nat.shiftRight_eq_div_pow]
          have hsplit : 2 ^ (7 * (f + 1)) = 2 ^ (7 * f) * 2 ^ 7 := by ring
          rw [hsplit] at hv
          omega
        rw [ih (v >>> 7) _ hf hv']
        have hacc : bytesNeededForVarintFuel f (v >>> 7) 2 =
            bytesNeededForVarintFuel f (v >>> 7) 1 + 1 := bytesNeededFuel_acc f (v >>> 7) 1
        simp only [List.length_append, List.length_cons, List.length_nil]
        norm_num
        omega
      · rw [if_neg h, if_neg h]
        simp

theorem varintBytes_length (v : Nat) (hv : v < 2 ^ 32) :
    (varintBytes v).length = bytes_needed_for_varint v := by
  unfold varintBytes bytes_needed_for_varint
  rw [writeVarintFuel_length 5 v [] (by omega) (by norm_num at hv ⊢; omega)]
  simp

/-- C6: when serializing a `TwoByte` string whose byte view fits in `u32`,
`write_string` emits exactly one `Padding` byte immediately before the
`TwoByteString` tag iff the position after the tag byte and the length
varint would otherwise be odd; the two-byte payload therefore always
starts at an even offset; and neither the `OneByte` nor the `Wtf8` branch
ever writes a padding byte. -/
theorem write_two_byte_string_padding (st : SerState) (units : List Nat)
    (hlen : (TwoByteString.asU8Bytes units).length < 2 ^ 32) :
    (SerState.writeString st (.twoByte units) = .ok
      ⟨st.data ++
          (if (st.data.length + 1 +
              bytes_needed_for_varint (TwoByteString.asU8Bytes units).length) % 2 = 1
           then [tagPadding] else []) ++
          [tagTwoByteString] ++ varintBytes (TwoByteString.asU8Bytes units).length ++
          TwoByteString.asU8Bytes units, st.idMap, st.recursionDepth⟩) ∧
    ((st.data.length +
        (if (st.data.length + 1 +
            bytes_needed_for_varint (TwoByteString.asU8Bytes units).length) % 2 = 1
         then 1 else 0) + 1 +
        (varintBytes (TwoByteString.asU8Bytes units).length).length) % 2 = 0) ∧
    ((st.data.length + 1 + bytes_needed_for_varint (TwoByteString.asU8Bytes units).length) % 2 = 1 ↔
      (st.data.length + 1 + (varintBytes (TwoByteString.asU8Bytes units).length).length) % 2 = 1) ∧
    (∀ bs : List Nat, bs.length < 2 ^ 32 → SerState.writeString st (.oneByte bs) =
        .ok ⟨st.data ++ [tagOneByteString] ++ varintBytes bs.length ++ bs,
          st.idMap, st.recursionDepth⟩) ∧
    (∀ bs : List Nat, bs.length < 2 ^ 32 → SerState.writeString st (.wtf8 bs) =
        .ok ⟨st.data ++ [tagUtf8String] ++ varintBytes bs.length ++ bs,
          st.idMap, st.recursionDepth⟩) := by
  have hvb := varintBytes_length (TwoByteString.asU8Bytes units).length hlen
  refine ⟨?_, ?_, ?_, ?_, ?_⟩
  · by_cases hp : (st.data.length + 1 +
        bytes_needed_for_varint (TwoByteString.asU8Bytes units).length) % 2 = 1
    · simp only [SerState.writeString, SerState.writeTag, SerState.writeVarint,
        Nat.and_one_is_mod, hp, if_true, if_pos hlen]
    · simp only [SerState.writeString, SerState.writeTag, SerState.writeVarint,
        Nat.and_one_is_mod, hp, if_pos hlen]
      simp
  · rw [hvb]
    by_cases hp : (st.data.length + 1 +
        bytes_needed_for_varint (TwoByteString.asU8Bytes units).length) % 2 = 1
    · rw [if_pos hp]; omega
    · rw [if_neg hp]; omega
  · rw [hvb]
  · intro bs hbs
    simp only [SerState.writeString, SerState.writeTag, SerState.writeVarint, if_pos hbs]
  · intro bs hbs
    simp only [SerState.writeString, SerState.writeTag, SerState.writeVarint, if_pos hbs]

/-- Witness for `write_two_byte_string_padding` at the string
`"a" + U+D83C` (byte view `[0x61, 0x00, 0x3C, 0xD8]`): with two header
bytes already emitted, tag + one-byte varint land the payload at offset 4
(even) and no padding appears; with one header byte they would land it at
offset 3 (odd) and a single padding byte is inserted. -/
theorem write_two_byte_string_padding_witness :
    SerState.writeString ⟨[0xFF], [], 0⟩ (.twoByte [0x61, 0xD83C]) =
      .ok ⟨[0xFF, 0x00, 0x63, 0x04, 0x61, 0x00, 0x3C, 0xD8], [], 0⟩ ∧
    SerState.writeString ⟨[0xFF, 0x0F], [], 0⟩ (.twoByte [0x61, 0xD83C]) =
      .ok ⟨[0xFF, 0x0F, 0x63, 0x04, 0x61, 0x00, 0x3C, 0xD8], [], 0⟩ := by
  constructor
  · have h := (write_two_byte_string_padding ⟨[0xFF], [], 0⟩ [0x61, 0xD83C]
      (by decide)).1
    rw [h]
    congr 1
  · have h := (write_two_byte_string_padding ⟨[0xFF, 0x0F], [], 0⟩ [0x61, 0xD83C]
      (by decide)).1
    rw [h]
    congr 1

/-! ## C10 — `value_eq` is sensitive to heap indices -/

/-- C10: `HeapEq for HeapReference` compares the integer indices first,
so `value_eq` on two root references with different indices is `false`
regardless of the heap contents — structural equality is sensitive to
heap slot layout.  The closed conjuncts exhibit two heaps holding
structurally equal values at indices 0 and 1 respectively, which
`value_eq` still distinguishes. -/
theorem value_eq_compares_indices (fuel : Nat) (h1 h2 : Heap) (r1 r2 : HeapReference)
    (hne : r1.index ≠ r2.index) :
    value_eq (fuel + 2) (.heapReference r1, h1) (.heapReference r2, h2) = some false ∧
    value_eq 8 (.heapReference ⟨0, 0⟩, ⟨0, [.booleanObject true]⟩)
      (.heapReference ⟨0, 1⟩, ⟨0, [.booleanObject false, .booleanObject true]⟩) = some false ∧
    (Heap.values ⟨0, [.booleanObject true]⟩).get? 0 =
      (Heap.values ⟨0, [.booleanObject false, .booleanObject true]⟩).get? 1 := by
  refine ⟨?_, by rfl, by rfl⟩
  simp [value_eq, valueEqV, heapRefEq, hne]

/-- Witness for `value_eq_compares_indices` at indices 2 and 5 over empty
heaps. -/
theorem value_eq_compares_indices_witness :
    value_eq 2 (.heapReference ⟨0, 2⟩, ⟨0, []⟩) (.heapReference ⟨0, 5⟩, ⟨0, []⟩) =
      some false :=
  (value_eq_compares_indices 0 ⟨0, []⟩ ⟨0, []⟩ ⟨0, 2⟩ ⟨0, 5⟩ (by decide)).1

/-! ## C7 — Map entry inlining -/

/-- C7: the claim (and the spec table) say a Map entry is rendered inline
only when BOTH its key and its value are inline-ready, with every other
entry deferred as a `MapSet` follow-up task.  The code's guard is
`is_ready_to_render(key) || is_ready_to_render(value)`.  Evidence on the
deserializer-accepted self-referential map `m = new Map([[1, m]])`: the
map requires a binding (cycle) and its reference is not ready to render at
the time the map itself is being rendered, yet the code's guard inlines
the entry `[1, m]` because the key `1` is ready — which makes
`display_value` recurse into the unbounded rendering of `m` instead of
deferring a `MapSet`. -/
theorem map_inline_guard_ignores_value_readiness :
    ValueDeserializer.read [] c7bytes = .ok (.heapReference ⟨0, 0⟩, c7heap) ∧
    ((visitRoot 16 c7heap (.heapReference ⟨0, 0⟩)).bind (fun deps =>
      isReadyToRender c7heap deps.objects deps.order [] (.heapReference ⟨0, 0⟩))) =
      some false ∧
    ((visitRoot 16 c7heap (.heapReference ⟨0, 0⟩)).bind (fun deps =>
      mapEntryRenderedInline c7heap deps.objects deps.order [] (.i32 1)
        (.heapReference ⟨0, 0⟩))) = some true :=
  ⟨rfl, rfl, rfl⟩

/-! ## C9 — display panics on a well-formed pair -/

/-- C9: the claim says `display` never panics on a well-formed pair, in
particular on any pair produced by a successful `read`.  Evidence against:
`c9bytes` parses successfully into a non-resizable buffer and a view with
`is_backed_by_rab = true` (the deserializer reads the flag straight from
the wire).  Rendering the root view calls
`array_buffer_view_to_render_array_buffer_in` on the buffer, which hits
`assert!(!view.is_backed_by_rab)` — the modelled call returns `none`
(panic). -/
theorem rab_view_breaks_display_assert :
    ValueDeserializer.read [] c9bytes = .ok (.heapReference ⟨0, 1⟩, c9heap) ∧
    ((visitRoot 16 c9heap (.heapReference ⟨0, 1⟩)).bind (fun deps =>
      match objectsGet deps.objects ⟨0, 0⟩ with
      | some info => arrayBufferViewToRenderIn c9heap deps.objects deps.order [] none info
      | none => none)) = none :=
  ⟨rfl, rfl⟩

/-! ## C8 — ViewKind selection for standalone ArrayBuffers -/

/-- C8: the claim says a standalone non-zero `ArrayBuffer` renders as
`new <ViewKind>([…]).buffer` with `ViewKind` taken from the first aligned
dependant view in traversal order, defaulting to `Uint8Array`.  In the
code the selection loop's variable shadows the buffer's reference, so the
test `view.buffer == *reference` compares a view's buffer field against
the view's own reference; on any heap whose views point at actual
`ArrayBuffer`s the loop finds nothing and the kind is always `Uint8Array`.
The closed conjuncts run the selection on the parsed `c8bytes` heap, which
has an aligned dependant `Float64Array` view (offset 8, element width 8)
that the claim's rule would select. -/
theorem ab_render_kind_defaults_to_uint8 :
    (∀ (heap : Heap) (order : List HeapReference),
      (∀ r, r ∈ order → (HeapReference.open r heap).isSome) →
      (∀ r kind buffer byteOffset length lt rab, r ∈ order →
        HeapReference.open r heap =
          some (.arrayBufferView kind buffer byteOffset length lt rab) →
        ∃ data maxByteLength,
          HeapReference.open buffer heap = some (.arrayBuffer data maxByteLength)) →
      chooseKindCode heap order = some .uint8Array) ∧
    ValueDeserializer.read [] c8bytes = .ok (.heapReference ⟨0, 0⟩, c8heap) ∧
    ((visitRoot 32 c8heap (.heapReference ⟨0, 0⟩)).map (fun deps =>
      chooseKindCode c8heap deps.order)) = some (some .uint8Array) ∧
    c8heap.values.get? 2 = some (.arrayBufferView .float64Array ⟨0, 1⟩ 8 1 false false) ∧
    8 % ViewKind.float64Array.byteWidth = 0 := by
  refine ⟨?_, by rfl, by rfl, by rfl, by rfl⟩
  intro heap order
  induction order with
  | nil => intro _ _; rfl
  | cons r rest ih =>
      intro hsome hviews
      have hsome' : ∀ x, x ∈ rest → (HeapReference.open x heap).isSome :=
        fun x hx => hsome x (List.mem_cons_of_mem _ hx)
      have hviews' : ∀ x kind buffer byteOffset length lt rab, x ∈ rest →
          HeapReference.open x heap =
            some (.arrayBufferView kind buffer byteOffset length lt rab) →
          ∃ data maxByteLength,
            HeapReference.open buffer heap = some (.arrayBuffer data maxByteLength) :=
        fun x k b o l lt rab hx hop => hviews x k b o l lt rab (List.mem_cons_of_mem _ hx) hop
      obtain ⟨hv, hopen⟩ := Option.isSome_iff_exists.mp (hsome r (List.mem_cons_self r rest))
      show abRenderViewKindLoop heap (r :: rest) = some .uint8Array
      rw [abRenderViewKindLoop, hopen]
      cases hv with
      | arrayBufferView kind buffer byteOffset length lt rab =>
          obtain ⟨data, mx, hbuf⟩ :=
            hviews r kind buffer byteOffset length lt rab (List.mem_cons_self r rest) hopen
          have hne : buffer ≠ r := by
            intro he
            rw [he, hopen] at hbuf
            simp at hbuf
          simp only [hne, decide_False, Bool.false_and, Bool.false_eq_true, if_false]
          exact ih hsome' hviews'
      | booleanObject b => exact ih hsome' hviews'
      | numberObject x => exact ih hsome' hviews'
      | bigIntObject x => exact ih hsome' hviews'
      | stringObject x => exact ih hsome' hviews'
      | regExp p f => exact ih hsome' hviews'
      | date t => exact ih hsome' hviews'
      | object p => exact ih hsome' hviews'
      | sparseArray l p => exact ih hsome' hviews'
      | denseArray e p => exact ih hsome' hviews'
      | map e => exact ih hsome' hviews'
      | set v => exact ih hsome' hviews'
      | arrayBuffer d m => exact ih hsome' hviews'
      | error n m s c => exact ih hsome' hviews'

/-- Witness for `ab_render_kind_defaults_to_uint8`: the general conjunct
applied to the concrete `c8heap` and its traversal order. -/
theorem ab_render_kind_defaults_to_uint8_witness :
    chooseKindCode c8heap [⟨0, 1⟩, ⟨0, 2⟩, ⟨0, 0⟩] = some .uint8Array := by
  refine ab_render_kind_defaults_to_uint8.1 c8heap [⟨0, 1⟩, ⟨0, 2⟩, ⟨0, 0⟩]
    (by decide) ?_
  intro r kind buffer byteOffset length lt rab hmem hopen
  simp only [List.mem_cons, List.not_mem_nil, or_false] at hmem
  rcases hmem with rfl | rfl | rfl
  · rw [show HeapReference.open (⟨0, 1⟩ : HeapReference) c8heap =
        some (.arrayBuffer [1, 0, 0, 0, 0, 0, 0, 0, 0, 0, 0, 0, 0, 0, 0, 0] none)
      from rfl] at hopen
    exact absurd hopen (by simp)
  · rw [show HeapReference.open (⟨0, 2⟩ : HeapReference) c8heap =
        some (.arrayBufferView .float64Array ⟨0, 1⟩ 8 1 false false) from rfl] at hopen
    obtain ⟨h1, h2, h3, h4, h5, h6⟩ := by
      simpa using hopen
    subst h2
    exact ⟨_, none, rfl⟩
  · rw [show HeapReference.open (⟨0, 0⟩ : HeapReference) c8heap =
        some (.denseArray [some (.heapReference ⟨0, 2⟩), some (.heapReference ⟨0, 1⟩)] [])
      from rfl] at hopen
    exact absurd hopen (by simp)

/-! ## Depth limit (recursion cap) -/

/-- Reading a byte that exists returns it and advances the position. -/
theorem readByte_eq (bytes : List Nat) (pos b : Nat) (h : bytes.get? pos = some b) :
    Input.readByte ⟨bytes, pos⟩ = .ok (b, ⟨bytes, pos + 1⟩) := by
  unfold Input.readByte
  simp only [h]

/-- `skip_padding` is the identity when the current byte is not padding. -/
theorem skipPadding_eq_self (input : Input) (b : Nat)
    (hb : input.bytes.get? input.pos = some b) (hnz : b ≠ tagPadding) :
    input.skipPadding = input := by
  have hlt : input.pos < input.bytes.length := (List.get?_eq_some.mp hb).1
  unfold Input.skipPadding
  obtain ⟨m, hm⟩ : ∃ m, input.bytes.length + 1 - input.pos = m + 1 :=
    ⟨input.bytes.length - input.pos, by omega⟩
  rw [hm]
  unfold skipPaddingFuel
  rw [hb]
  simp only [Option.some.injEq]
  rw [if_neg hnz]

/-- A varint whose first byte is `0x00` decodes to `0` in one byte. -/
theorem readVarint_zero (bytes : List Nat) (pos : Nat) (h : bytes.get? pos = some 0x00) :
    Input.readVarint ⟨bytes, pos⟩ = .ok (0, ⟨bytes, pos + 1⟩) := by
  unfold Input.readVarint readVarintLoop
  rw [readByte_eq bytes pos 0 h]
  rfl

/-- A varint whose first byte is `0x0F` decodes to `15` in one byte. -/
theorem readVarint_fifteen (bytes : List Nat) (pos : Nat)
    (h : bytes.get? pos = some 0x0F) :
    Input.readVarint ⟨bytes, pos⟩ = .ok (15, ⟨bytes, pos + 1⟩) := by
  unfold Input.readVarint readVarintLoop
  rw [readByte_eq bytes pos 0x0F h]
  rfl

/-- `read_object_internal` on an `Undefined` tag returns `Undefined` and
consumes one byte. -/
theorem internal_undefined (fuel : Nat) (de : DeState) (heap : HeapBuilder)
    (bytes : List Nat) (pos : Nat) (h : bytes.get? pos = some tagUndefined) :
    readObjectInternal (fuel + 1) de ⟨bytes, pos⟩ heap =
      .ok (.undefined, de, ⟨bytes, pos + 1⟩, heap) := by
  unfold readObjectInternal
  rw [skipPadding_eq_self ⟨bytes, pos⟩ tagUndefined h (by decide)]
  dsimp only
  rw [readByte_eq bytes pos tagUndefined h]
  rfl

/-- `read_object_internal` on a `VerifyObjectCount` tag with a zero count
varint recurses into `read_object` two bytes further on. -/
theorem internal_qstep (fuel : Nat) (de : DeState) (heap : HeapBuilder)
    (bytes : List Nat) (pos : Nat)
    (h0 : bytes.get? pos = some tagVerifyObjectCount)
    (h1 : bytes.get? (pos + 1) = some 0x00) :
    readObjectInternal (fuel + 1) de ⟨bytes, pos⟩ heap =
      readObject fuel de ⟨bytes, pos + 2⟩ heap := by
  unfold readObjectInternal
  rw [skipPadding_eq_self ⟨bytes, pos⟩ tagVerifyObjectCount h0 (by decide)]
  dsimp only
  rw [readByte_eq bytes pos tagVerifyObjectCount h0, except_bind_ok]
  dsimp only
  rw [if_pos rfl, readVarint_zero bytes (pos + 1) h1, except_bind_ok]

/-- If dropping `pos` bytes leaves a list headed by `a`, the byte at `pos`
is `a`. -/
theorem get_of_drop_cons (bytes : List Nat) (pos a : Nat) (l : List Nat)
    (h : bytes.drop pos = a :: l) : bytes.get? pos = some a := by
  rw [List.get?_eq_getElem?]
  have hg : bytes[pos + 0]? = (bytes.drop pos)[0]? := (List.getElem?_drop bytes pos 0).symm
  rw [h] at hg
  simpa using hg

/-- Main induction for the recursion-depth analysis: on a `qchain k`
suffix, `read_object` entered at depth `d` succeeds (returning `Undefined`
and consuming `2 * k + 1` bytes) when `d + k` stays within
`RECURSION_DEPTH_LIMIT`, and fails with `TooDeeplyNested` when `d + k`
exceeds it.  The innermost of the `k + 1` nested calls runs at depth
`d + k`, and the entry check fires only when the depth at entry already
exceeds the limit. -/
theorem readObject_qchain : ∀ (k fuel : Nat)
    (tm : List (Nat × (List Nat × Option Nat))) (d : Nat) (heap : HeapBuilder)
    (bytes : List Nat) (pos : Nat),
    bytes.drop pos = qchain k →
    2 * k + 2 ≤ fuel →
    (d + k ≤ RECURSION_DEPTH_LIMIT →
      readObject fuel ⟨tm, d⟩ ⟨bytes, pos⟩ heap =
        .ok (.undefined, ⟨tm, d⟩, ⟨bytes, pos + (2 * k + 1)⟩, heap)) ∧
    (RECURSION_DEPTH_LIMIT < d + k →
      ∃ p, readObject fuel ⟨tm, d⟩ ⟨bytes, pos⟩ heap = .error ⟨p, .tooDeeplyNested⟩) := by
  intro k
  induction k with
  | zero =>
      intro fuel tm d heap bytes pos hdrop hfuel
      obtain ⟨f, rfl⟩ : ∃ f, fuel = f + 2 := ⟨fuel - 2, by omega⟩
      rw [show qchain 0 = [tagUndefined] from rfl] at hdrop
      have hb := get_of_drop_cons bytes pos tagUndefined [] hdrop
      constructor
      · intro hd
        unfold readObject
        rw [if_neg (by dsimp only; unfold RECURSION_DEPTH_LIMIT at hd ⊢; omega)]
        rw [internal_undefined f ⟨tm, d + 1⟩ heap bytes pos hb]
        rfl
      · intro hd
        unfold readObject
        rw [if_pos (by dsimp only; unfold RECURSION_DEPTH_LIMIT at hd ⊢; omega)]
        exact ⟨pos - 1, rfl⟩
  | succ k ih =>
      intro fuel tm d heap bytes pos hdrop hfuel
      obtain ⟨f, rfl⟩ : ∃ f, fuel = f + 2 := ⟨fuel - 2, by omega⟩
      rw [show qchain (k + 1) = tagVerifyObjectCount :: 0x00 :: qchain k from rfl] at hdrop
      have h0 := get_of_drop_cons bytes pos tagVerifyObjectCount (0x00 :: qchain k) hdrop
      have h1 : bytes.get? (pos + 1) = some 0x00 := by
        have hdd : bytes.drop (pos + 1) = 0x00 :: qchain k := by
          have hstep : bytes.drop (pos + 1) = (bytes.drop pos).drop 1 := by
            rw [List.drop_drop]
          rw [hstep, hdrop]
          rfl
        exact get_of_drop_cons bytes (pos + 1) 0x00 (qchain k) hdd
      have hdrop2 : bytes.drop (pos + 2) = qchain k := by
        have hstep : bytes.drop (pos + 2) = (bytes.drop pos).drop 2 := by
          rw [List.drop_drop]
        rw [hstep, hdrop]
        rfl
      have hIH := ih f tm (d + 1) heap bytes (pos + 2) hdrop2 (by omega)
      constructor
      · intro hd
        unfold readObject
        rw [if_neg (by dsimp only; unfold RECURSION_DEPTH_LIMIT at hd ⊢; omega)]
        rw [internal_qstep f ⟨tm, d + 1⟩ heap bytes pos h0 h1]
        rw [hIH.1 (by unfold RECURSION_DEPTH_LIMIT at hd ⊢; omega)]
        dsimp only
        rw [show pos + 2 + (2 * k + 1) = pos + (2 * (k + 1) + 1) from by omega]
        rfl
      · intro hd
        by_cases hdd : RECURSION_DEPTH_LIMIT < d
        · unfold readObject
          rw [if_pos (by dsimp only; unfold RECURSION_DEPTH_LIMIT at hdd ⊢; omega)]
          exact ⟨pos - 1, rfl⟩
        · unfold readObject
          rw [if_neg (by dsimp only; unfold RECURSION_DEPTH_LIMIT at hdd ⊢; omega)]
          rw [internal_qstep f ⟨tm, d + 1⟩ heap bytes pos h0 h1]
          obtain ⟨p, hp⟩ := hIH.2 (by unfold RECURSION_DEPTH_LIMIT at hd hdd ⊢; omega)
          rw [hp]
          exact ⟨p, rfl⟩

/-- Length of the nesting chain: `k` two-byte wrappers plus the final tag. -/
theorem qchain_length : ∀ k, (qchain k).length = 2 * k + 1
  | 0 => rfl
  | k + 1 => by
      show (qchain k).length + 1 + 1 = 2 * (k + 1) + 1
      rw [qchain_length k]
      omega

/-- `expect_tag` on the version header byte succeeds. -/
theorem expectTag_head (rest : List Nat) :
    Input.expectTag ⟨0xFF :: rest, 0⟩ tagVersion = .ok ⟨0xFF :: rest, 1⟩ := by
  unfold Input.expectTag
  rw [skipPadding_eq_self ⟨0xFF :: rest, 0⟩ 0xFF rfl (by decide)]
  dsimp only
  rw [readByte_eq (0xFF :: rest) 0 0xFF rfl, except_bind_ok]
  rfl

/-- End-to-end evaluation: an input with at most 257 nested value reads
parses successfully to `Undefined` over an empty heap. -/
theorem read_deepInput_ok (n : Nat) (h : n ≤ 257) :
    ValueDeserializer.read [] (deepInput n) = .ok (.undefined, ⟨0, []⟩) := by
  unfold ValueDeserializer.read
  rw [show deepInput n = 0xFF :: 0x0F :: qchain (n - 1) from rfl]
  dsimp only
  rw [expectTag_head (0x0F :: qchain (n - 1)), except_bind_ok]
  rw [readVarint_fifteen (0xFF :: 0x0F :: qchain (n - 1)) 1 rfl, except_bind_ok]
  dsimp only
  rw [if_neg (by decide)]
  have hlen : (0xFF :: 0x0F :: qchain (n - 1)).length = 2 * (n - 1) + 3 := by
    show (qchain (n - 1)).length + 1 + 1 = 2 * (n - 1) + 3
    rw [qchain_length (n - 1)]
  have hq := (readObject_qchain (n - 1)
      (4 * (0xFF :: 0x0F :: qchain (n - 1)).length + 16) [] 0 HeapBuilder.new
      (0xFF :: 0x0F :: qchain (n - 1)) 2 rfl (by rw [hlen]; omega)).1
      (by unfold RECURSION_DEPTH_LIMIT; omega)
  rw [hq, except_bind_ok]
  dsimp only
  rw [expect_eof_ok_of_pos_le ⟨0xFF :: 0x0F :: qchain (n - 1), 2 + (2 * (n - 1) + 1)⟩
      (by dsimp only; rw [hlen]; omega), except_bind_ok]
  rfl

/-- End-to-end evaluation: an input with 258 or more nested value reads
fails with `TooDeeplyNested`. -/
theorem read_deepInput_err (n : Nat) (h : 257 < n) :
    ∃ p, ValueDeserializer.read [] (deepInput n) =
      .error ⟨p, .tooDeeplyNested⟩ := by
  have hlen : (0xFF :: 0x0F :: qchain (n - 1)).length = 2 * (n - 1) + 3 := by
    show (qchain (n - 1)).length + 1 + 1 = 2 * (n - 1) + 3
    rw [qchain_length (n - 1)]
  obtain ⟨p, hp⟩ := (readObject_qchain (n - 1)
      (4 * (0xFF :: 0x0F :: qchain (n - 1)).length + 16) [] 0 HeapBuilder.new
      (0xFF :: 0x0F :: qchain (n - 1)) 2 rfl (by rw [hlen]; omega)).2
      (by unfold RECURSION_DEPTH_LIMIT; omega)
  refine ⟨p, ?_⟩
  unfold ValueDeserializer.read
  rw [show deepInput n = 0xFF :: 0x0F :: qchain (n - 1) from rfl]
  dsimp only
  rw [expectTag_head (0x0F :: qchain (n - 1)), except_bind_ok]
  rw [readVarint_fifteen (0xFF :: 0x0F :: qchain (n - 1)) 1 rfl, except_bind_ok]
  dsimp only
  rw [if_neg (by decide)]
  rw [hp]
  rfl

/-- Counterexample to the literal depth-cap claim: `deepInput 257` nests
value reads 257 levels deep — deeper than 256 — yet `read` succeeds,
because the entry check `depth > 256` only fires on the 258th nested call
(which would enter at depth 257). -/
theorem read_depth_257_levels_ok :
    ValueDeserializer.read [] (deepInput 257) = .ok (.undefined, ⟨0, []⟩) :=
  read_deepInput_ok 257 (by omega)

/-- C3 (corrected): on the nesting family `deepInput n` (`n ≥ 1` nested
value reads), `ValueDeserializer.read` fails with `TooDeeplyNested` if and
only if the input nests deeper than 257 levels; nesting depth at most 257
— not 256 as the spec states — never produces this error. -/
theorem read_depth_limit_threshold (n : Nat) (hn : 1 ≤ n) :
    (∃ p, ValueDeserializer.read [] (deepInput n) =
      .error ⟨p, ParseErrorKind.tooDeeplyNested⟩) ↔ 257 < n := by
  constructor
  · intro hex
    by_contra hlt
    push_neg at hlt
    obtain ⟨p, hp⟩ := hex
    rw [read_deepInput_ok n (by omega)] at hp
    exact absurd hp (by simp)
  · exact read_deepInput_err n

/-- Witness for the corrected depth-cap claim at a concrete depth: 258
nested reads fail with `TooDeeplyNested`. -/
theorem read_depth_limit_threshold_witness :
    1 ≤ 258 ∧ (∃ p, ValueDeserializer.read [] (deepInput 258) =
      .error ⟨p, ParseErrorKind.tooDeeplyNested⟩) :=
  ⟨by omega, (read_depth_limit_threshold 258 (by omega)).mpr (by omega)⟩


/-! ## Round-trip for heap-free values (serializer and deserializer) -/

theorem drop_succ_of_drop_cons (bytes : List Nat) (pos a : Nat) (l : List Nat)
    (h : bytes.drop pos = a :: l) : bytes.drop (pos + 1) = l := by
  have hstep : bytes.drop (pos + 1) = (bytes.drop pos).drop 1 := by
    rw [List.drop_drop]
  rw [hstep, h]
  rfl

theorem writeVarintFuel_acc : ∀ fuel v acc,
    writeVarintFuel fuel v acc = acc ++ writeVarintFuel fuel v [] := by
  intro fuel
  induction fuel with
  | zero => intro v acc; simp [writeVarintFuel]
  | succ f ih =>
      intro v acc
      show (if 0x80 ≤ v then writeVarintFuel f (v >>> 7) (acc ++ [v &&& 0x7F ||| 0x80])
            else acc ++ [v]) =
          acc ++ (if 0x80 ≤ v then writeVarintFuel f (v >>> 7) ([] ++ [v &&& 0x7F ||| 0x80])
            else [] ++ [v])
      by_cases h : 0x80 ≤ v
      · rw [if_pos h, if_pos h, ih (v >>> 7) (acc ++ [v &&& 0x7F ||| 0x80]),
          ih (v >>> 7) ([] ++ [v &&& 0x7F ||| 0x80])]
        simp
      · rw [if_neg h, if_neg h]
        simp

theorem or_shift_add (value v i : Nat) (h : value < 2 ^ i) :
    value ||| (v <<< i) = value + v * 2 ^ i := by
  rw [Nat.shiftLeft_eq, Nat.or_comm, mul_comm]
  rw [← Nat.mul_add_lt_is_or h v]
  omega

theorem and_7F (v : Nat) : v &&& 0x7F = v % 128 := by
  have h : (0x7F : Nat) = 2 ^ 7 - 1 := by norm_num
  rw [h, Nat.and_pow_two_sub_one_eq_mod]

theorem and_80_of_lt (v : Nat) (h : v < 128) : v &&& 0x80 = 0 := by
  have h80 : (0x80 : Nat) = 2 ^ 7 := by norm_num
  rw [h80, Nat.and_two_pow, Nat.testBit_lt_two_pow (by simpa using h)]
  rfl

theorem and_80_of_cont (v : Nat) : (v % 128 ||| 0x80) &&& 0x80 = 128 := by
  have ht : (v % 128 ||| 0x80).testBit 7 = true := by
    have h80 : (0x80 : Nat) = 2 ^ 7 := by norm_num
    rw [Nat.testBit_or, h80, Nat.testBit_two_pow_self]
    simp
  calc (v % 128 ||| 0x80) &&& 0x80
      = ((v % 128 ||| 0x80).testBit 7).toNat * 2 ^ 7 := by
        rw [show (0x80 : Nat) = 2 ^ 7 from by norm_num, Nat.and_two_pow]
    _ = 128 := by rw [ht]; rfl

theorem readVarintLoop_inv : ∀ (g : Nat), ∀ (i value v : Nat) (bytes rest : List Nat) (pos : Nat),
    g + i = 5 → value < 2 ^ (i * 7) → v < 2 ^ (32 - i * 7) →
    bytes.drop pos = writeVarintFuel g v [] ++ rest →
    readVarintLoop g value i ⟨bytes, pos⟩ =
      .ok (value + v * 2 ^ (i * 7), ⟨bytes, pos + (writeVarintFuel g v []).length⟩) := by
  intro g
  induction g with
  | zero =>
      intro i value v bytes rest pos hgi hvalue hv hdrop
      have hi : i = 5 := by omega
      subst hi
      have hv0 : v = 0 := by simpa using hv
      subst hv0
      simp [readVarintLoop, writeVarintFuel]
  | succ f ih =>
      intro i value v bytes rest pos hgi hvalue hv hdrop
      by_cases hsmall : 0x80 ≤ v
      · -- continuation byte: v ≥ 0x80
        have hwrite : writeVarintFuel (f + 1) v [] =
            (v &&& 0x7F ||| 0x80) :: writeVarintFuel f (v >>> 7) [] := by
          show (if 0x80 ≤ v then writeVarintFuel f (v >>> 7) ([] ++ [v &&& 0x7F ||| 0x80])
                else [] ++ [v]) = _
          rw [if_pos hsmall, writeVarintFuel_acc f (v >>> 7) ([] ++ [v &&& 0x7F ||| 0x80])]
          simp
        rw [hwrite] at hdrop
        have hb := get_of_drop_cons bytes pos _ _ hdrop
        have hdrop1 : bytes.drop (pos + 1) = writeVarintFuel f (v >>> 7) [] ++ rest :=
          drop_succ_of_drop_cons bytes pos _ _ hdrop
        have hi : i ≤ 3 := by
          by_contra hgt
          push_neg at hgt
          have hi4 : i = 4 := by omega
          subst hi4
          have : v < 2 ^ 4 := by simpa using hv
          omega
        have hP7 : (2 : Nat) ^ ((i + 1) * 7) = 2 ^ (i * 7) * 128 := by
          rw [show (i + 1) * 7 = i * 7 + 7 from by ring, pow_add]
          norm_num
        unfold readVarintLoop
        rw [readByte_eq bytes pos _ hb, except_bind_ok]
        dsimp only
        rw [and_7F v, and_80_of_cont v]
        rw [if_neg (by simp; omega)]
        rw [show (v % 128 ||| 0x80) &&& 0x7F = v % 128 from by
          rw [Nat.and_distrib_right, and_7F (v % 128),
            Nat.mod_mod_of_dvd v dvd_rfl, show (128 : Nat) &&& 0x7F = 0 from rfl,
            Nat.or_zero]]
        rw [or_shift_add value (v % 128) (i * 7) hvalue]
        have hlt1 : value + v % 128 * 2 ^ (i * 7) < 2 ^ ((i + 1) * 7) := by
          rw [hP7]
          have h1 : v % 128 * 2 ^ (i * 7) ≤ 127 * 2 ^ (i * 7) :=
            Nat.mul_le_mul_right _ (by omega)
          have h2 : (0 : Nat) < 2 ^ (i * 7) := Nat.pos_pow_of_pos _ (by norm_num)
          nlinarith [hvalue]
        have hlt2 : value + v % 128 * 2 ^ (i * 7) < 2 ^ 32 := by
          have : (2 : Nat) ^ ((i + 1) * 7) ≤ 2 ^ 32 :=
            Nat.pow_le_pow_right (by norm_num) (by omega)
          omega
        rw [Nat.mod_eq_of_lt hlt2]
        have hv' : v >>> 7 < 2 ^ (32 - (i + 1) * 7) := by
          rw [Nat.shiftRight_eq_div_pow]
          have h128 : (2 : Nat) ^ 7 = 128 := by norm_num
          rw [h128]
          rw [Nat.div_lt_iff_lt_mul (by norm_num : (0 : Nat) < 128)]
          calc v < 2 ^ (32 - i * 7) := hv
            _ = 2 ^ (32 - (i + 1) * 7) * 128 := by
                rw [show (32 : Nat) - i * 7 = (32 - (i + 1) * 7) + 7 from by omega, pow_add]
                norm_num
        have hIH := ih (i + 1) (value + v % 128 * 2 ^ (i * 7)) (v >>> 7) bytes rest (pos + 1)
          (by omega) hlt1 hv' hdrop1
        rw [hIH]
        have hval : value + v % 128 * 2 ^ (i * 7) + v >>> 7 * 2 ^ ((i + 1) * 7) =
            value + v * 2 ^ (i * 7) := by
          rw [Nat.shiftRight_eq_div_pow, show (2 : Nat) ^ 7 = 128 from by norm_num, hP7]
          have hdm : 128 * (v / 128) + v % 128 = v := Nat.div_add_mod v 128
          calc value + v % 128 * 2 ^ (i * 7) + v / 128 * (2 ^ (i * 7) * 128)
              = value + (128 * (v / 128) + v % 128) * 2 ^ (i * 7) := by ring
            _ = value + v * 2 ^ (i * 7) := by rw [hdm]
        rw [hval, hwrite]
        have hlen : pos + 1 + (writeVarintFuel f (v >>> 7) []).length =
            pos + ((v &&& 0x7F ||| 0x80) :: writeVarintFuel f (v >>> 7) []).length := by
          simp
          omega
        rw [hlen]
      · -- final byte: v < 0x80
        have hwrite : writeVarintFuel (f + 1) v [] = [v] := by
          show (if 0x80 ≤ v then writeVarintFuel f (v >>> 7) ([] ++ [v &&& 0x7F ||| 0x80])
                else [] ++ [v]) = _
          rw [if_neg hsmall]
          rfl
        rw [hwrite] at hdrop
        have hb := get_of_drop_cons bytes pos _ _ hdrop
        unfold readVarintLoop
        rw [readByte_eq bytes pos _ hb, except_bind_ok]
        dsimp only
        rw [and_7F v, and_80_of_lt v (by omega)]
        rw [if_pos (by simp)]
        rw [Nat.mod_eq_of_lt (by omega : v < 128)]
        rw [or_shift_add value v (i * 7) hvalue]
        have hlt : value + v * 2 ^ (i * 7) < 2 ^ 32 := by
          have h1 : v * 2 ^ (i * 7) + 2 ^ (i * 7) ≤ 2 ^ (32 - i * 7) * 2 ^ (i * 7) := by
            have : (v + 1) * 2 ^ (i * 7) ≤ 2 ^ (32 - i * 7) * 2 ^ (i * 7) :=
              Nat.mul_le_mul_right _ (by omega)
            nlinarith
          have h2 : (2 : Nat) ^ (32 - i * 7) * 2 ^ (i * 7) ≤ 2 ^ 32 := by
            rw [← pow_add]
            exact Nat.pow_le_pow_right (by norm_num) (by omega)
          omega
        rw [Nat.mod_eq_of_lt hlt, hwrite]
        rfl

theorem readVarint_write (v : Nat) (hv : v < 2 ^ 32) (bytes rest : List Nat) (pos : Nat)
    (hdrop : bytes.drop pos = varintBytes v ++ rest) :
    Input.readVarint ⟨bytes, pos⟩ = .ok (v, ⟨bytes, pos + (varintBytes v).length⟩) := by
  have h := readVarintLoop_inv 5 0 0 v bytes rest pos (by omega) (by norm_num)
    (by simpa using hv) hdrop
  unfold Input.readVarint varintBytes
  simpa using h

theorem xor_div_two (a b : Nat) : (a ^^^ b) / 2 = a / 2 ^^^ b / 2 := by
  apply Nat.eq_of_testBit_eq
  intro i
  simp [Nat.testBit_div_two, Nat.testBit_xor]

theorem xor_all_ones : ∀ (w : Nat) (x : Nat), x < 2 ^ w →
    x ^^^ (2 ^ w - 1) = 2 ^ w - 1 - x := by
  intro w
  induction w with
  | zero =>
      intro x hx
      interval_cases x
      rfl
  | succ w ih =>
      intro x hx
      have hp : 1 ≤ (2 : Nat) ^ w := Nat.one_le_two_pow
      have h2 : (2 : Nat) ^ (w + 1) = 2 * 2 ^ w := by rw [pow_succ]; ring
      have hhalf : (2 ^ (w + 1) - 1) / 2 = 2 ^ w - 1 := by omega
      have hdiv : (x ^^^ (2 ^ (w + 1) - 1)) / 2 = 2 ^ w - 1 - x / 2 := by
        rw [xor_div_two, hhalf]
        exact ih (x / 2) (by omega)
      have hmod : (x ^^^ (2 ^ (w + 1) - 1)) % 2 = (x + (2 ^ (w + 1) - 1)) % 2 :=
        Nat.xor_mod_two_eq
      have hdm := Nat.div_add_mod (x ^^^ (2 ^ (w + 1) - 1)) 2
      omega

theorem zigzagEncode_nonneg (v : Int) (h0 : 0 ≤ v) (h1 : v < 2 ^ 31) :
    zigzagEncode v = 2 * v.toNat := by
  unfold zigzagEncode toUInt32
  rw [if_neg (by omega)]
  have hmod : v % 2 ^ 32 = v := Int.emod_eq_of_lt h0 (by omega)
  rw [hmod, Nat.xor_zero, Nat.shiftLeft_eq]
  have hlt : v.toNat * 2 < 2 ^ 32 := by omega
  rw [Nat.mod_eq_of_lt hlt]
  omega

theorem zigzagEncode_neg (v : Int) (h0 : v < 0) (h1 : -2 ^ 31 ≤ v) :
    zigzagEncode v = 2 * v.natAbs - 1 := by
  unfold zigzagEncode toUInt32
  rw [if_pos h0]
  have hmod : v % 2 ^ 32 = v + 2 ^ 32 := by omega
  rw [hmod]
  have habs : (v + 2 ^ 32).toNat = 2 ^ 32 - v.natAbs := by omega
  rw [habs, Nat.shiftLeft_eq]
  have hm : 1 ≤ v.natAbs ∧ v.natAbs ≤ 2 ^ 31 := by omega
  have hshl : (2 ^ 32 - v.natAbs) * 2 ^ 1 % 2 ^ 32 = 2 ^ 32 - 2 * v.natAbs := by omega
  rw [hshl]
  have hx := xor_all_ones 32 (2 ^ 32 - 2 * v.natAbs) (by omega)
  have hones : (0xFFFFFFFF : Nat) = 2 ^ 32 - 1 := by norm_num
  rw [hones, hx]
  omega

theorem readZigzag_write (v : Int) (h0 : -2 ^ 31 ≤ v) (h1 : v < 2 ^ 31)
    (bytes rest : List Nat) (pos : Nat)
    (hdrop : bytes.drop pos = varintBytes (zigzagEncode v) ++ rest) :
    Input.readZigzag ⟨bytes, pos⟩ =
      .ok (v, ⟨bytes, pos + (varintBytes (zigzagEncode v)).length⟩) := by
  have henc : zigzagEncode v < 2 ^ 32 := by
    by_cases hneg : v < 0
    · rw [zigzagEncode_neg v hneg h0]; omega
    · rw [zigzagEncode_nonneg v (by omega) h1]; omega
  unfold Input.readZigzag
  rw [readVarint_write (zigzagEncode v) henc bytes rest pos hdrop, except_bind_ok]
  dsimp only
  have hval : toInt32 ((zigzagEncode v >>> 1) ^^^
      (if zigzagEncode v &&& 1 = 1 then 0xFFFFFFFF else 0)) = v := by
    by_cases hneg : v < 0
    · rw [zigzagEncode_neg v hneg h0]
      have hm : 1 ≤ v.natAbs ∧ v.natAbs ≤ 2 ^ 31 := by omega
      have hodd : (2 * v.natAbs - 1) &&& 1 = 1 := by
        rw [Nat.and_one_is_mod]
        omega
      rw [if_pos hodd]
      have hshr : (2 * v.natAbs - 1) >>> 1 = v.natAbs - 1 := by
        rw [Nat.shiftRight_eq_div_pow]
        omega
      rw [hshr]
      have hones : (0xFFFFFFFF : Nat) = 2 ^ 32 - 1 := by norm_num
      have hx := xor_all_ones 32 (v.natAbs - 1) (by omega)
      rw [hones, hx]
      unfold toInt32
      rw [if_neg (by omega)]
      omega
    · rw [zigzagEncode_nonneg v (by omega) h1]
      have heven : (2 * v.toNat) &&& 1 = 0 := by
        rw [Nat.and_one_is_mod]
        omega
      rw [if_neg (by omega)]
      have hshr : (2 * v.toNat) >>> 1 = v.toNat := by
        rw [Nat.shiftRight_eq_div_pow]
        omega
      rw [hshr, Nat.xor_zero]
      unfold toInt32
      rw [if_pos (by omega)]
      omega
  rw [hval]

theorem drop_add_of_drop_append (bytes pre post : List Nat) (pos : Nat)
    (h : bytes.drop pos = pre ++ post) : bytes.drop (pos + pre.length) = post := by
  have hstep : bytes.drop (pos + pre.length) = (bytes.drop pos).drop pre.length := by
    rw [List.drop_drop]
  rw [hstep, h, List.drop_left]

theorem pos_le_of_drop (bytes pre post : List Nat) (pos : Nat) (hpos : pos ≤ bytes.length)
    (h : bytes.drop pos = pre ++ post) : pos + pre.length ≤ bytes.length := by
  have hl := congrArg List.length h
  rw [List.length_drop, List.length_append] at hl
  omega

theorem readBytes_write (bytes payload rest : List Nat) (pos : Nat)
    (hpos : pos ≤ bytes.length)
    (hdrop : bytes.drop pos = payload ++ rest) :
    Input.readBytes ⟨bytes, pos⟩ payload.length =
      .ok (payload, ⟨bytes, pos + payload.length⟩) := by
  unfold Input.readBytes
  rw [if_pos (by exact pos_le_of_drop bytes payload rest pos hpos hdrop)]
  dsimp only
  rw [hdrop, List.take_left]

theorem leBytesToNat_natToLeBytes8 (bits : Nat) (h : bits < 2 ^ 64) :
    leBytesToNat (natToLeBytes8 bits) = bits := by
  unfold natToLeBytes8 leBytesToNat
  simp only [List.foldr]
  omega

theorem readDouble_write (bits : Nat) (hbits : bits < 2 ^ 64)
    (bytes rest : List Nat) (pos : Nat) (hpos : pos ≤ bytes.length)
    (hdrop : bytes.drop pos = natToLeBytes8 bits ++ rest) :
    Input.readDouble ⟨bytes, pos⟩ = .ok (bits, ⟨bytes, pos + 8⟩) := by
  unfold Input.readDouble
  have h8 : (natToLeBytes8 bits).length = 8 := rfl
  have hrb := readBytes_write bytes (natToLeBytes8 bits) rest pos hpos hdrop
  rw [h8] at hrb
  rw [hrb, except_bind_ok]
  dsimp only
  rw [leBytesToNat_natToLeBytes8 bits hbits]

theorem readUtf8String_write (payload : List Nat) (hlen : payload.length < 2 ^ 32)
    (bytes rest : List Nat) (pos : Nat) (hpos : pos ≤ bytes.length)
    (hdrop : bytes.drop pos = varintBytes payload.length ++ (payload ++ rest)) :
    readUtf8String ⟨bytes, pos⟩ =
      .ok (payload, ⟨bytes, pos + (varintBytes payload.length).length + payload.length⟩) := by
  unfold readUtf8String
  rw [readVarint_write payload.length hlen bytes (payload ++ rest) pos hdrop, except_bind_ok]
  dsimp only
  have hpos2 := pos_le_of_drop bytes (varintBytes payload.length) (payload ++ rest) pos hpos hdrop
  have hdrop2 := drop_add_of_drop_append bytes (varintBytes payload.length) (payload ++ rest) pos hdrop
  exact readBytes_write bytes payload rest _ hpos2 hdrop2

theorem readOneByteString_write (payload : List Nat) (hlen : payload.length < 2 ^ 32)
    (bytes rest : List Nat) (pos : Nat) (hpos : pos ≤ bytes.length)
    (hdrop : bytes.drop pos = varintBytes payload.length ++ (payload ++ rest)) :
    readOneByteString ⟨bytes, pos⟩ =
      .ok (payload, ⟨bytes, pos + (varintBytes payload.length).length + payload.length⟩) := by
  unfold readOneByteString
  rw [readVarint_write payload.length hlen bytes (payload ++ rest) pos hdrop, except_bind_ok]
  dsimp only
  have hpos2 := pos_le_of_drop bytes (varintBytes payload.length) (payload ++ rest) pos hpos hdrop
  have hdrop2 := drop_add_of_drop_append bytes (varintBytes payload.length) (payload ++ rest) pos hdrop
  exact readBytes_write bytes payload rest _ hpos2 hdrop2

theorem asU8Bytes_length : ∀ units : List Nat,
    (TwoByteString.asU8Bytes units).length = 2 * units.length := by
  intro units
  induction units with
  | nil => rfl
  | cons u rest ih =>
      show (TwoByteString.asU8Bytes rest).length + 1 + 1 = 2 * (rest.length + 1)
      rw [ih]
      ring

theorem bytesToU16LE_asU8Bytes : ∀ units : List Nat, (∀ u ∈ units, u < 2 ^ 16) →
    bytesToU16LE (TwoByteString.asU8Bytes units) = units := by
  intro units
  induction units with
  | nil => intro _; rfl
  | cons u rest ih =>
      intro h
      show (u % 256 + 256 * (u / 256 % 256)) :: bytesToU16LE (TwoByteString.asU8Bytes rest) =
        u :: rest
      rw [ih (fun x hx => h x (List.mem_cons_of_mem u hx))]
      have hu : u < 2 ^ 16 := h u (List.mem_cons_self u rest)
      congr 1
      omega

theorem readTwoByteString_write (units : List Nat) (hunits : ∀ u ∈ units, u < 2 ^ 16)
    (hlen : 2 * units.length < 2 ^ 32)
    (bytes rest : List Nat) (pos : Nat) (hpos : pos ≤ bytes.length)
    (hdrop : bytes.drop pos =
      varintBytes (2 * units.length) ++ (TwoByteString.asU8Bytes units ++ rest)) :
    readTwoByteString ⟨bytes, pos⟩ =
      .ok (units, ⟨bytes,
        pos + (varintBytes (2 * units.length)).length + 2 * units.length⟩) := by
  unfold readTwoByteString
  rw [readVarint_write (2 * units.length) hlen bytes _ pos hdrop, except_bind_ok]
  dsimp only
  rw [if_neg (by omega)]
  have hpos2 := pos_le_of_drop bytes (varintBytes (2 * units.length)) _ pos hpos hdrop
  have hdrop2 := drop_add_of_drop_append bytes (varintBytes (2 * units.length)) _ pos hdrop
  have hrb := readBytes_write bytes (TwoByteString.asU8Bytes units) rest _ hpos2 hdrop2
  rw [asU8Bytes_length units] at hrb
  rw [hrb, except_bind_ok]
  dsimp only
  rw [bytesToU16LE_asU8Bytes units hunits]

theorem bigint_mask (len s : Nat) (hs : s < 2) (hlen : len < 2 ^ 30) :
    (s + 2 * len) &&& 0x7FFFFFFE = 2 * len := by
  apply Nat.eq_of_testBit_eq
  intro i
  rw [Nat.testBit_and]
  match i with
  | 0 =>
      have hm0 : (0x7FFFFFFE : Nat).testBit 0 = false := by decide
      have hl0 : (2 * len).testBit 0 = false := by
        rw [Nat.testBit_zero]
        simp [Nat.mul_mod_right]
      rw [hm0, hl0, Bool.and_false]
  | i + 1 =>
      simp only [Nat.testBit_succ]
      have hx : (s + 2 * len) / 2 = len := by omega
      have hy : 2 * len / 2 = len := by omega
      have hmdiv : (0x7FFFFFFE : Nat) / 2 = 2 ^ 30 - 1 := by norm_num
      rw [hx, hy, hmdiv, Nat.testBit_two_pow_sub_one]
      by_cases hi : i < 30
      · simp [hi]
      · have hlb : len.testBit i = false :=
          Nat.testBit_lt_two_pow (lt_of_lt_of_le hlen
            (Nat.pow_le_pow_right (by norm_num) (by omega)))
        simp [hlb, hi]

theorem leBytesToNat_natToLeBytesAux : ∀ (fuel n : Nat), n ≤ fuel →
    leBytesToNat (natToLeBytesAux fuel n) = n := by
  intro fuel
  induction fuel with
  | zero => intro n h; interval_cases n; rfl
  | succ f ih =>
      intro n h
      show leBytesToNat (if n = 0 then [] else n % 256 :: natToLeBytesAux f (n / 256)) = n
      by_cases hn : n = 0
      · rw [if_pos hn, hn]; rfl
      · rw [if_neg hn]
        show n % 256 + 256 * leBytesToNat (natToLeBytesAux f (n / 256)) = n
        rw [ih (n / 256) (by omega)]
        omega

theorem intToLeBytes_spec (z : Int) (sgn : Bool) (bs : List Nat)
    (hz : intToLeBytes z = (sgn, bs)) :
    leBytesToNat bs = z.natAbs ∧ (if sgn then -(z.natAbs : Int) else z.natAbs) = z := by
  by_cases hz0 : z = 0
  · subst hz0
    unfold intToLeBytes at hz
    rw [if_pos rfl] at hz
    injection hz with h1 h2
    subst h1 h2
    constructor
    · rfl
    · rfl
  · unfold intToLeBytes at hz
    rw [if_neg hz0] at hz
    injection hz with h1 h2
    subst h1 h2
    constructor
    · exact leBytesToNat_natToLeBytesAux z.natAbs z.natAbs le_rfl
    · by_cases hneg : z < 0
      · rw [if_pos (by simpa using hneg)]
        omega
      · rw [if_neg (by simpa using hneg)]
        omega

theorem readBigint_write (z : Int) (sgn : Bool) (bs : List Nat)
    (hz : intToLeBytes z = (sgn, bs)) (hlen : bs.length < 2 ^ 30)
    (bytes rest : List Nat) (pos : Nat) (hpos : pos ≤ bytes.length)
    (hdrop : bytes.drop pos =
      varintBytes ((if sgn then 1 else 0) ||| (bs.length <<< 1)) ++ (bs ++ rest)) :
    readBigint ⟨bytes, pos⟩ = .ok (z,
      ⟨bytes, pos + (varintBytes ((if sgn then 1 else 0) ||| (bs.length <<< 1))).length
        + bs.length⟩) := by
  have hs2 : (if sgn then 1 else 0 : Nat) < 2 := by cases sgn <;> simp
  have hor : (if sgn then 1 else 0 : Nat) ||| (bs.length <<< 1) =
      (if sgn then 1 else 0) + 2 * bs.length := by
    rw [or_shift_add _ bs.length 1 (by simpa using hs2)]
    ring
  have hbf : (if sgn then 1 else 0 : Nat) + 2 * bs.length < 2 ^ 32 := by omega
  obtain ⟨hmag, hval⟩ := intToLeBytes_spec z sgn bs hz
  unfold readBigint
  rw [hor] at hdrop ⊢
  rw [readVarint_write _ hbf bytes (bs ++ rest) pos hdrop, except_bind_ok]
  dsimp only
  have h1 : ((if sgn then 1 else 0 : Nat) + 2 * bs.length) &&& 1 = (if sgn then 1 else 0) := by
    rw [Nat.and_one_is_mod]
    omega
  have h2 : (((if sgn then 1 else 0 : Nat) + 2 * bs.length) &&& 0x7FFFFFFE) >>> 1 =
      bs.length := by
    rw [bigint_mask bs.length (if sgn then 1 else 0) hs2 hlen, Nat.shiftRight_eq_div_pow]
    omega
  rw [h1, h2]
  have hpos2 := pos_le_of_drop bytes (varintBytes ((if sgn then 1 else 0) + 2 * bs.length))
    (bs ++ rest) pos hpos hdrop
  have hdrop2 := drop_add_of_drop_append bytes
    (varintBytes ((if sgn then 1 else 0) + 2 * bs.length)) (bs ++ rest) pos hdrop
  rw [readBytes_write bytes bs rest _ hpos2 hdrop2, except_bind_ok]
  dsimp only
  rw [hmag]
  cases sgn
  · rw [if_neg (by simp)]
    rw [show ((z.natAbs : Int) = z) from by simpa using hval]
  · rw [if_pos (by simp)]
    rw [show (-(z.natAbs : Int) = z) from by simpa using hval]

theorem skipPadding_one (bytes : List Nat) (pos b : Nat)
    (h0 : bytes.get? pos = some tagPadding)
    (h1 : bytes.get? (pos + 1) = some b) (hb : b ≠ tagPadding) :
    Input.skipPadding ⟨bytes, pos⟩ = ⟨bytes, pos + 1⟩ := by
  have hlt : pos + 1 < bytes.length := (List.get?_eq_some.mp h1).1
  unfold Input.skipPadding
  dsimp only
  obtain ⟨m, hm⟩ : ∃ m, bytes.length + 1 - pos = m + 2 :=
    ⟨bytes.length - pos - 1, by omega⟩
  rw [hm]
  unfold skipPaddingFuel
  rw [if_pos h0]
  unfold skipPaddingFuel
  rw [h1]
  simp only [Option.some.injEq]
  rw [if_neg hb]

theorem internal_null (fuel : Nat) (de : DeState) (heap : HeapBuilder)
    (bytes : List Nat) (pos : Nat) (h : bytes.get? pos = some tagNull) :
    readObjectInternal (fuel + 1) de ⟨bytes, pos⟩ heap =
      .ok (.null, de, ⟨bytes, pos + 1⟩, heap) := by
  unfold readObjectInternal
  rw [skipPadding_eq_self ⟨bytes, pos⟩ tagNull h (by decide)]
  dsimp only
  rw [readByte_eq bytes pos tagNull h]
  rfl

theorem internal_true (fuel : Nat) (de : DeState) (heap : HeapBuilder)
    (bytes : List Nat) (pos : Nat) (h : bytes.get? pos = some tagTrue) :
    readObjectInternal (fuel + 1) de ⟨bytes, pos⟩ heap =
      .ok (.bool true, de, ⟨bytes, pos + 1⟩, heap) := by
  unfold readObjectInternal
  rw [skipPadding_eq_self ⟨bytes, pos⟩ tagTrue h (by decide)]
  dsimp only
  rw [readByte_eq bytes pos tagTrue h]
  rfl

theorem internal_false (fuel : Nat) (de : DeState) (heap : HeapBuilder)
    (bytes : List Nat) (pos : Nat) (h : bytes.get? pos = some tagFalse) :
    readObjectInternal (fuel + 1) de ⟨bytes, pos⟩ heap =
      .ok (.bool false, de, ⟨bytes, pos + 1⟩, heap) := by
  unfold readObjectInternal
  rw [skipPadding_eq_self ⟨bytes, pos⟩ tagFalse h (by decide)]
  dsimp only
  rw [readByte_eq bytes pos tagFalse h]
  rfl

theorem internal_i32 (fuel : Nat) (de : DeState) (heap : HeapBuilder)
    (v : Int) (h0 : -2 ^ 31 ≤ v) (h1 : v < 2 ^ 31)
    (bytes rest : List Nat) (pos : Nat)
    (hdrop : bytes.drop pos = (tagInt32 :: varintBytes (zigzagEncode v)) ++ rest) :
    readObjectInternal (fuel + 1) de ⟨bytes, pos⟩ heap =
      .ok (.i32 v, de, ⟨bytes, pos + 1 + (varintBytes (zigzagEncode v)).length⟩, heap) := by
  have hb := get_of_drop_cons bytes pos _ _ hdrop
  have hdrop1 : bytes.drop (pos + 1) = varintBytes (zigzagEncode v) ++ rest :=
    drop_succ_of_drop_cons bytes pos _ _ hdrop
  unfold readObjectInternal
  rw [skipPadding_eq_self ⟨bytes, pos⟩ tagInt32 hb (by decide)]
  dsimp only
  rw [readByte_eq bytes pos tagInt32 hb, except_bind_ok]
  dsimp only
  rw [if_neg (by decide), if_neg (by decide), if_neg (by decide), if_neg (by decide),
    if_neg (by decide), if_pos rfl]
  rw [readZigzag_write v h0 h1 bytes rest (pos + 1) hdrop1, except_bind_ok]

theorem internal_u32 (fuel : Nat) (de : DeState) (heap : HeapBuilder)
    (v : Nat) (hv : v < 2 ^ 32)
    (bytes rest : List Nat) (pos : Nat)
    (hdrop : bytes.drop pos = (tagUint32 :: varintBytes v) ++ rest) :
    readObjectInternal (fuel + 1) de ⟨bytes, pos⟩ heap =
      .ok (.u32 v, de, ⟨bytes, pos + 1 + (varintBytes v).length⟩, heap) := by
  have hb := get_of_drop_cons bytes pos _ _ hdrop
  have hdrop1 : bytes.drop (pos + 1) = varintBytes v ++ rest :=
    drop_succ_of_drop_cons bytes pos _ _ hdrop
  unfold readObjectInternal
  rw [skipPadding_eq_self ⟨bytes, pos⟩ tagUint32 hb (by decide)]
  dsimp only
  rw [readByte_eq bytes pos tagUint32 hb, except_bind_ok]
  dsimp only
  rw [if_neg (by decide), if_neg (by decide), if_neg (by decide), if_neg (by decide),
    if_neg (by decide), if_neg (by decide), if_pos rfl]
  rw [readVarint_write v hv bytes rest (pos + 1) hdrop1, except_bind_ok]

theorem internal_double (fuel : Nat) (de : DeState) (heap : HeapBuilder)
    (bits : Nat) (hbits : bits < 2 ^ 64)
    (bytes rest : List Nat) (pos : Nat)
    (hdrop : bytes.drop pos = (tagDouble :: natToLeBytes8 bits) ++ rest) :
    readObjectInternal (fuel + 1) de ⟨bytes, pos⟩ heap =
      .ok (.double bits, de, ⟨bytes, pos + 1 + 8⟩, heap) := by
  have hb := get_of_drop_cons bytes pos _ _ hdrop
  have hdrop1 : bytes.drop (pos + 1) = natToLeBytes8 bits ++ rest :=
    drop_succ_of_drop_cons bytes pos _ _ hdrop
  have hpos1 : pos + 1 ≤ bytes.length := (List.get?_eq_some.mp hb).1
  unfold readObjectInternal
  rw [skipPadding_eq_self ⟨bytes, pos⟩ tagDouble hb (by decide)]
  dsimp only
  rw [readByte_eq bytes pos tagDouble hb, except_bind_ok]
  dsimp only
  rw [if_neg (by decide), if_neg (by decide), if_neg (by decide), if_neg (by decide),
    if_neg (by decide), if_neg (by decide), if_neg (by decide), if_pos rfl]
  rw [readDouble_write bits hbits bytes rest (pos + 1) hpos1 hdrop1, except_bind_ok]

theorem internal_bigint (fuel : Nat) (de : DeState) (heap : HeapBuilder)
    (z : Int) (sgn : Bool) (bs : List Nat)
    (hz : intToLeBytes z = (sgn, bs)) (hlen : bs.length < 2 ^ 30)
    (bytes rest : List Nat) (pos : Nat)
    (hdrop : bytes.drop pos =
      (tagBigInt :: varintBytes ((if sgn then 1 else 0) ||| (bs.length <<< 1))) ++
        (bs ++ rest)) :
    readObjectInternal (fuel + 1) de ⟨bytes, pos⟩ heap =
      .ok (.bigint z, de,
        ⟨bytes, pos + 1 + (varintBytes ((if sgn then 1 else 0) ||| (bs.length <<< 1))).length
          + bs.length⟩, heap) := by
  have hdropA : bytes.drop pos = tagBigInt ::
      (varintBytes ((if sgn then 1 else 0) ||| (bs.length <<< 1)) ++ (bs ++ rest)) := by
    simpa using hdrop
  have hb := get_of_drop_cons bytes pos _ _ hdropA
  have hdrop1 := drop_succ_of_drop_cons bytes pos _ _ hdropA
  have hpos1 : pos + 1 ≤ bytes.length := (List.get?_eq_some.mp hb).1
  unfold readObjectInternal
  rw [skipPadding_eq_self ⟨bytes, pos⟩ tagBigInt hb (by decide)]
  dsimp only
  rw [readByte_eq bytes pos tagBigInt hb, except_bind_ok]
  dsimp only
  rw [if_neg (by decide), if_neg (by decide), if_neg (by decide), if_neg (by decide),
    if_neg (by decide), if_neg (by decide), if_neg (by decide), if_neg (by decide),
    if_pos rfl]
  rw [readBigint_write z sgn bs hz hlen bytes rest (pos + 1) hpos1 hdrop1, except_bind_ok]

theorem internal_wtf8 (fuel : Nat) (de : DeState) (heap : HeapBuilder)
    (payload : List Nat) (hlen : payload.length < 2 ^ 32)
    (bytes rest : List Nat) (pos : Nat)
    (hdrop : bytes.drop pos =
      (tagUtf8String :: varintBytes payload.length) ++ (payload ++ rest)) :
    readObjectInternal (fuel + 1) de ⟨bytes, pos⟩ heap =
      .ok (.string (.wtf8 payload), de,
        ⟨bytes, pos + 1 + (varintBytes payload.length).length + payload.length⟩, heap) := by
  have hdropA : bytes.drop pos = tagUtf8String ::
      (varintBytes payload.length ++ (payload ++ rest)) := by simpa using hdrop
  have hb := get_of_drop_cons bytes pos _ _ hdropA
  have hdrop1 := drop_succ_of_drop_cons bytes pos _ _ hdropA
  have hpos1 : pos + 1 ≤ bytes.length := (List.get?_eq_some.mp hb).1
  unfold readObjectInternal
  rw [skipPadding_eq_self ⟨bytes, pos⟩ tagUtf8String hb (by decide)]
  dsimp only
  rw [readByte_eq bytes pos tagUtf8String hb, except_bind_ok]
  dsimp only
  rw [if_neg (by decide), if_neg (by decide), if_neg (by decide), if_neg (by decide),
    if_neg (by decide), if_neg (by decide), if_neg (by decide), if_neg (by decide),
    if_neg (by decide), if_pos rfl]
  rw [readUtf8String_write payload hlen bytes rest (pos + 1) hpos1 hdrop1, except_bind_ok]

theorem internal_oneByte (fuel : Nat) (de : DeState) (heap : HeapBuilder)
    (payload : List Nat) (hlen : payload.length < 2 ^ 32)
    (bytes rest : List Nat) (pos : Nat)
    (hdrop : bytes.drop pos =
      (tagOneByteString :: varintBytes payload.length) ++ (payload ++ rest)) :
    readObjectInternal (fuel + 1) de ⟨bytes, pos⟩ heap =
      .ok (.string (.oneByte payload), de,
        ⟨bytes, pos + 1 + (varintBytes payload.length).length + payload.length⟩, heap) := by
  have hdropA : bytes.drop pos = tagOneByteString ::
      (varintBytes payload.length ++ (payload ++ rest)) := by simpa using hdrop
  have hb := get_of_drop_cons bytes pos _ _ hdropA
  have hdrop1 := drop_succ_of_drop_cons bytes pos _ _ hdropA
  have hpos1 : pos + 1 ≤ bytes.length := (List.get?_eq_some.mp hb).1
  unfold readObjectInternal
  rw [skipPadding_eq_self ⟨bytes, pos⟩ tagOneByteString hb (by decide)]
  dsimp only
  rw [readByte_eq bytes pos tagOneByteString hb, except_bind_ok]
  dsimp only
  rw [if_neg (by decide), if_neg (by decide), if_neg (by decide), if_neg (by decide),
    if_neg (by decide), if_neg (by decide), if_neg (by decide), if_neg (by decide),
    if_neg (by decide), if_neg (by decide), if_pos rfl]
  rw [readOneByteString_write payload hlen bytes rest (pos + 1) hpos1 hdrop1, except_bind_ok]

theorem internal_twoByte (fuel : Nat) (de : DeState) (heap : HeapBuilder)
    (units : List Nat) (hunits : ∀ u ∈ units, u < 2 ^ 16)
    (hlen : 2 * units.length < 2 ^ 32)
    (bytes rest : List Nat) (pos : Nat)
    (hdrop : bytes.drop pos = (tagTwoByteString :: varintBytes (2 * units.length)) ++
      (TwoByteString.asU8Bytes units ++ rest)) :
    readObjectInternal (fuel + 1) de ⟨bytes, pos⟩ heap =
      .ok (.string (.twoByte units), de,
        ⟨bytes, pos + 1 + (varintBytes (2 * units.length)).length + 2 * units.length⟩,
        heap) := by
  have hdropA : bytes.drop pos = tagTwoByteString ::
      (varintBytes (2 * units.length) ++ (TwoByteString.asU8Bytes units ++ rest)) := by
    simpa using hdrop
  have hb := get_of_drop_cons bytes pos _ _ hdropA
  have hdrop1 := drop_succ_of_drop_cons bytes pos _ _ hdropA
  have hpos1 : pos + 1 ≤ bytes.length := (List.get?_eq_some.mp hb).1
  unfold readObjectInternal
  rw [skipPadding_eq_self ⟨bytes, pos⟩ tagTwoByteString hb (by decide)]
  dsimp only
  rw [readByte_eq bytes pos tagTwoByteString hb, except_bind_ok]
  dsimp only
  rw [if_neg (by decide), if_neg (by decide), if_neg (by decide), if_neg (by decide),
    if_neg (by decide), if_neg (by decide), if_neg (by decide), if_neg (by decide),
    if_neg (by decide), if_neg (by decide), if_neg (by decide), if_pos rfl]
  rw [readTwoByteString_write units hunits hlen bytes rest (pos + 1) hpos1 hdrop1,
    except_bind_ok]

theorem internal_twoByte_padded (fuel : Nat) (de : DeState) (heap : HeapBuilder)
    (units : List Nat) (hunits : ∀ u ∈ units, u < 2 ^ 16)
    (hlen : 2 * units.length < 2 ^ 32)
    (bytes rest : List Nat) (pos : Nat)
    (hdrop : bytes.drop pos =
      (tagPadding :: tagTwoByteString :: varintBytes (2 * units.length)) ++
        (TwoByteString.asU8Bytes units ++ rest)) :
    readObjectInternal (fuel + 1) de ⟨bytes, pos⟩ heap =
      .ok (.string (.twoByte units), de,
        ⟨bytes, pos + 2 + (varintBytes (2 * units.length)).length + 2 * units.length⟩,
        heap) := by
  have hdropA : bytes.drop pos = tagPadding :: (tagTwoByteString ::
      (varintBytes (2 * units.length) ++ (TwoByteString.asU8Bytes units ++ rest))) := by
    simpa using hdrop
  have hb0 := get_of_drop_cons bytes pos _ _ hdropA
  have hdropB := drop_succ_of_drop_cons bytes pos _ _ hdropA
  have hb1 := get_of_drop_cons bytes (pos + 1) _ _ hdropB
  have hdrop1 := drop_succ_of_drop_cons bytes (pos + 1) _ _ hdropB
  have hpos2 : pos + 1 + 1 ≤ bytes.length := (List.get?_eq_some.mp hb1).1
  unfold readObjectInternal
  rw [skipPadding_one bytes pos tagTwoByteString hb0 hb1 (by decide)]
  dsimp only
  rw [readByte_eq bytes (pos + 1) tagTwoByteString hb1, except_bind_ok]
  dsimp only
  rw [if_neg (by decide), if_neg (by decide), if_neg (by decide), if_neg (by decide),
    if_neg (by decide), if_neg (by decide), if_neg (by decide), if_neg (by decide),
    if_neg (by decide), if_neg (by decide), if_neg (by decide), if_pos rfl]
  have h := readTwoByteString_write units hunits hlen bytes rest (pos + 1 + 1) hpos2 hdrop1
  rw [h, except_bind_ok, show pos + 1 + 1 = pos + 2 from by omega]

theorem readObject_nonref (fuel : Nat) (tm : List (Nat × (List Nat × Option Nat)))
    (d : Nat) (hd : d ≤ 256) (v : Value) (hv : ∀ r, v ≠ .heapReference r)
    (heap : HeapBuilder) (input input' : Input)
    (hint : readObjectInternal fuel ⟨tm, d + 1⟩ input heap =
      .ok (v, ⟨tm, d + 1⟩, input', heap)) :
    readObject (fuel + 1) ⟨tm, d⟩ input heap = .ok (v, ⟨tm, d⟩, input', heap) := by
  unfold readObject
  rw [if_neg (by dsimp only; unfold RECURSION_DEPTH_LIMIT; omega)]
  rw [hint]
  dsimp only
  cases v with
  | heapReference r => exact absurd rfl (hv r)
  | undefined => rfl
  | null => rfl
  | bool b => rfl
  | i32 n => rfl
  | u32 n => rfl
  | double bits => rfl
  | bigint z => rfl
  | string s => rfl

theorem read_assembly (B : List Nat) (v : Value) (p : Nat)
    (hp : p = 2 + B.length)
    (hv : ∀ r, v ≠ .heapReference r)
    (hint : ∀ fuel : Nat,
      readObjectInternal (fuel + 1) ⟨[], 1⟩ ⟨0xFF :: 0x0F :: B, 2⟩ HeapBuilder.new =
        .ok (v, ⟨[], 1⟩, ⟨0xFF :: 0x0F :: B, p⟩, HeapBuilder.new)) :
    ValueDeserializer.read [] (0xFF :: 0x0F :: B) = .ok (v, ⟨0, []⟩) := by
  unfold ValueDeserializer.read
  dsimp only
  rw [expectTag_head (0x0F :: B), except_bind_ok]
  rw [readVarint_fifteen (0xFF :: 0x0F :: B) 1 rfl, except_bind_ok]
  dsimp only
  rw [if_neg (by decide)]
  obtain ⟨f, hf⟩ : ∃ f, 4 * (0xFF :: 0x0F :: B).length + 16 = f + 2 :=
    ⟨4 * (0xFF :: 0x0F :: B).length + 14, by omega⟩
  rw [hf]
  rw [readObject_nonref (f + 1) [] 0 (by omega) v hv HeapBuilder.new _ _ (hint f)]
  rw [except_bind_ok]
  dsimp only
  rw [expect_eof_ok_of_pos_le ⟨0xFF :: 0x0F :: B, p⟩ (by dsimp only; rw [hp]; simp; omega)]
  rw [except_bind_ok]
  rfl

theorem serFuel_succ (heap : Heap) : ∃ g, serFuel heap = g + 1 :=
  ⟨serFuel heap - 1, by unfold serFuel; omega⟩

theorem finish_undefined (heap : Heap) :
    ValueSerializer.finish heap .undefined = .ok [0xFF, 0x0F, tagUndefined] := by
  obtain ⟨g, hg⟩ := serFuel_succ heap
  unfold ValueSerializer.finish
  dsimp only
  rw [hg]
  rfl

theorem finish_null (heap : Heap) :
    ValueSerializer.finish heap .null = .ok [0xFF, 0x0F, tagNull] := by
  obtain ⟨g, hg⟩ := serFuel_succ heap
  unfold ValueSerializer.finish
  dsimp only
  rw [hg]
  rfl

theorem finish_bool (heap : Heap) (b : Bool) :
    ValueSerializer.finish heap (.bool b) =
      .ok [0xFF, 0x0F, if b then tagTrue else tagFalse] := by
  obtain ⟨g, hg⟩ := serFuel_succ heap
  unfold ValueSerializer.finish
  dsimp only
  rw [hg]
  cases b
  · rfl
  · rfl

theorem finish_i32 (heap : Heap) (n : Int) :
    ValueSerializer.finish heap (.i32 n) =
      .ok (0xFF :: 0x0F :: tagInt32 :: varintBytes (zigzagEncode n)) := by
  obtain ⟨g, hg⟩ := serFuel_succ heap
  unfold ValueSerializer.finish
  dsimp only
  rw [hg]
  rfl

theorem finish_u32 (heap : Heap) (n : Nat) :
    ValueSerializer.finish heap (.u32 n) =
      .ok (0xFF :: 0x0F :: tagUint32 :: varintBytes n) := by
  obtain ⟨g, hg⟩ := serFuel_succ heap
  unfold ValueSerializer.finish
  dsimp only
  rw [hg]
  rfl

theorem finish_double (heap : Heap) (bits : Nat) :
    ValueSerializer.finish heap (.double bits) =
      .ok (0xFF :: 0x0F :: tagDouble :: natToLeBytes8 bits) := by
  obtain ⟨g, hg⟩ := serFuel_succ heap
  unfold ValueSerializer.finish
  dsimp only
  rw [hg]
  rfl

theorem writeString_wtf8 (st : SerState) (bs : List Nat) (hlen : bs.length < 2 ^ 32) :
    st.writeString (.wtf8 bs) =
      .ok ⟨st.data ++ tagUtf8String :: (varintBytes bs.length ++ bs),
        st.idMap, st.recursionDepth⟩ := by
  unfold SerState.writeString
  dsimp only
  rw [if_pos hlen]
  simp [SerState.writeVarint, SerState.writeTag]

theorem writeString_oneByte (st : SerState) (bs : List Nat) (hlen : bs.length < 2 ^ 32) :
    st.writeString (.oneByte bs) =
      .ok ⟨st.data ++ tagOneByteString :: (varintBytes bs.length ++ bs),
        st.idMap, st.recursionDepth⟩ := by
  unfold SerState.writeString
  dsimp only
  rw [if_pos hlen]
  simp [SerState.writeVarint, SerState.writeTag]

theorem finish_wtf8 (heap : Heap) (bs : List Nat) (hlen : bs.length < 2 ^ 32) :
    ValueSerializer.finish heap (.string (.wtf8 bs)) =
      .ok (0xFF :: 0x0F :: tagUtf8String :: (varintBytes bs.length ++ bs)) := by
  obtain ⟨g, hg⟩ := serFuel_succ heap
  unfold ValueSerializer.finish
  dsimp only
  rw [hg]
  unfold writeValue
  dsimp only
  rw [writeString_wtf8 _ bs hlen]
  rfl

theorem finish_oneByte (heap : Heap) (bs : List Nat) (hlen : bs.length < 2 ^ 32) :
    ValueSerializer.finish heap (.string (.oneByte bs)) =
      .ok (0xFF :: 0x0F :: tagOneByteString :: (varintBytes bs.length ++ bs)) := by
  obtain ⟨g, hg⟩ := serFuel_succ heap
  unfold ValueSerializer.finish
  dsimp only
  rw [hg]
  unfold writeValue
  dsimp only
  rw [writeString_oneByte _ bs hlen]
  rfl

theorem writeBigintContents_eval (st : SerState) (z : Int) (sgn : Bool) (bs : List Nat)
    (hz : intToLeBytes z = (sgn, bs)) (hlen : bs.length < 2 ^ 30) :
    st.writeBigintContents z =
      .ok ⟨st.data ++ (varintBytes ((if sgn then 1 else 0) ||| (bs.length <<< 1)) ++ bs),
        st.idMap, st.recursionDepth⟩ := by
  unfold SerState.writeBigintContents
  dsimp only
  rw [hz]
  dsimp only
  rw [if_pos (by omega), if_neg (by omega)]
  simp [SerState.writeVarint]

theorem finish_bigint (heap : Heap) (z : Int) (sgn : Bool) (bs : List Nat)
    (hz : intToLeBytes z = (sgn, bs)) (hlen : bs.length < 2 ^ 30) :
    ValueSerializer.finish heap (.bigint z) =
      .ok (0xFF :: 0x0F :: tagBigInt ::
        (varintBytes ((if sgn then 1 else 0) ||| (bs.length <<< 1)) ++ bs)) := by
  obtain ⟨g, hg⟩ := serFuel_succ heap
  unfold ValueSerializer.finish
  dsimp only
  rw [hg]
  unfold writeValue SerState.writeBigint
  dsimp only
  rw [writeBigintContents_eval _ z sgn bs hz hlen]
  rfl

theorem writeString_twoByte (st : SerState) (units : List Nat)
    (hlen : (TwoByteString.asU8Bytes units).length < 2 ^ 32) :
    st.writeString (.twoByte units) =
      .ok ⟨st.data ++
        ((if (st.data.length + 1 +
            bytes_needed_for_varint (TwoByteString.asU8Bytes units).length) &&& 1 = 1
          then [tagPadding] else []) ++
          tagTwoByteString :: (varintBytes (TwoByteString.asU8Bytes units).length ++
            TwoByteString.asU8Bytes units)),
        st.idMap, st.recursionDepth⟩ := by
  unfold SerState.writeString
  dsimp only
  rw [if_pos hlen]
  by_cases hpad : (st.data.length + 1 +
      bytes_needed_for_varint (TwoByteString.asU8Bytes units).length) &&& 1 = 1
  · rw [if_pos hpad, if_pos hpad]
    simp [SerState.writeVarint, SerState.writeTag]
  · rw [if_neg hpad, if_neg hpad]
    simp [SerState.writeVarint, SerState.writeTag]

theorem finish_twoByte (heap : Heap) (units : List Nat)
    (hlen : (TwoByteString.asU8Bytes units).length < 2 ^ 32) :
    ValueSerializer.finish heap (.string (.twoByte units)) =
      .ok (0xFF :: 0x0F ::
        ((if (3 + bytes_needed_for_varint (TwoByteString.asU8Bytes units).length) &&& 1 = 1
          then [tagPadding] else []) ++
          tagTwoByteString :: (varintBytes (TwoByteString.asU8Bytes units).length ++
            TwoByteString.asU8Bytes units))) := by
  obtain ⟨g, hg⟩ := serFuel_succ heap
  unfold ValueSerializer.finish
  dsimp only
  rw [hg]
  unfold writeValue
  dsimp only
  rw [writeString_twoByte _ units hlen]
  rfl

theorem value_eq_refl_prim (v : Value) (hv : ∀ r, v ≠ .heapReference r) (lh rh : Heap) :
    value_eq 1 (v, lh) (v, rh) = some true := by
  unfold value_eq valueEqV
  cases v with
  | heapReference r => exact absurd rfl (hv r)
  | undefined => rfl
  | null => rfl
  | bool b => simp
  | i32 n => simp
  | u32 n => simp
  | bigint z => simp
  | string s => simp [stringRustEq]
  | double bits =>
      by_cases hnan : f64BitsIsNan bits
      · simp [hnan]
      · simp [hnan, f64BitsEq]

/-- C1 (corrected): deserialize ∘ serialize is the identity up to
`value_eq` for every well-formed heap-free value (no `HeapReference` in
the root) — `finish` succeeds, `read` of the produced bytes succeeds with
the same value over the empty heap, and `value_eq` accepts.  For general
well-formed `(Value, Heap)` pairs the law is false: the serializer
renumbers heap slots in first-encounter order while `value_eq` compares
raw slot indices (see `roundtrip_not_identity_on_shifted_heap`). -/
theorem serialize_roundtrip_heap_free (heap : Heap) (v : Value) (hwf : PrimitiveWF v) :
    ∃ bytes, ValueSerializer.finish heap v = .ok bytes ∧
      ValueDeserializer.read [] bytes = .ok (v, ⟨0, []⟩) ∧
      value_eq 1 (v, heap) (v, ⟨0, []⟩) = some true := by
  cases v with
  | heapReference r => exact absurd hwf (by simp [PrimitiveWF])
  | undefined =>
      refine ⟨_, finish_undefined heap, ?_, value_eq_refl_prim .undefined (by simp) heap ⟨0, []⟩⟩
      exact read_assembly [tagUndefined] .undefined (2 + 1) rfl (by simp)
        (fun fuel => internal_undefined fuel ⟨[], 1⟩ HeapBuilder.new _ 2 rfl)
  | null =>
      refine ⟨_, finish_null heap, ?_, value_eq_refl_prim .null (by simp) heap ⟨0, []⟩⟩
      exact read_assembly [tagNull] .null (2 + 1) rfl (by simp)
        (fun fuel => internal_null fuel ⟨[], 1⟩ HeapBuilder.new _ 2 rfl)
  | bool b =>
      cases b
      · refine ⟨_, finish_bool heap false, ?_,
          value_eq_refl_prim (.bool false) (by simp) heap ⟨0, []⟩⟩
        exact read_assembly [tagFalse] (.bool false) (2 + 1) rfl (by simp)
          (fun fuel => internal_false fuel ⟨[], 1⟩ HeapBuilder.new _ 2 rfl)
      · refine ⟨_, finish_bool heap true, ?_,
          value_eq_refl_prim (.bool true) (by simp) heap ⟨0, []⟩⟩
        exact read_assembly [tagTrue] (.bool true) (2 + 1) rfl (by simp)
          (fun fuel => internal_true fuel ⟨[], 1⟩ HeapBuilder.new _ 2 rfl)
  | i32 n =>
      obtain ⟨h0, h1⟩ : -2 ^ 31 ≤ n ∧ n < 2 ^ 31 := hwf
      refine ⟨_, finish_i32 heap n, ?_, value_eq_refl_prim (.i32 n) (by simp) heap ⟨0, []⟩⟩
      exact read_assembly (tagInt32 :: varintBytes (zigzagEncode n)) (.i32 n)
        (2 + 1 + (varintBytes (zigzagEncode n)).length) (by simp; omega) (by simp)
        (fun fuel => internal_i32 fuel ⟨[], 1⟩ HeapBuilder.new n h0 h1 _ [] 2 (by simp))
  | u32 n =>
      have hn : n < 2 ^ 32 := hwf
      refine ⟨_, finish_u32 heap n, ?_, value_eq_refl_prim (.u32 n) (by simp) heap ⟨0, []⟩⟩
      exact read_assembly (tagUint32 :: varintBytes n) (.u32 n)
        (2 + 1 + (varintBytes n).length) (by simp; omega) (by simp)
        (fun fuel => internal_u32 fuel ⟨[], 1⟩ HeapBuilder.new n hn _ [] 2 (by simp))
  | double bits =>
      have hb : bits < 2 ^ 64 := hwf
      refine ⟨_, finish_double heap bits, ?_,
        value_eq_refl_prim (.double bits) (by simp) heap ⟨0, []⟩⟩
      exact read_assembly (tagDouble :: natToLeBytes8 bits) (.double bits)
        (2 + 1 + 8) (by simp [natToLeBytes8]) (by simp)
        (fun fuel => internal_double fuel ⟨[], 1⟩ HeapBuilder.new bits hb _ [] 2 (by simp))
  | bigint z =>
      obtain ⟨sgn, bs, hz⟩ : ∃ sgn bs, intToLeBytes z = (sgn, bs) :=
        ⟨(intToLeBytes z).1, (intToLeBytes z).2, rfl⟩
      have hlen : bs.length < 2 ^ 30 := by
        have : (intToLeBytes z).2.length < 2 ^ 30 := hwf
        rw [hz] at this
        exact this
      refine ⟨_, finish_bigint heap z sgn bs hz hlen, ?_,
        value_eq_refl_prim (.bigint z) (by simp) heap ⟨0, []⟩⟩
      exact read_assembly
        (tagBigInt :: (varintBytes ((if sgn then 1 else 0) ||| (bs.length <<< 1)) ++ bs))
        (.bigint z)
        (2 + 1 + (varintBytes ((if sgn then 1 else 0) ||| (bs.length <<< 1))).length
          + bs.length)
        (by simp; omega) (by simp)
        (fun fuel => internal_bigint fuel ⟨[], 1⟩ HeapBuilder.new z sgn bs hz hlen _ [] 2
          (by simp))
  | string s =>
      cases s with
      | wtf8 bs =>
          obtain ⟨hlen, _⟩ : bs.length < 2 ^ 32 ∧ ∀ b ∈ bs, b < 256 := hwf
          refine ⟨_, finish_wtf8 heap bs hlen, ?_,
            value_eq_refl_prim (.string (.wtf8 bs)) (by simp) heap ⟨0, []⟩⟩
          exact read_assembly
            (tagUtf8String :: (varintBytes bs.length ++ bs)) (.string (.wtf8 bs))
            (2 + 1 + (varintBytes bs.length).length + bs.length)
            (by simp; omega) (by simp)
            (fun fuel => internal_wtf8 fuel ⟨[], 1⟩ HeapBuilder.new bs hlen _ [] 2 (by simp))
      | oneByte bs =>
          obtain ⟨hlen, _⟩ : bs.length < 2 ^ 32 ∧ ∀ b ∈ bs, b < 256 := hwf
          refine ⟨_, finish_oneByte heap bs hlen, ?_,
            value_eq_refl_prim (.string (.oneByte bs)) (by simp) heap ⟨0, []⟩⟩
          exact read_assembly
            (tagOneByteString :: (varintBytes bs.length ++ bs)) (.string (.oneByte bs))
            (2 + 1 + (varintBytes bs.length).length + bs.length)
            (by simp; omega) (by simp)
            (fun fuel => internal_oneByte fuel ⟨[], 1⟩ HeapBuilder.new bs hlen _ [] 2 (by simp))
      | twoByte units =>
          obtain ⟨hlen2, hunits⟩ : 2 * units.length < 2 ^ 32 ∧ ∀ u ∈ units, u < 2 ^ 16 := hwf
          have hlen : (TwoByteString.asU8Bytes units).length < 2 ^ 32 := by
            rw [asU8Bytes_length]
            exact hlen2
          have hlenEq : (TwoByteString.asU8Bytes units).length = 2 * units.length :=
            asU8Bytes_length units
          refine ⟨_, finish_twoByte heap units hlen, ?_,
            value_eq_refl_prim (.string (.twoByte units)) (by simp) heap ⟨0, []⟩⟩
          rw [hlenEq]
          by_cases hpad : (3 + bytes_needed_for_varint (2 * units.length)) &&& 1 = 1
          · rw [if_pos hpad]
            exact read_assembly
              (tagPadding :: tagTwoByteString ::
                (varintBytes (2 * units.length) ++ TwoByteString.asU8Bytes units))
              (.string (.twoByte units))
              (2 + 2 + (varintBytes (2 * units.length)).length + 2 * units.length)
              (by simp [asU8Bytes_length]; omega) (by simp)
              (fun fuel => internal_twoByte_padded fuel ⟨[], 1⟩ HeapBuilder.new units hunits
                hlen2 _ [] 2 (by simp))
          · rw [if_neg hpad]
            exact read_assembly
              (tagTwoByteString ::
                (varintBytes (2 * units.length) ++ TwoByteString.asU8Bytes units))
              (.string (.twoByte units))
              (2 + 1 + (varintBytes (2 * units.length)).length + 2 * units.length)
              (by simp [asU8Bytes_length]; omega) (by simp)
              (fun fuel => internal_twoByte fuel ⟨[], 1⟩ HeapBuilder.new units hunits
                hlen2 _ [] 2 (by simp))


/-- Counterexample to the round-trip law as literally stated: a
well-formed pair (both heap slots populated, the root reference resolving
to slot 1, no views, no size limit anywhere near) on which `finish` and
`read` both succeed, yet `value_eq` rejects the result.  The serializer
renumbers heap values by first-encounter order, so the unreferenced slot 0
disappears and the root comes back as slot 0, while `HeapEq for
HeapReference` compares the raw slot indices first. -/
theorem roundtrip_not_identity_on_shifted_heap :
    ValueSerializer.finish ⟨0, [.booleanObject false, .booleanObject true]⟩
        (.heapReference ⟨0, 1⟩) = .ok [0xFF, 0x0F, 0x79] ∧
    ValueDeserializer.read [] [0xFF, 0x0F, 0x79] =
      .ok (.heapReference ⟨0, 0⟩, ⟨0, [.booleanObject true]⟩) ∧
    value_eq 100
      (.heapReference ⟨0, 1⟩, ⟨0, [.booleanObject false, .booleanObject true]⟩)
      (.heapReference ⟨0, 0⟩, ⟨0, [.booleanObject true]⟩) = some false :=
  ⟨rfl, rfl, rfl⟩

/-- Witness for the corrected round-trip claim at the concrete value
`I32 5` over the empty heap. -/
theorem serialize_roundtrip_heap_free_witness :
    PrimitiveWF (.i32 5) ∧
    (∃ bytes, ValueSerializer.finish ⟨0, []⟩ (.i32 5) = .ok bytes ∧
      ValueDeserializer.read [] bytes = .ok (.i32 5, ⟨0, []⟩) ∧
      value_eq 1 (.i32 5, ⟨0, []⟩) (.i32 5, ⟨0, []⟩) = some true) :=
  ⟨⟨by norm_num, by norm_num⟩,
    serialize_roundtrip_heap_free ⟨0, []⟩ (.i32 5) ⟨by norm_num, by norm_num⟩⟩


end V8
